import Mathlib

/-!
# bmp-hider: bitmap codec and least-significant-bit packing

A shallow embedding of `src/image-parser.c` and of the embedding engine of
`src/main.c`, followed by the properties established about it.

Conventions of the embedding.

* A byte buffer (`uint8_t*`) is a `List Nat` whose entries are byte values.
  `buffer[i]` is `buffer.getD i 0` and `buffer[i] = v` is `buffer.set i v`;
  every store reduces the stored value modulo 256 (`u8`).  Where the source
  indexes a buffer with a computed `int` (`index` in the two pixel loops of
  the codec) the index is an `Int` and the accesses are `load` and `store`: a
  load outside the buffer reads as 0 and a store outside it is dropped.  The
  offsets of those accesses are listed by `parse_image_pixel_reads` and
  `create_image_file_writes`, and the theorems say when they lie in the buffer.
* Fixed-width unsigned arithmetic is arithmetic on `Nat` reduced modulo
  `2 ^ 32` (`uint32_t`) or `2 ^ 64` (`size_t`).  A value converted to `int`
  or `int32_t` is reduced to the two's-complement range by `toInt32`.
* The signed product `i * image_depth` of the two index computations is
  reduced by `toInt32` as well: where it exceeds the range of `int` the C
  standard leaves the behaviour undefined, and the embedding takes the
  two's-complement result.  `product_fits` says when the product is in range.
* The loop counters and cursors declared `int` in the source (`i`,
  `content_byte`, `content_bit`) are natural numbers.
* The global `bit_number` is an explicit argument.
* Memory returned by `malloc` and locals that are not initialised have
  unspecified contents; they are arguments named `junk`.
-/

namespace BmpHider

/-! ## Machine integers -/

/-- Value kept by a store into a `uint8_t`. -/
def u8 (n : Nat) : Nat := n % 256

/-- Value kept by a store into a `uint16_t`. -/
def u16 (n : Nat) : Nat := n % 65536

/-- Value kept by a store into a `uint32_t`. -/
def u32 (n : Nat) : Nat := n % 4294967296

/-- Value of an unsigned `size_t` expression (64 bits). -/
def usize (n : Nat) : Nat := n % 18446744073709551616

/-- Conversion of an integer value to `int` / `int32_t` (two's complement). -/
def toInt32 (n : Int) : Int := (n + 2147483648) % 4294967296 - 2147483648

/-- Conversion of a signed value to `size_t`. -/
def toSizeT (n : Int) : Nat := (n % 18446744073709551616).toNat

/-- Conversion of a signed value to `uint32_t`. -/
def toU32 (n : Int) : Nat := (n % 4294967296).toNat

/-- A block of `n` bytes as `malloc` returns it: byte `i` holds `junk i`. -/
def malloc (n : Nat) (junk : Nat → Nat) : List Nat :=
  (List.range n).map (fun i => u8 (junk i))

/-- `memset(buffer, value, n)`. -/
def memset (buffer : List Nat) (value n : Nat) : List Nat :=
  List.replicate (min n buffer.length) value ++ buffer.drop n

/-! ## Data model (`image-parser.h`) -/

inductive ImageType where
  | IMAGE_NONE
  | IMAGE_RGB24
  | IMAGE_RGBA16
  | IMAGE_RGBA32
deriving DecidableEq

inductive ImageParseError where
  | PARSE_ERROR_NO_ERROR
  | PARSE_ERROR_INVALID_MAGIC_NUMBER
  | PARSE_ERROR_INVALID_LENGTH
  | PARSE_ERROR_COMPRESSION_NOT_SUPPORTED
  | PARSE_ERROR_MINIMUM_PIXEL_SIZE_16
deriving DecidableEq

/-- One pixel: four `uint16_t` channels. -/
structure Pixel where
  r : Nat
  g : Nat
  b : Nat
  a : Nat
deriving DecidableEq

/-- The decoded image.  `height` and `width` are `size_t`, the resolutions and
`reserved` are `int32_t`, `buffer` is the pixel array. -/
structure ImageData where
  type : ImageType
  height : Nat
  width : Nat
  buffer : List Pixel
  resolution_horizontal : Int
  resolution_vertical : Int
  reserved : Int
deriving DecidableEq

/-! ## Bit cursor routines (`main.c`) -/

/-- `get_bits`: the `bit_number` bits of `content` that start at bit `bit` of
byte `byte`. -/
def get_bits (bit_number : Nat) (content : List Nat) (byte bit : Nat) : Nat :=
  if bit_number + bit ≤ 8 then
    let bit_number_inv := u8 (8 - bit_number)
    let mask := u8 (0xFF <<< bit_number_inv)
    let mask := u8 (mask >>> bit_number_inv)
    let mask_shifted := u8 (mask <<< bit)
    let content_bits := u8 (content.getD byte 0 &&& mask_shifted)
    let content_bits_shifted := u8 (content_bits >>> bit)
    u16 content_bits_shifted
  else
    let bits_in_1 := u8 (8 - bit)
    let bits_in_2 := u8 (bit_number - bits_in_1)
    let mask_1 := u8 (0xFF <<< (8 - bits_in_1))
    let mask_2 := u8 (0xFF >>> (8 - bits_in_2))
    let content_1 := u8 ((content.getD byte 0 &&& mask_1) >>> (8 - bits_in_1))
    let content_2 := u8 ((content.getD (byte + 1) 0 &&& mask_2) <<< bits_in_1)
    let final_content := u8 (content_1 ||| content_2)
    u16 final_content

/-- `add_bits`: OR the bits of `data` into `buffer` at bit `bit` of byte
`byte`. -/
def add_bits (bit_number : Nat) (buffer : List Nat) (byte bit data : Nat) : List Nat :=
  if bit_number + bit ≤ 8 then
    buffer.set byte (u8 (buffer.getD byte 0 ||| (data <<< bit)))
  else
    let bits_in_1 := 8 - bit
    let buffer := buffer.set byte (u8 (buffer.getD byte 0 ||| (data <<< bit)))
    buffer.set (byte + 1) (u8 (buffer.getD (byte + 1) 0 ||| (data >>> bits_in_1)))

/-! ## Bitmap codec (`image-parser.c`)

Multi-byte header fields are read and written through pointer casts in the
source; the embedding fixes the little-endian byte order. -/

/-- `*(uint16_t*)(raw_data + off)`. -/
def read_u16 (raw_data : List Nat) (off : Nat) : Nat :=
  raw_data.getD off 0 + 256 * raw_data.getD (off + 1) 0

/-- `*(uint32_t*)(raw_data + off)`. -/
def read_u32 (raw_data : List Nat) (off : Nat) : Nat :=
  raw_data.getD off 0 + 256 * raw_data.getD (off + 1) 0
    + 65536 * raw_data.getD (off + 2) 0 + 16777216 * raw_data.getD (off + 3) 0

/-- `*(uint16_t*)(buffer + off) = value`. -/
def write_u16 (buffer : List Nat) (off value : Nat) : List Nat :=
  (buffer.set off (value % 256)).set (off + 1) (value / 256 % 256)

/-- `*(uint32_t*)(buffer + off) = value`. -/
def write_u32 (buffer : List Nat) (off value : Nat) : List Nat :=
  (((buffer.set off (value % 256)).set (off + 1) (value / 256 % 256)).set (off + 2)
    (value / 65536 % 256)).set (off + 3) (value / 16777216 % 256)

/-- `buffer[index]` for an `int` index; outside the buffer the value read is
taken to be 0. -/
def load (buffer : List Nat) (index : Int) : Nat :=
  if index < 0 then 0 else buffer.getD index.toNat 0

/-- `buffer[index] = value` for an `int` index; a store outside the buffer is
dropped. -/
def store (buffer : List Nat) (index : Int) (value : Nat) : List Nat :=
  if index < 0 then buffer else buffer.set index.toNat value

/-- `*(uint32_t*)(buffer + index)` for an `int` index. -/
def load_u32 (buffer : List Nat) (index : Int) : Nat :=
  load buffer index + 256 * load buffer (index + 1)
    + 65536 * load buffer (index + 2) + 16777216 * load buffer (index + 3)

/-- `*(uint32_t*)(buffer + index) = value` for an `int` index. -/
def store_u32 (buffer : List Nat) (index : Int) (value : Nat) : List Nat :=
  store (store (store (store buffer index (value % 256)) (index + 1) (value / 256 % 256))
    (index + 2) (value / 65536 % 256)) (index + 3) (value / 16777216 % 256)

/-- Whether the signed product `i * image_depth` of the index computations
fits an `int`. -/
def product_fits (i image_depth : Nat) : Bool :=
  decide (i * image_depth < 2147483648)

/-- The zero-initialised `ImageData parsed = { 0 }`. -/
def parsed_zero : ImageData :=
  { type := ImageType.IMAGE_NONE, height := 0, width := 0, buffer := [],
    resolution_horizontal := 0, resolution_vertical := 0, reserved := 0 }

/-- `padding` of `parse_image`: `4 - (((width * image_depth) / 8) % 4)` in
`uint32_t` arithmetic. -/
def parse_padding (width image_depth : Nat) : Nat :=
  4 - (u32 (width * image_depth) / 8) % 4

/-- `row_size` of `parse_image`:
`width * height * image_depth / 8 + height * padding` in `uint32_t` arithmetic,
stored in an `int`. -/
def parse_row_size (width height image_depth : Nat) : Int :=
  toInt32 ((u32 (u32 (u32 (width * height) * image_depth) / 8
    + u32 (height * parse_padding width image_depth)) : Nat) : Int)

/-- `index` of the loop of `parse_image`:
`data_start + i * image_depth / 8 + (i / width) * padding`.  The product
`i * image_depth` and its quotient by 8 are `int` values, `(i / width) * padding`
is a `uint32_t` value, the sum is a `uint32_t` value, stored in an `int`. -/
def parse_index (data_start width image_depth i : Nat) : Int :=
  toInt32 ((u32 (toU32 ((data_start : Int)
      + Int.tdiv (toInt32 ((i : Int) * (image_depth : Int))) 8)
    + u32 (i / width * parse_padding width image_depth)) : Nat) : Int)

/-- Body of the loop of `parse_image`: `junk` is the uninitialised
`currentPixel`, of which the branch taken assigns some channels. -/
def parse_pixel (raw_data : List Nat) (image_depth : Nat) (index : Int) (junk : Pixel) :
    Pixel :=
  if image_depth = 16 then
    { b := u16 (load raw_data index &&& 0x0F),
      g := u16 (load raw_data index &&& 0xF0),
      r := u16 (load raw_data (index + 1) &&& 0x0F),
      a := u16 (load raw_data (index + 1) &&& 0xF0) }
  else if image_depth = 24 then
    { b := u16 (load raw_data index),
      g := u16 (load raw_data (index + 1)),
      r := u16 (load raw_data (index + 2)),
      a := junk.a }
  else if image_depth = 32 then
    { b := u16 ((load raw_data index + (u16 (load raw_data (index + 1)) <<< 8)) &&& 0x1FF),
      g := u16 ((load raw_data (index + 1) + (u16 (load raw_data (index + 2)) <<< 8)) &&& 0x1FE),
      r := u16 (load raw_data (index + 2) &&& 0xFE),
      a := u16 (load raw_data (index + 3) &&& 0x1F) }
  else
    junk

/-- The `switch` that sets `parsed.type`. -/
def type_of_depth (image_depth : Nat) : ImageType :=
  if image_depth = 16 then ImageType.IMAGE_RGBA16
  else if image_depth = 24 then ImageType.IMAGE_RGB24
  else if image_depth = 32 then ImageType.IMAGE_RGBA32
  else ImageType.IMAGE_NONE

/-- `parse_image`: returns the parsed image and `*parse_error`.  The pixel
array holds the `width * height` (a `uint32_t` product) pixels the loop
assigns; `junk i` is the uninitialised `currentPixel` of iteration `i`.  The
`malloc` of the pixel array is not tested in the source and is taken to
succeed (`parse_image_allocation` is the size it asks for); the offsets the
loop loads from are those of `parse_image_pixel_reads`. -/
def parse_image (raw_data : List Nat) (length : Nat) (junk : Nat → Pixel) :
    ImageData × ImageParseError :=
  if length < 34 then
    (parsed_zero, ImageParseError.PARSE_ERROR_INVALID_LENGTH)
  else if raw_data.getD 0 0 ≠ 66 ∨ raw_data.getD 1 0 ≠ 77 then
    (parsed_zero, ImageParseError.PARSE_ERROR_INVALID_MAGIC_NUMBER)
  else
    let reserved := read_u32 raw_data 6
    let data_start := u8 (read_u32 raw_data 10)
    let width := read_u32 raw_data 18
    let height := read_u32 raw_data 22
    let image_depth := read_u16 raw_data 28
    let compression := read_u32 raw_data 30
    let res_hoz := toInt32 (read_u32 raw_data 38)
    let res_vrt := toInt32 (read_u32 raw_data 42)
    let row_size := parse_row_size width height image_depth
    if compression ≠ 0 then
      (parsed_zero, ImageParseError.PARSE_ERROR_COMPRESSION_NOT_SUPPORTED)
    else if image_depth < 16 then
      (parsed_zero, ImageParseError.PARSE_ERROR_MINIMUM_PIXEL_SIZE_16)
    else if length < toSizeT (toInt32 ((data_start : Int) + row_size)) then
      (parsed_zero, ImageParseError.PARSE_ERROR_INVALID_LENGTH)
    else
      let pixel_arr := (List.range (u32 (width * height))).map (fun i =>
        parse_pixel raw_data image_depth (parse_index data_start width image_depth i) (junk i))
      ({ type := type_of_depth image_depth, height := height, width := width,
         buffer := pixel_arr, resolution_horizontal := res_hoz,
         resolution_vertical := res_vrt, reserved := toInt32 reserved },
       ImageParseError.PARSE_ERROR_NO_ERROR)

/-- `padding` of `create_image_file`, in `size_t` arithmetic. -/
def create_padding (width image_depth : Nat) : Nat :=
  4 - (usize (width * image_depth) / 8) % 4

/-- `index` of the loop of `create_image_file`:
`header_size + i * image_depth / 8 + (i / data.width) * padding`.  The product
`i * image_depth` and its quotient by 8 are `int` values, the sum with
`header_size` is a `uint32_t` value, `(i / data.width) * padding` and the whole
sum are `size_t` values, stored in an `int`. -/
def create_index (width image_depth i : Nat) : Int :=
  toInt32 ((usize (u32 (54 + toU32 (Int.tdiv (toInt32 ((i : Int) * (image_depth : Int))) 8))
    + usize (i / width * create_padding width image_depth)) : Nat) : Int)

/-- Body of the loop of `create_image_file`: the stores for one pixel. -/
def write_pixel (image_depth : Nat) (buffer : List Nat) (index : Int) (pixel : Pixel) :
    List Nat :=
  if image_depth = 16 then
    let buffer := store buffer index (u8 pixel.b)
    let buffer := store buffer index (u8 (load buffer index ||| (u8 pixel.g <<< 4)))
    let buffer := store buffer (index + 1) (u8 pixel.r)
    store buffer (index + 1) (u8 (load buffer (index + 1) ||| (u8 pixel.a <<< 4)))
  else if image_depth = 24 then
    let buffer := store buffer index (u8 pixel.b)
    let buffer := store buffer (index + 1) (u8 pixel.g)
    store buffer (index + 2) (u8 pixel.r)
  else if image_depth = 32 then
    let buffer := store_u32 buffer index (u8 pixel.b)
    let buffer := store_u32 buffer index (load_u32 buffer index ||| u32 (pixel.g <<< 9))
    let buffer := store_u32 buffer index (load_u32 buffer index ||| u32 (pixel.b <<< 17))
    store_u32 buffer index (load_u32 buffer index ||| u32 (pixel.a <<< 24))
  else
    buffer

/-- The pixel loop of `create_image_file`: the first argument is the number
of iterations left, the second the loop counter `i`, the list the pixel array
from index `i` on. -/
def create_loop (width image_depth : Nat) : Nat → Nat → List Pixel → List Nat → List Nat
  | 0, _, _, buffer => buffer
  | _ + 1, _, [], buffer => buffer
  | n + 1, i, pixel :: rest, buffer =>
    create_loop width image_depth n (i + 1) rest
      (write_pixel image_depth buffer (create_index width image_depth i) pixel)

/-- The header stores of `create_image_file`. -/
def write_header (buffer : List Nat) (data : ImageData) (image_depth file_size : Nat) :
    List Nat :=
  let buffer := (buffer.set 0 66).set 1 77
  let buffer := write_u32 buffer 2 file_size
  let buffer := write_u32 buffer 6 (toU32 data.reserved)
  let buffer := write_u32 buffer 10 54
  let buffer := write_u32 buffer 14 40
  let buffer := write_u32 buffer 18 (u32 data.width)
  let buffer := write_u32 buffer 22 (u32 data.height)
  let buffer := (buffer.set 26 1).set 27 0
  let buffer := write_u16 buffer 28 image_depth
  let buffer := write_u32 buffer 30 0
  let buffer := write_u32 buffer 34 (u32 (usize (usize (data.height * data.width) * image_depth) / 8))
  let buffer := write_u32 buffer 38 (toU32 data.resolution_horizontal)
  let buffer := write_u32 buffer 42 (toU32 data.resolution_vertical)
  let buffer := write_u32 buffer 46 0
  write_u32 buffer 50 0

/-- `create_image_file`: `none` is the `NULL` result; otherwise the buffer and
`*data_length`. -/
def create_image_file (data : ImageData) (junk : Nat → Nat) : Option (List Nat × Nat) :=
  let depth : Option Nat :=
    match data.type with
    | ImageType.IMAGE_RGBA16 => some 16
    | ImageType.IMAGE_RGB24 => some 24
    | ImageType.IMAGE_RGBA32 => some 32
    | ImageType.IMAGE_NONE => none
  match depth with
  | none => none
  | some image_depth =>
    let padding := create_padding data.width image_depth
    let image_size := u32 (usize (usize (usize (usize (data.height * data.width) * image_depth) / 8)
      + usize (data.height * padding)))
    let file_size := u32 (image_size + 54)
    let buffer := malloc file_size junk
    let buffer := write_header buffer data image_depth file_size
    some (create_loop data.width image_depth (usize (data.width * data.height)) 0
            data.buffer buffer, file_size)

/-! ## Accesses of the codec

The offsets the two pixel loops load from and store to, in the order of the
accesses, and the size of the allocation of `parse_image`. -/

/-- Offsets of `raw_data` read by the body of the pixel loop of `parse_image`
for one pixel. -/
def parse_pixel_reads (image_depth : Nat) (index : Int) : List Int :=
  if image_depth = 16 then
    [index, index, index + 1, index + 1]
  else if image_depth = 24 then
    [index, index + 1, index + 2]
  else if image_depth = 32 then
    [index, index + 1, index + 1, index + 2, index + 2, index + 3]
  else
    []

/-- Offsets of `raw_data` read by the pixel loop of `parse_image`; the loop is
reached when every check passes. -/
def parse_image_pixel_reads (raw_data : List Nat) (length : Nat) : List Int :=
  if length < 34 then
    []
  else if raw_data.getD 0 0 ≠ 66 ∨ raw_data.getD 1 0 ≠ 77 then
    []
  else
    let data_start := u8 (read_u32 raw_data 10)
    let width := read_u32 raw_data 18
    let height := read_u32 raw_data 22
    let image_depth := read_u16 raw_data 28
    let compression := read_u32 raw_data 30
    let row_size := parse_row_size width height image_depth
    if compression ≠ 0 then
      []
    else if image_depth < 16 then
      []
    else if length < toSizeT (toInt32 ((data_start : Int) + row_size)) then
      []
    else
      (List.range (u32 (width * height))).flatMap (fun i =>
        parse_pixel_reads image_depth (parse_index data_start width image_depth i))

/-- The argument `sizeof(Pixel) * width * height` of the `malloc` of
`parse_image`, a `size_t` product; a `Pixel` is 8 bytes. -/
def parse_image_allocation (raw_data : List Nat) : Nat :=
  usize (usize (8 * read_u32 raw_data 18) * read_u32 raw_data 22)

/-- Offsets of `buffer` stored to by the body of the pixel loop of
`create_image_file` for one pixel. -/
def write_pixel_writes (image_depth : Nat) (index : Int) : List Int :=
  if image_depth = 16 then
    [index, index, index + 1, index + 1]
  else if image_depth = 24 then
    [index, index + 1, index + 2]
  else if image_depth = 32 then
    [index, index + 1, index + 2, index + 3]
  else
    []

/-- Offsets of the allocated buffer stored to by the pixel loop of
`create_image_file`, which runs for every `i` below `width * height`. -/
def create_image_file_writes (data : ImageData) : List Int :=
  let depth : Option Nat :=
    match data.type with
    | ImageType.IMAGE_RGBA16 => some 16
    | ImageType.IMAGE_RGB24 => some 24
    | ImageType.IMAGE_RGBA32 => some 32
    | ImageType.IMAGE_NONE => none
  match depth with
  | none => []
  | some image_depth =>
    (List.range (usize (data.width * data.height))).flatMap (fun i =>
      write_pixel_writes image_depth (create_index data.width image_depth i))

/-- Whether every offset of `accesses` lies in a buffer of `size` bytes. -/
def in_bounds (accesses : List Int) (size : Nat) : Bool :=
  accesses.all (fun k => decide (0 ≤ k ∧ k < (size : Int)))

/-! ## Capacity, embedding and extraction (`main.c`) -/

/-- The `factor` computed by the `switch` of `determine_max_content`. -/
def capacity_factor (type : ImageType) (bits : Int) : Int :=
  match type with
  | ImageType.IMAGE_RGBA16 => if bits < 3 then 4 else 0
  | ImageType.IMAGE_RGB24 => if bits < 5 then 3 else 0
  | ImageType.IMAGE_RGBA32 => if bits < 5 then 4 else 0
  | ImageType.IMAGE_NONE => 0

/-- `determine_max_content`: `factor * bits` is an `int` product, the products
with `width` and `height` are `size_t` products, and the quotient is
returned as an `int`. -/
def determine_max_content (data : ImageData) (bits : Int) : Int :=
  let factor := capacity_factor data.type bits
  toInt32 ((usize (usize (toSizeT (toInt32 (factor * bits)) * data.width) * data.height) / 8 : Nat) : Int)

/-- Cursor update `content_byte += (content_bit + bit_number >= 8) ? 1 : 0`. -/
def next_byte (bit_number content_byte content_bit : Nat) : Nat :=
  content_byte + (if content_bit + bit_number ≥ 8 then 1 else 0)

/-- Cursor update `content_bit = (content_bit + bit_number) % 8`. -/
def next_bit (bit_number content_bit : Nat) : Nat :=
  (content_bit + bit_number) % 8

/-- One channel assignment of `embed_content`:
`(channel & byte_mask) | get_bits(content, content_byte, content_bit)` with
`byte_mask = 0xFF << bit_number` held in a `uint8_t`. -/
def embed_channel (bit_number : Nat) (content : List Nat) (channel content_byte content_bit : Nat) :
    Nat :=
  let byte_mask := u8 (0xFF <<< bit_number)
  u16 ((channel &&& byte_mask) ||| get_bits bit_number content content_byte content_bit)

/-- Body of the loop of `embed_content` for one pixel; returns the new pixel
and the advanced cursor. -/
def embed_pixel (type : ImageType) (bit_number : Nat) (content : List Nat) (pixel : Pixel)
    (content_byte content_bit : Nat) : Pixel × Nat × Nat :=
  let r := embed_channel bit_number content pixel.r content_byte content_bit
  let content_byte1 := next_byte bit_number content_byte content_bit
  let content_bit1 := next_bit bit_number content_bit
  let g := embed_channel bit_number content pixel.g content_byte1 content_bit1
  let content_byte2 := next_byte bit_number content_byte1 content_bit1
  let content_bit2 := next_bit bit_number content_bit1
  let b := embed_channel bit_number content pixel.b content_byte2 content_bit2
  let content_byte3 := next_byte bit_number content_byte2 content_bit2
  let content_bit3 := next_bit bit_number content_bit2
  if type = ImageType.IMAGE_RGBA16 ∨ type = ImageType.IMAGE_RGBA32 then
    let a := embed_channel bit_number content pixel.a content_byte3 content_bit3
    let content_byte4 := next_byte bit_number content_byte3 content_bit3
    let content_bit4 := next_bit bit_number content_bit3
    ({ r := r, g := g, b := b, a := a }, content_byte4, content_bit4)
  else
    ({ r := r, g := g, b := b, a := pixel.a }, content_byte3, content_bit3)

/-- The loop of `embed_content`.  The first argument is the number of
iterations left before `i` reaches `width * height`; the list is the pixel
array from index `i` on. -/
def embed_loop (type : ImageType) (bit_number : Nat) (content : List Nat) (content_length : Nat) :
    Nat → List Pixel → Nat → Nat → List Pixel
  | 0, pixels, _, _ => pixels
  | _ + 1, [], _, _ => []
  | n + 1, pixel :: rest, content_byte, content_bit =>
    if content_byte < content_length then
      let step := embed_pixel type bit_number content pixel content_byte content_bit
      step.1 :: embed_loop type bit_number content content_length n rest step.2.1 step.2.2
    else
      pixel :: rest

/-- `embed_content`: returns the return code and the image with its pixel
array as the function leaves it. -/
def embed_content (img_data : ImageData) (content : List Nat) (content_length : Nat)
    (bit_number : Nat) : Nat × ImageData :=
  let max_size := toSizeT (determine_max_content img_data bit_number)
  if max_size < content_length then
    (1, img_data)
  else
    (0, { img_data with
          buffer := embed_loop img_data.type bit_number content content_length
            (usize (img_data.width * img_data.height)) img_data.buffer 0 0 })

/-- Body of the loop of `retrieve_content` for one pixel; returns the output
buffer and the advanced cursor. -/
def retrieve_pixel (type : ImageType) (bit_number : Nat) (buffer : List Nat) (pixel : Pixel)
    (content_byte content_bit : Nat) : List Nat × Nat × Nat :=
  let byte_mask := u8 (0xFF <<< (8 - bit_number))
  let byte_mask := u8 (byte_mask >>> (8 - bit_number))
  let r_data := u8 (pixel.r &&& byte_mask)
  let buffer := add_bits bit_number buffer content_byte content_bit r_data
  let content_byte1 := next_byte bit_number content_byte content_bit
  let content_bit1 := next_bit bit_number content_bit
  let g_data := u8 (pixel.g &&& byte_mask)
  let buffer := add_bits bit_number buffer content_byte1 content_bit1 g_data
  let content_byte2 := next_byte bit_number content_byte1 content_bit1
  let content_bit2 := next_bit bit_number content_bit1
  let b_data := u8 (pixel.b &&& byte_mask)
  let buffer := add_bits bit_number buffer content_byte2 content_bit2 b_data
  let content_byte3 := next_byte bit_number content_byte2 content_bit2
  let content_bit3 := next_bit bit_number content_bit2
  if type = ImageType.IMAGE_RGBA16 ∨ type = ImageType.IMAGE_RGBA32 then
    let a_data := u8 (pixel.a &&& byte_mask)
    let buffer := add_bits bit_number buffer content_byte3 content_bit3 a_data
    let content_byte4 := next_byte bit_number content_byte3 content_bit3
    let content_bit4 := next_bit bit_number content_bit3
    (buffer, content_byte4, content_bit4)
  else
    (buffer, content_byte3, content_bit3)

/-- The loop of `retrieve_content`, with the same conventions as
`embed_loop`; the state is the output buffer. -/
def retrieve_loop (type : ImageType) (bit_number : Nat) (content_size : Nat) :
    Nat → List Pixel → List Nat → Nat → Nat → List Nat
  | 0, _, buffer, _, _ => buffer
  | _ + 1, [], buffer, _, _ => buffer
  | n + 1, pixel :: rest, buffer, content_byte, content_bit =>
    if content_byte < content_size then
      let step := retrieve_pixel type bit_number buffer pixel content_byte content_bit
      retrieve_loop type bit_number content_size n rest step.1 step.2.1 step.2.2
    else
      buffer

/-- `retrieve_content`: `none` is the `NULL` result; otherwise the allocated
buffer (of `content_size + 2` bytes) and `*content_size`.  The comparison of
`reserved` with the capacity is a comparison of two `int` values. -/
def retrieve_content (img_data : ImageData) (bit_number : Nat) (junk : Nat → Nat) :
    Option (List Nat × Nat) :=
  if img_data.reserved > determine_max_content img_data bit_number then
    none
  else
    let content_size := toSizeT img_data.reserved
    let buffer := malloc (usize (content_size + 2)) junk
    let buffer := memset buffer 0 content_size
    some (retrieve_loop img_data.type bit_number content_size
            (usize (img_data.width * img_data.height)) img_data.buffer buffer 0 0,
          content_size)

/-- Bit `k` of a byte buffer read as a little-endian bit stream. -/
def bitAt (buffer : List Nat) (k : Nat) : Bool :=
  (buffer.getD (k / 8) 0).testBit (k % 8)

/-! ## Definitions used in the statements -/
/-- The channel factor as the capacity rule words it: 4 for RGBA16 below 3 bits,
3 for RGB24 below 5 bits, 4 for RGBA32 below 5 bits, and 0 otherwise. -/
def spec_factor (type : ImageType) (b : Int) : Int :=
  if type = ImageType.IMAGE_RGBA16 ∧ b < 3 then 4
  else if type = ImageType.IMAGE_RGB24 ∧ b < 5 then 3
  else if type = ImageType.IMAGE_RGBA32 ∧ b < 5 then 4
  else 0

/-- A 32768 x 32768 RGBA32 image. -/
def large_image : ImageData :=
  { type := ImageType.IMAGE_RGBA32, height := 32768, width := 32768,
    buffer := List.replicate (32768 * 32768) { r := 0, g := 0, b := 0, a := 0 },
    resolution_horizontal := 0, resolution_vertical := 0, reserved := 0 }


/-- The value `(size_t)(data_start + row_size)` that `parse_image` compares
`length` with, as the source computes it from the header fields of `raw_data`:
`row_size` is the 32-bit value `parse_row_size`. -/
def required_length (raw_data : List Nat) : Nat :=
  toSizeT (toInt32 ((u8 (read_u32 raw_data 10) : Int)
    + parse_row_size (read_u32 raw_data 18) (read_u32 raw_data 22) (read_u16 raw_data 28)))

/-- The error the tests of `parse_image` select, the fifth test with the value
`required_length` the source computes. -/
def first_failing_check (raw_data : List Nat) (length : Nat) : ImageParseError :=
  if length < 34 then ImageParseError.PARSE_ERROR_INVALID_LENGTH
  else if ¬ (raw_data.getD 0 0 = 66 ∧ raw_data.getD 1 0 = 77) then
    ImageParseError.PARSE_ERROR_INVALID_MAGIC_NUMBER
  else if read_u32 raw_data 30 ≠ 0 then ImageParseError.PARSE_ERROR_COMPRESSION_NOT_SUPPORTED
  else if read_u16 raw_data 28 < 16 then ImageParseError.PARSE_ERROR_MINIMUM_PIXEL_SIZE_16
  else if length < required_length raw_data then ImageParseError.PARSE_ERROR_INVALID_LENGTH
  else ImageParseError.PARSE_ERROR_NO_ERROR

/-- The bound of the fifth check as the format rules word it:
`data_start + row_size` with `row_size = width * height * depth / 8
+ height * padding` and `padding = 4 - ((width * depth / 8) mod 4)`, on exact
integers; `data_start` is the low byte of the field at offset 10. -/
def spec_required_length (raw_data : List Nat) : Nat :=
  read_u32 raw_data 10 % 256
    + (read_u32 raw_data 18 * read_u32 raw_data 22 * read_u16 raw_data 28 / 8
      + read_u32 raw_data 22
        * (4 - (read_u32 raw_data 18 * read_u16 raw_data 28 / 8) % 4))

/-- A 1 x 1 24-bit bitmap file whose reserved field holds `0xFFFFFFFF`. -/
def corrupt_file : List Nat :=
  [66, 77, 58, 0, 0, 0, 255, 255, 255, 255, 54, 0, 0, 0,
   40, 0, 0, 0, 1, 0, 0, 0, 1, 0, 0, 0, 1, 0, 24, 0,
   0, 0, 0, 0, 3, 0, 0, 0, 0, 0, 0, 0, 0, 0, 0, 0, 0, 0, 0, 0, 0, 0, 0, 0,
   10, 20, 30, 0]

/-- Number of channels `embed_content` and `retrieve_content` visit per pixel. -/
def channel_count (type : ImageType) : Nat :=
  if type = ImageType.IMAGE_RGBA16 ∨ type = ImageType.IMAGE_RGBA32 then 4 else 3

/-- The bit settings valid for an image type: 1..2 for RGBA16, 1..4 for RGB24
and RGBA32. -/
def valid_bit_number (type : ImageType) (b : Nat) : Bool :=
  match type with
  | ImageType.IMAGE_RGBA16 => decide (1 ≤ b ∧ b ≤ 2)
  | ImageType.IMAGE_RGB24 => decide (1 ≤ b ∧ b ≤ 4)
  | ImageType.IMAGE_RGBA32 => decide (1 ≤ b ∧ b ≤ 4)
  | ImageType.IMAGE_NONE => false

/-- Relation between an output buffer before (`old`) and after (`new`) a run of
`add_bits` calls that copied the bits `lo..hi-1` of `content`: same length,
bit `k` is the old bit OR the content bit when `lo ≤ k < hi`, and byte values
stay below 256. -/
def Covers (new old content : List Nat) (lo hi : Nat) : Prop :=
  new.length = old.length
    ∧ (∀ k, k / 8 < old.length →
        bitAt new k = (bitAt old k || (decide (lo ≤ k ∧ k < hi) && bitAt content k)))
    ∧ ((∀ x ∈ old, x < 256) → ∀ x ∈ new, x < 256)

/-- The 54 header bytes `create_image_file` stores, in file order. -/
def header_bytes (data : ImageData) (image_depth file_size : Nat) : List Nat :=
  [66, 77,
   file_size % 256, file_size / 256 % 256, file_size / 65536 % 256, file_size / 16777216 % 256,
   toU32 data.reserved % 256, toU32 data.reserved / 256 % 256,
   toU32 data.reserved / 65536 % 256, toU32 data.reserved / 16777216 % 256,
   54, 0, 0, 0,
   40, 0, 0, 0,
   u32 data.width % 256, u32 data.width / 256 % 256,
   u32 data.width / 65536 % 256, u32 data.width / 16777216 % 256,
   u32 data.height % 256, u32 data.height / 256 % 256,
   u32 data.height / 65536 % 256, u32 data.height / 16777216 % 256,
   1, 0,
   image_depth % 256, image_depth / 256 % 256,
   0, 0, 0, 0,
   u32 (usize (usize (data.height * data.width) * image_depth) / 8) % 256,
   u32 (usize (usize (data.height * data.width) * image_depth) / 8) / 256 % 256,
   u32 (usize (usize (data.height * data.width) * image_depth) / 8) / 65536 % 256,
   u32 (usize (usize (data.height * data.width) * image_depth) / 8) / 16777216 % 256,
   toU32 data.resolution_horizontal % 256, toU32 data.resolution_horizontal / 256 % 256,
   toU32 data.resolution_horizontal / 65536 % 256,
   toU32 data.resolution_horizontal / 16777216 % 256,
   toU32 data.resolution_vertical % 256, toU32 data.resolution_vertical / 256 % 256,
   toU32 data.resolution_vertical / 65536 % 256,
   toU32 data.resolution_vertical / 16777216 % 256,
   0, 0, 0, 0,
   0, 0, 0, 0]

/-- Byte offset of pixel `i` in an encoded file when no intermediate value of
the index arithmetic wraps: `54 + i * depth / 8 + (i / width) * padding`. -/
def pixel_offset (width image_depth i : Nat) : Nat :=
  54 + i * image_depth / 8 + i / width * (4 - (width * image_depth / 8) % 4)

/-- Length of an encoded file when the size arithmetic does not wrap:
`54 + width * height * depth / 8 + height * padding`. -/
def encoded_size (width height image_depth : Nat) : Nat :=
  54 + width * height * image_depth / 8 + height * (4 - (width * image_depth / 8) % 4)

/-- Two pixels whose channels read by `retrieve_content` for the given image
type agree in their low 8 bits. -/
def SameLowBytes (type : ImageType) (p q : Pixel) : Prop :=
  u8 p.r = u8 q.r ∧ u8 p.g = u8 q.g ∧ u8 p.b = u8 q.b
    ∧ (type = ImageType.IMAGE_RGBA16 ∨ type = ImageType.IMAGE_RGBA32 → u8 p.a = u8 q.a)

/-- The embedding half of the file-level round trip: `parse_image`, set
`reserved` to the payload length (as `handle_embed_file` does, through a
`uint32_t`), `embed_content`, `create_image_file`; `none` as soon as a step
fails.  A step also fails when its pixel loop loads from or stores to an
offset outside its buffer.  The payload buffer is followed by the spare bytes
`spare`. -/
def embed_sequence (raw_data : List Nat) (length : Nat) (payload spare : List Nat)
    (bit_number : Nat) (junk_pixels : Nat → Pixel) (junk : Nat → Nat) :
    Option (List Nat × Nat) :=
  let parsed := parse_image raw_data length junk_pixels
  if parsed.2 ≠ ImageParseError.PARSE_ERROR_NO_ERROR then none
  else if in_bounds (parse_image_pixel_reads raw_data length) length = false then none
  else
    let image := { parsed.1 with reserved := toInt32 (u32 payload.length) }
    let embedded := embed_content image (payload ++ spare) payload.length bit_number
    if embedded.1 ≠ 0 then none
    else
      (create_image_file embedded.2 junk).bind (fun file =>
        if in_bounds (create_image_file_writes embedded.2) file.2 = false then none
        else some file)

/-- The extraction half of the file-level round trip: `parse_image`, then
`retrieve_content`; `none` as soon as a step fails, also when the pixel loop
of `parse_image` loads from an offset outside the buffer. -/
def extract_sequence (raw_data : List Nat) (length : Nat) (bit_number : Nat)
    (junk_pixels : Nat → Pixel) (junk : Nat → Nat) : Option (List Nat × Nat) :=
  let parsed := parse_image raw_data length junk_pixels
  if parsed.2 ≠ ImageParseError.PARSE_ERROR_NO_ERROR then none
  else if in_bounds (parse_image_pixel_reads raw_data length) length = false then none
  else retrieve_content parsed.1 bit_number junk

/-- A 1 x 1 16-bit bitmap file with an all-zero pixel. -/
def sample_file_16 : List Nat :=
  [66, 77, 58, 0, 0, 0, 0, 0, 0, 0, 54, 0, 0, 0,
   40, 0, 0, 0, 1, 0, 0, 0, 1, 0, 0, 0, 1, 0, 16, 0,
   0, 0, 0, 0, 2, 0, 0, 0, 0, 0, 0, 0, 0, 0, 0, 0, 0, 0, 0, 0, 0, 0, 0, 0,
   0, 0, 0, 0]

/-- A 2 x 1 24-bit bitmap file. -/
def sample_file_24 : List Nat :=
  [66, 77, 62, 0, 0, 0, 0, 0, 0, 0, 54, 0, 0, 0,
   40, 0, 0, 0, 2, 0, 0, 0, 1, 0, 0, 0, 1, 0, 24, 0,
   0, 0, 0, 0, 6, 0, 0, 0, 0, 0, 0, 0, 0, 0, 0, 0, 0, 0, 0, 0, 0, 0, 0, 0,
   10, 20, 30, 40, 50, 60, 0, 0]

/-- The pixel depth `create_image_file` derives from the image type, when it
is one of the three supported types. -/
def depth_of_type (type : ImageType) : Option Nat :=
  match type with
  | ImageType.IMAGE_RGBA16 => some 16
  | ImageType.IMAGE_RGB24 => some 24
  | ImageType.IMAGE_RGBA32 => some 32
  | ImageType.IMAGE_NONE => none

/-- Channel number `j` of a pixel in the order `embed_content` visits them:
red, green, blue, alpha. -/
def channel (p : Pixel) (j : Nat) : Nat :=
  match j with
  | 0 => p.r
  | 1 => p.g
  | 2 => p.b
  | _ => p.a

/-- A 1 x 1 bitmap file with the unsupported depth 48. -/
def sample_file_48 : List Nat :=
  [66, 77, 62, 0, 0, 0, 0, 0, 0, 0, 54, 0, 0, 0,
   40, 0, 0, 0, 1, 0, 0, 0, 1, 0, 0, 0, 1, 0, 48, 0,
   0, 0, 0, 0, 6, 0, 0, 0, 0, 0, 0, 0, 0, 0, 0, 0, 0, 0, 0, 0, 0, 0, 0, 0,
   1, 2, 3, 4, 5, 6, 0, 0]

/-- A 2 x 1 RGBA32 image whose first pixel has the 9-bit blue value 256, as
`parse_image` decodes it from the pixel bytes `00 01 00 00`. -/
def wide_blue_image : ImageData :=
  { type := ImageType.IMAGE_RGBA32, height := 1, width := 2,
    buffer := [{ r := 0, g := 0, b := 256, a := 0 }, { r := 0, g := 0, b := 0, a := 0 }],
    resolution_horizontal := 0, resolution_vertical := 0, reserved := 0 }

/-- The bytes of one pixel in an encoded file, by depth: for 16 bits
`blue | (green << 4)` and `red | (alpha << 4)`, each reduced to 8 bits; for
24 bits blue, green, red, each reduced to 8 bits; for 32 bits the
little-endian bytes of the 32-bit word
`(blue & 0xFF) | (green << 9) | (blue << 17) | (alpha << 24)`. -/
def packed_pixel (image_depth : Nat) (p : Pixel) : List Nat :=
  if image_depth = 16 then
    [u8 (p.b ||| (p.g <<< 4)), u8 (p.r ||| (p.a <<< 4))]
  else if image_depth = 24 then
    [u8 p.b, u8 p.g, u8 p.r]
  else if image_depth = 32 then
    [u32 (u8 p.b ||| (p.g <<< 9) ||| (p.b <<< 17) ||| (p.a <<< 24)) % 256,
     u32 (u8 p.b ||| (p.g <<< 9) ||| (p.b <<< 17) ||| (p.a <<< 24)) / 256 % 256,
     u32 (u8 p.b ||| (p.g <<< 9) ||| (p.b <<< 17) ||| (p.a <<< 24)) / 65536 % 256,
     u32 (u8 p.b ||| (p.g <<< 9) ||| (p.b <<< 17) ||| (p.a <<< 24)) / 16777216 % 256]
  else
    []


/-- The 54-byte header of a 16-bit bitmap of width 65536 and height 65536. -/
def overflow_header : List Nat :=
  [66, 77, 54, 0, 4, 0, 0, 0, 0, 0, 54, 0, 0, 0,
   40, 0, 0, 0, 0, 0, 1, 0, 0, 0, 1, 0, 1, 0, 16, 0,
   0, 0, 0, 0, 0, 0, 0, 0, 0, 0, 0, 0, 0, 0, 0, 0, 0, 0, 0, 0, 0, 0, 0, 0]

/-- A 16-bit bitmap file of 262198 bytes whose header gives width 65536 and
height 65536: the header followed by 262144 zero bytes. -/
def overflow_file : List Nat :=
  overflow_header ++ List.replicate 262144 0

/-- Byte index of pixel `i` in a decoded file, from the header fields of the
file: `data_start + i * depth / 8 + (i / width) * padding`, where `data_start`
is the low byte of the field at offset 10. -/
def source_index (raw_data : List Nat) (i : Nat) : Nat :=
  read_u32 raw_data 10 % 256 + i * read_u16 raw_data 28 / 8
    + i / read_u32 raw_data 18
      * (4 - (read_u32 raw_data 18 * read_u16 raw_data 28 / 8) % 4)

/-! ## The embed command (`main.c`) -/

/-- The messages `handle_embed_file` prints to the error stream once both
files are read. -/
inductive EmbedReport where
  | REPORT_PARSE_ERROR (error : ImageParseError)
  | REPORT_TOO_LARGE
  | REPORT_WRITE_FAILED
deriving DecidableEq

/-- What a run of `handle_embed_file` does: its return code, the messages it
prints, and the buffer and length it hands to `write_file` (`none` when
`write_file` is not called; the inner value is the result of
`create_image_file`). -/
structure EmbedOutcome where
  return_code : Nat
  reports : List EmbedReport
  written : Option (Option (List Nat × Nat))
deriving DecidableEq

/-- `handle_embed_file` from the point where both files are read:
`data_file_contents` is the data file, followed after the `realloc` by the 4
bytes `spare`; `write_error` is the value `write_file` returns.  The test after
the call of `embed_content` reads `error`, the parse error, as the source
does. -/
def handle_embed_file (data_file_contents image_file_contents spare : List Nat)
    (bit_number : Nat) (write_error : Nat) (junk_pixels : Nat → Pixel) (junk : Nat → Nat) :
    EmbedOutcome :=
  let data_file_size := data_file_contents.length
  let image_file_size := image_file_contents.length
  let parsed := parse_image image_file_contents image_file_size junk_pixels
  let error := parsed.2
  let image := { parsed.1 with reserved := toInt32 (u32 data_file_size) }
  if error ≠ ImageParseError.PARSE_ERROR_NO_ERROR then
    { return_code := 1, reports := [EmbedReport.REPORT_PARSE_ERROR error], written := none }
  else
    let embedded := embed_content image (data_file_contents ++ spare) data_file_size bit_number
    if error ≠ ImageParseError.PARSE_ERROR_NO_ERROR then
      { return_code := 1, reports := [EmbedReport.REPORT_TOO_LARGE], written := none }
    else
      let new_file := create_image_file embedded.2 junk
      let error_int := write_error
      if error_int ≠ 0 then
        { return_code := 1, reports := [EmbedReport.REPORT_WRITE_FAILED], written := some new_file }
      else
        { return_code := 0, reports := [], written := some new_file }

/-! ## Buffer accesses

The byte indices the source reads or writes, in the order of the accesses.
The cursor updates are those of the functions above. -/

/-- Indices of `content` that `get_bits` reads: `byte`, and `byte + 1` in the
branch that takes bits from two bytes. -/
def get_bits_reads (bit_number byte bit : Nat) : List Nat :=
  if bit_number + bit ≤ 8 then [byte] else [byte, byte + 1]

/-- Indices of the payload read by the body of the loop of `embed_content` for
one pixel, and the advanced cursor. -/
def embed_pixel_reads (type : ImageType) (bit_number content_byte content_bit : Nat) :
    List Nat × Nat × Nat :=
  let reads_r := get_bits_reads bit_number content_byte content_bit
  let content_byte1 := next_byte bit_number content_byte content_bit
  let content_bit1 := next_bit bit_number content_bit
  let reads_g := get_bits_reads bit_number content_byte1 content_bit1
  let content_byte2 := next_byte bit_number content_byte1 content_bit1
  let content_bit2 := next_bit bit_number content_bit1
  let reads_b := get_bits_reads bit_number content_byte2 content_bit2
  let content_byte3 := next_byte bit_number content_byte2 content_bit2
  let content_bit3 := next_bit bit_number content_bit2
  if type = ImageType.IMAGE_RGBA16 ∨ type = ImageType.IMAGE_RGBA32 then
    let reads_a := get_bits_reads bit_number content_byte3 content_bit3
    let content_byte4 := next_byte bit_number content_byte3 content_bit3
    let content_bit4 := next_bit bit_number content_bit3
    (reads_r ++ reads_g ++ reads_b ++ reads_a, content_byte4, content_bit4)
  else
    (reads_r ++ reads_g ++ reads_b, content_byte3, content_bit3)

/-- Indices of the payload read by the loop of `embed_content`, with the
conventions of `embed_loop`. -/
def embed_loop_reads (type : ImageType) (bit_number content_length : Nat) :
    Nat → List Pixel → Nat → Nat → List Nat
  | 0, _, _, _ => []
  | _ + 1, [], _, _ => []
  | n + 1, _ :: rest, content_byte, content_bit =>
    if content_byte < content_length then
      let step := embed_pixel_reads type bit_number content_byte content_bit
      step.1 ++ embed_loop_reads type bit_number content_length n rest step.2.1 step.2.2
    else
      []

/-- Indices of `content` that `embed_content` reads. -/
def embed_content_reads (img_data : ImageData) (content_length bit_number : Nat) : List Nat :=
  let max_size := toSizeT (determine_max_content img_data bit_number)
  if max_size < content_length then
    []
  else
    embed_loop_reads img_data.type bit_number content_length
      (usize (img_data.width * img_data.height)) img_data.buffer 0 0

/-- Indices of `buffer` that `add_bits` writes: `byte`, and `byte + 1` in the
branch that spreads the bits over two bytes. -/
def add_bits_writes (bit_number byte bit : Nat) : List Nat :=
  if bit_number + bit ≤ 8 then [byte] else [byte, byte + 1]

/-- Indices of the output buffer written by the body of the loop of
`retrieve_content` for one pixel, and the advanced cursor. -/
def retrieve_pixel_writes (type : ImageType) (bit_number content_byte content_bit : Nat) :
    List Nat × Nat × Nat :=
  let writes_r := add_bits_writes bit_number content_byte content_bit
  let content_byte1 := next_byte bit_number content_byte content_bit
  let content_bit1 := next_bit bit_number content_bit
  let writes_g := add_bits_writes bit_number content_byte1 content_bit1
  let content_byte2 := next_byte bit_number content_byte1 content_bit1
  let content_bit2 := next_bit bit_number content_bit1
  let writes_b := add_bits_writes bit_number content_byte2 content_bit2
  let content_byte3 := next_byte bit_number content_byte2 content_bit2
  let content_bit3 := next_bit bit_number content_bit2
  if type = ImageType.IMAGE_RGBA16 ∨ type = ImageType.IMAGE_RGBA32 then
    let writes_a := add_bits_writes bit_number content_byte3 content_bit3
    let content_byte4 := next_byte bit_number content_byte3 content_bit3
    let content_bit4 := next_bit bit_number content_bit3
    (writes_r ++ writes_g ++ writes_b ++ writes_a, content_byte4, content_bit4)
  else
    (writes_r ++ writes_g ++ writes_b, content_byte3, content_bit3)

/-- Indices of the output buffer written by the loop of `retrieve_content`,
with the conventions of `retrieve_loop`. -/
def retrieve_loop_writes (type : ImageType) (bit_number content_size : Nat) :
    Nat → List Pixel → Nat → Nat → List Nat
  | 0, _, _, _ => []
  | _ + 1, [], _, _ => []
  | n + 1, _ :: rest, content_byte, content_bit =>
    if content_byte < content_size then
      let step := retrieve_pixel_writes type bit_number content_byte content_bit
      step.1 ++ retrieve_loop_writes type bit_number content_size n rest step.2.1 step.2.2
    else
      []

/-- Indices of the output buffer that `retrieve_content` writes: those of the
`memset`, then those of the loop. -/
def retrieve_content_writes (img_data : ImageData) (bit_number : Nat) : List Nat :=
  if img_data.reserved > determine_max_content img_data bit_number then
    []
  else
    let content_size := toSizeT img_data.reserved
    List.range content_size
      ++ retrieve_loop_writes img_data.type bit_number content_size
          (usize (img_data.width * img_data.height)) img_data.buffer 0 0

/-- The byte offsets of a field of `width` bytes at offset `off`. -/
def field_bytes (off width : Nat) : List Nat :=
  (List.range width).map (fun t => off + t)

/-- Offsets of `raw_data` that `parse_image` reads up to the last header
field: none when `length < 34`, the magic number, then the fields at 6, 10, 18,
22, 28 (two bytes), 30, 38 and 42. -/
def parse_image_header_reads (raw_data : List Nat) (length : Nat) : List Nat :=
  if length < 34 then
    []
  else if raw_data.getD 0 0 ≠ 66 then
    [0]
  else if raw_data.getD 1 0 ≠ 77 then
    [0, 1]
  else
    [0, 1] ++ field_bytes 6 4 ++ field_bytes 10 4 ++ field_bytes 18 4 ++ field_bytes 22 4
      ++ field_bytes 28 2 ++ field_bytes 30 4 ++ field_bytes 38 4 ++ field_bytes 42 4

/-- The 54-byte header of a 24-bit bitmap of width 10000 and height 9000. -/
def large_header_24 : List Nat :=
  [66, 77, 86, 108, 24, 16, 0, 0, 0, 0, 54, 0, 0, 0,
   40, 0, 0, 0, 16, 39, 0, 0, 40, 35, 0, 0, 1, 0, 24, 0,
   0, 0, 0, 0, 128, 223, 23, 16, 0, 0, 0, 0, 0, 0, 0, 0, 0, 0, 0, 0, 0, 0, 0, 0]

/-- A 24-bit bitmap file of 270036054 bytes, width 10000 and height 9000: the
header followed by 270036000 zero bytes (`10000 * 9000 * 24 / 8` bytes of
pixels and 4 bytes of padding for each of the 9000 rows). -/
def large_file_24 : List Nat :=
  large_header_24 ++ List.replicate 270036000 0

/-- A 10000 x 9000 RGB24 image. -/
def large_image_24 : ImageData :=
  { type := ImageType.IMAGE_RGB24, height := 9000, width := 10000,
    buffer := List.replicate (10000 * 9000) { r := 0, g := 0, b := 0, a := 0 },
    resolution_horizontal := 0, resolution_vertical := 0, reserved := 0 }

/-- An 8200 x 8200 RGBA32 image. -/
def large_image_32 : ImageData :=
  { type := ImageType.IMAGE_RGBA32, height := 8200, width := 8200,
    buffer := List.replicate (8200 * 8200) { r := 0, g := 0, b := 0, a := 0 },
    resolution_horizontal := 0, resolution_vertical := 0, reserved := 0 }

/-- The 54-byte header of a bitmap of depth 64, width 65536 and height
64512. -/
def deep_header : List Nat :=
  [66, 77, 54, 240, 3, 0, 0, 0, 0, 0, 54, 0, 0, 0,
   40, 0, 0, 0, 0, 0, 1, 0, 0, 252, 0, 0, 1, 0, 64, 0,
   0, 0, 0, 0, 0, 0, 0, 0, 0, 0, 0, 0, 0, 0, 0, 0, 0, 0, 0, 0, 0, 0, 0, 0]

/-- A file of 258102 bytes with depth 64, width 65536 and height 64512: the
header followed by 258048 zero bytes. -/
def deep_file : List Nat :=
  deep_header ++ List.replicate 258048 0

/-- A 34-byte buffer that starts with the magic number. -/
def short_file : List Nat :=
  [66, 77, 34, 0, 0, 0, 0, 0, 0, 0, 54, 0, 0, 0,
   40, 0, 0, 0, 1, 0, 0, 0, 1, 0, 0, 0, 1, 0, 24, 0,
   0, 0, 0, 0]
/-! ## Theorems -/

/-! ### Bytes and bits -/

theorem testBit_255 (i : Nat) : (255 : Nat).testBit i = decide (i < 8) := by
  have h := Nat.testBit_two_pow_sub_one 8 i
  simpa using h

theorem testBit_u8 (n i : Nat) : (u8 n).testBit i = (decide (i < 8) && n.testBit i) := by
  have h := Nat.testBit_mod_two_pow n 8 i
  simpa [u8] using h

theorem testBit_u16 (n i : Nat) : (u16 n).testBit i = (decide (i < 16) && n.testBit i) := by
  have h := Nat.testBit_mod_two_pow n 16 i
  simpa [u16] using h

theorem u8_small {n : Nat} (h : n < 256) : u8 n = n := Nat.mod_eq_of_lt h

theorem u8_lt (n : Nat) : u8 n < 256 := Nat.mod_lt _ (by decide)

theorem bool_ext {a b : Bool} (h : a = true ↔ b = true) : a = b := by
  cases a <;> cases b <;> simp_all

theorem testBit_of_lt_256 {x i : Nat} (hx : x < 256) (hi : 8 ≤ i) : x.testBit i = false := by
  apply Nat.testBit_lt_two_pow
  calc x < 2 ^ 8 := hx
    _ ≤ 2 ^ i := Nat.pow_le_pow_right (by decide) hi

theorem testBit_of_lt_pow {x b i : Nat} (hx : x < 2 ^ b) (hi : b ≤ i) : x.testBit i = false := by
  apply Nat.testBit_lt_two_pow
  calc x < 2 ^ b := hx
    _ ≤ 2 ^ i := Nat.pow_le_pow_right (by decide) hi

theorem getD_set_eq {l : List Nat} {i : Nat} (v d : Nat) (h : i < l.length) :
    (l.set i v).getD i d = v := by
  simp [List.getD_eq_getElem?_getD, List.getElem?_set, h]

theorem getD_set_ne {l : List Nat} {i j : Nat} (v d : Nat) (h : i ≠ j) :
    (l.set i v).getD j d = l.getD j d := by
  simp [List.getD_eq_getElem?_getD, List.getElem?_set, h]

theorem getD_lt {l : List Nat} (h : ∀ x ∈ l, x < 256) (i : Nat) : l.getD i 0 < 256 := by
  rw [List.getD_eq_getElem?_getD]
  cases hi : l[i]? with
  | none => simp
  | some v =>
    simp only [Option.getD_some]
    exact h v (List.getElem?_mem hi)

/-- Bits of the value `get_bits` returns: bit `j` is bit `bit + j` of the
two-byte window that starts at `byte`, for `j < bit_number`. -/
theorem get_bits_testBit (b : Nat) (content : List Nat) (byte bit j : Nat)
    (hb : b ≤ 8) (hbit : bit < 8) :
    (get_bits b content byte bit).testBit j =
      (decide (j < b) &&
        (if bit + j < 8 then (content.getD byte 0).testBit (bit + j)
         else (content.getD (byte + 1) 0).testBit (bit + j - 8))) := by
  by_cases h : b + bit ≤ 8
  · have e1 : u8 (8 - b) = 8 - b := u8_small (by omega)
    simp only [get_bits, if_pos h, e1, testBit_u16, testBit_u8, Nat.testBit_shiftRight,
      Nat.testBit_and, Nat.testBit_shiftLeft, testBit_255]
    apply bool_ext
    simp only [Bool.and_eq_true, decide_eq_true_eq, ge_iff_le]
    constructor
    · rintro ⟨-, -, h0, hx, h1, h2, h3, h4, -⟩
      refine ⟨by omega, ?_⟩
      rw [if_pos h0]
      exact hx
    · rintro ⟨h1, hx⟩
      have h0 : bit + j < 8 := by omega
      rw [if_pos h0] at hx
      refine ⟨?_, ?_, ?_, hx, ?_, ?_, ?_, ?_, ?_, ?_⟩ <;> omega
  · have e1 : u8 (8 - bit) = 8 - bit := u8_small (by omega)
    have e2 : u8 (b - (8 - bit)) = b - (8 - bit) := u8_small (by omega)
    simp only [get_bits, if_neg h, e1, e2, testBit_u16, testBit_u8, Nat.testBit_shiftRight,
      Nat.testBit_and, Nat.testBit_or, Nat.testBit_shiftLeft, testBit_255]
    have e3 : 8 - (8 - bit) + j = bit + j := by omega
    rw [e3]
    apply bool_ext
    by_cases hj : bit + j < 8
    · rw [if_pos hj]
      simp only [Bool.and_eq_true, Bool.or_eq_true, decide_eq_true_eq, ge_iff_le]
      constructor
      · rintro ⟨-, -, ⟨-, hx, -⟩ | ⟨-, h1, -⟩⟩
        · exact ⟨by omega, hx⟩
        · omega
      · rintro ⟨h1, hx⟩
        exact ⟨by omega, by omega, Or.inl ⟨by omega, hx, by omega, by omega, by omega⟩⟩
    · have e4 : j - (8 - bit) = bit + j - 8 := by omega
      rw [if_neg hj, e4]
      simp only [Bool.and_eq_true, Bool.or_eq_true, decide_eq_true_eq, ge_iff_le]
      constructor
      · rintro ⟨-, -, ⟨-, -, h1, -⟩ | ⟨-, -, hx, -, h2⟩⟩
        · omega
        · exact ⟨by omega, hx⟩
      · rintro ⟨h1, hx⟩
        exact ⟨by omega, by omega, Or.inr ⟨by omega, by omega, hx, by omega, by omega⟩⟩

theorem get_bits_lt (b : Nat) (content : List Nat) (byte bit : Nat)
    (hb : b ≤ 8) (hbit : bit < 8) : get_bits b content byte bit < 2 ^ b := by
  apply Nat.lt_pow_two_of_testBit
  intro i hi
  rw [get_bits_testBit b content byte bit i hb hbit]
  have : ¬ i < b := by omega
  simp [this]

/-- Bits of the two-byte little-endian window `x + 256 * y`. -/
theorem testBit_window (x y k : Nat) (hx : x < 256) :
    (x + 256 * y).testBit k = if k < 8 then x.testBit k else y.testBit (k - 8) := by
  have h := Nat.testBit_mul_pow_two_add y (show x < 2 ^ 8 from hx) k
  have e : 2 ^ 8 * y + x = x + 256 * y := by omega
  rw [e] at h
  exact h


/-- C8. For `1 ≤ b ≤ 8`, a bit offset below 8 and bytes in range, `get_bits`
returns `((buffer[byte] + 256 * buffer[byte + 1]) >> bit) mod 2 ^ b`, and when
`bit + b ≤ 8` the result does not depend on `buffer[byte + 1]`. -/
theorem get_bits_spec (b : Nat) (content : List Nat) (byte bit : Nat)
    (_hb1 : 1 ≤ b) (hb8 : b ≤ 8) (hbit : bit < 8)
    (hbytes : ∀ x ∈ content, x < 256)
    (_hbyte : byte < content.length)
    (_hnext : 8 < bit + b → byte + 1 < content.length) :
    get_bits b content byte bit
        = ((content.getD byte 0 + 256 * content.getD (byte + 1) 0) >>> bit) % 2 ^ b
      ∧ (bit + b ≤ 8 → ∀ other : List Nat, other.getD byte 0 = content.getD byte 0 →
          get_bits b other byte bit = get_bits b content byte bit) := by
  constructor
  · apply Nat.eq_of_testBit_eq
    intro j
    rw [get_bits_testBit b content byte bit j hb8 hbit, Nat.testBit_mod_two_pow,
      Nat.testBit_shiftRight, testBit_window _ _ _ (getD_lt hbytes byte)]
  · intro hsmall other hsame
    apply Nat.eq_of_testBit_eq
    intro j
    rw [get_bits_testBit b content byte bit j hb8 hbit,
      get_bits_testBit b other byte bit j hb8 hbit, hsame]
    by_cases hj : j < b
    · have h0 : bit + j < 8 := by omega
      simp [hj, h0]
    · simp [hj]

/-- The four vectors of `TEST_get_bits`. -/
theorem get_bits_spec_witness :
    get_bits 3 [0b00101111, 0b10011011] 0 3 = 0b101
      ∧ get_bits 2 [0b00101111, 0b10011011] 1 0 = 0b11
      ∧ get_bits 3 [0b00101111, 0b10011011] 1 1 = 0b101
      ∧ get_bits 3 [0b00101111, 0b10011011] 0 7 = 0b110
      ∧ (get_bits 3 [0b00101111, 0b10011011] 0 7
          = (([0b00101111, 0b10011011].getD 0 0
              + 256 * [0b00101111, 0b10011011].getD (0 + 1) 0) >>> 7) % 2 ^ 3
        ∧ (7 + 3 ≤ 8 → ∀ other : List Nat,
            other.getD 0 0 = [0b00101111, 0b10011011].getD 0 0 →
            get_bits 3 other 0 7 = get_bits 3 [0b00101111, 0b10011011] 0 7)) :=
  ⟨by decide, by decide, by decide, by decide,
    get_bits_spec 3 [0b00101111, 0b10011011] 0 7 (by decide) (by decide) (by decide)
      (by decide) (by decide) (by decide)⟩


theorem u8_or_left {x v : Nat} (hx : x < 256) : u8 (x ||| v) = x ||| v % 256 := by
  apply Nat.eq_of_testBit_eq
  intro i
  have h := Nat.testBit_mod_two_pow v 8 i
  simp only [Nat.reducePow] at h
  rw [testBit_u8, Nat.testBit_or, Nat.testBit_or, h]
  by_cases hi : i < 8
  · simp [hi]
  · simp [hi, testBit_of_lt_256 hx (by omega : 8 ≤ i)]

theorem shiftRight_lt_256 {data b : Nat} (k : Nat) (hb : b ≤ 8) (hd : data < 2 ^ b) :
    data >>> k < 256 := by
  rw [Nat.shiftRight_eq_div_pow]
  have h1 : data / 2 ^ k ≤ data := Nat.div_le_self _ _
  have h2 : 2 ^ b ≤ 2 ^ 8 := Nat.pow_le_pow_right (by decide) hb
  have h3 : (2 : Nat) ^ 8 = 256 := by norm_num
  omega

/-- C9. For `1 ≤ b ≤ 8`, a bit offset below 8 and `data < 2 ^ b`, `add_bits` sets
`buffer[byte]` to `old | ((data << bit) mod 256)`, sets `buffer[byte + 1]` to
`old | (data >> (8 - bit))` exactly when `bit + b > 8`, and changes no other
byte nor the length. -/
theorem add_bits_spec (b : Nat) (buffer : List Nat) (byte bit data : Nat)
    (_hb1 : 1 ≤ b) (hb8 : b ≤ 8) (_hbit : bit < 8) (hdata : data < 2 ^ b)
    (hbytes : ∀ x ∈ buffer, x < 256)
    (hbyte : byte < buffer.length)
    (hnext : 8 < bit + b → byte + 1 < buffer.length) :
    (add_bits b buffer byte bit data).length = buffer.length
      ∧ (add_bits b buffer byte bit data).getD byte 0
          = buffer.getD byte 0 ||| (data <<< bit) % 256
      ∧ (8 < bit + b → (add_bits b buffer byte bit data).getD (byte + 1) 0
          = buffer.getD (byte + 1) 0 ||| data >>> (8 - bit))
      ∧ (bit + b ≤ 8 → (add_bits b buffer byte bit data).getD (byte + 1) 0
          = buffer.getD (byte + 1) 0)
      ∧ ∀ j, j ≠ byte → j ≠ byte + 1 →
          (add_bits b buffer byte bit data).getD j 0 = buffer.getD j 0 := by
  have hx := getD_lt hbytes byte
  have hy := getD_lt hbytes (byte + 1)
  by_cases h : b + bit ≤ 8
  · simp only [add_bits, if_pos h]
    refine ⟨List.length_set _ _ _, ?_, ?_, ?_, ?_⟩
    · rw [getD_set_eq _ _ hbyte, u8_or_left hx]
    · intro h9; omega
    · intro _; exact getD_set_ne _ _ (by omega)
    · intro j hj _; exact getD_set_ne _ _ (fun e => hj e.symm)
  · have hn : byte + 1 < buffer.length := hnext (by omega)
    simp only [add_bits, if_neg h]
    refine ⟨by simp, ?_, ?_, ?_, ?_⟩
    · rw [getD_set_ne _ _ (by omega), getD_set_eq _ _ hbyte, u8_or_left hx]
    · intro _
      rw [getD_set_eq _ _ (by simpa using hn), getD_set_ne _ _ (by omega), u8_small]
      have h1 := shiftRight_lt_256 (8 - bit) hb8 hdata
      exact Nat.or_lt_two_pow (n := 8) hy h1
    · intro h9; omega
    · intro j hj hj1
      rw [getD_set_ne _ _ (fun e => hj1 e.symm), getD_set_ne _ _ (fun e => hj e.symm)]

/-- The three vectors of `TEST_add_bits`. -/
theorem add_bits_spec_witness :
    add_bits 3 [0, 0] 0 3 0b111 = [0b00111000, 0]
      ∧ add_bits 3 [0, 0] 0 6 0b101 = [0b01000000, 0b00000001]
      ∧ add_bits 3 [0, 0] 0 7 0b101 = [0b10000000, 0b00000010]
      ∧ ((add_bits 3 [0, 0] 0 7 0b101).length = [0, 0].length
        ∧ (add_bits 3 [0, 0] 0 7 0b101).getD 0 0 = [0, 0].getD 0 0 ||| (0b101 <<< 7) % 256
        ∧ (8 < 7 + 3 → (add_bits 3 [0, 0] 0 7 0b101).getD (0 + 1) 0
            = [0, 0].getD (0 + 1) 0 ||| 0b101 >>> (8 - 7))
        ∧ (7 + 3 ≤ 8 → (add_bits 3 [0, 0] 0 7 0b101).getD (0 + 1) 0 = [0, 0].getD (0 + 1) 0)
        ∧ ∀ j, j ≠ 0 → j ≠ 0 + 1 →
            (add_bits 3 [0, 0] 0 7 0b101).getD j 0 = [0, 0].getD j 0) :=
  ⟨by decide, by decide, by decide,
    add_bits_spec 3 [0, 0] 0 7 0b101 (by decide) (by decide) (by decide) (by decide)
      (by decide) (by decide) (by decide)⟩

/-- Effect of `add_bits` on the bit stream: bit `k` becomes its old value OR
bit `k - (8 * byte + bit)` of `data`. -/
theorem add_bits_bitAt (b : Nat) (buffer : List Nat) (byte bit data k : Nat)
    (hb8 : b ≤ 8) (hbit : bit < 8) (hdata : data < 2 ^ b)
    (hk : k / 8 < buffer.length) :
    bitAt (add_bits b buffer byte bit data) k
      = (bitAt buffer k || (decide (8 * byte + bit ≤ k) && data.testBit (k - (8 * byte + bit)))) := by
  unfold bitAt
  by_cases h : b + bit ≤ 8
  · simp only [add_bits, if_pos h]
    by_cases hk0 : k / 8 = byte
    · subst hk0
      rw [getD_set_eq _ _ hk, testBit_u8, Nat.testBit_or, Nat.testBit_shiftLeft]
      have e1 : k % 8 < 8 := Nat.mod_lt _ (by decide)
      have e2 : k - (8 * (k / 8) + bit) = k % 8 - bit := by omega
      have e3 : (8 * (k / 8) + bit ≤ k) ↔ k % 8 ≥ bit := by omega
      simp only [e1, e2, decide_eq_true_eq, decide_True, Bool.true_and, e3]
    · rw [getD_set_ne _ _ (fun e => hk0 e.symm)]
      by_cases hle : 8 * byte + bit ≤ k
      · have : b ≤ k - (8 * byte + bit) := by omega
        simp [testBit_of_lt_pow hdata this]
      · simp [hle]
  · simp only [add_bits, if_neg h]
    by_cases hk0 : k / 8 = byte
    · subst hk0
      rw [getD_set_ne _ _ (by omega), getD_set_eq _ _ hk, testBit_u8, Nat.testBit_or,
        Nat.testBit_shiftLeft]
      have e1 : k % 8 < 8 := Nat.mod_lt _ (by decide)
      have e2 : k - (8 * (k / 8) + bit) = k % 8 - bit := by omega
      have e3 : (8 * (k / 8) + bit ≤ k) ↔ k % 8 ≥ bit := by omega
      simp only [e1, e2, decide_eq_true_eq, decide_True, Bool.true_and, e3]
    · by_cases hk1 : k / 8 = byte + 1
      · have hlen : byte + 1 < (buffer.set byte (u8 (buffer.getD byte 0 ||| data <<< bit))).length := by
          rw [List.length_set]; omega
        rw [← hk1] at hlen
        rw [← hk1, getD_set_eq _ _ hlen, hk1, getD_set_ne _ _ (by omega), testBit_u8, Nat.testBit_or,
          Nat.testBit_shiftRight]
        have e1 : k % 8 < 8 := Nat.mod_lt _ (by decide)
        have e2 : k - (8 * byte + bit) = 8 - bit + k % 8 := by omega
        have e3 : 8 * byte + bit ≤ k := by omega
        simp only [e1, e2, e3, decide_True, Bool.true_and]
      · rw [getD_set_ne _ _ (fun e => hk1 e.symm), getD_set_ne _ _ (fun e => hk0 e.symm)]
        by_cases hle : 8 * byte + bit ≤ k
        · have : b ≤ k - (8 * byte + bit) := by omega
          simp [testBit_of_lt_pow hdata this]
        · simp [hle]


theorem getD_replicate_zero (n i : Nat) : (List.replicate n 0).getD i 0 = 0 := by
  rw [List.getD_eq_getElem?_getD]
  cases hi : (List.replicate n 0)[i]? with
  | none => rfl
  | some v =>
    simp only [Option.getD_some]
    exact List.eq_of_mem_replicate (List.getElem?_mem hi)

/-- C10. For `1 ≤ b ≤ 8`, a bit offset below 8 and `data < 2 ^ b`, writing `data`
with `add_bits` into an all-zero buffer and reading with `get_bits` at the same
cursor returns `data`. -/
theorem add_bits_get_bits_round_trip (b n byte bit data : Nat)
    (_hb1 : 1 ≤ b) (hb8 : b ≤ 8) (hbit : bit < 8) (hdata : data < 2 ^ b)
    (hbyte : byte < n) (hnext : 8 < bit + b → byte + 1 < n) :
    get_bits b (add_bits b (List.replicate n 0) byte bit data) byte bit = data := by
  apply Nat.eq_of_testBit_eq
  intro j
  rw [get_bits_testBit b _ byte bit j hb8 hbit]
  by_cases hj : j < b
  · simp only [hj, decide_True, Bool.true_and]
    by_cases h0 : bit + j < 8
    · have hk : (8 * byte + (bit + j)) / 8 < (List.replicate n 0).length := by
        rw [List.length_replicate]; omega
      have h := add_bits_bitAt b (List.replicate n 0) byte bit data (8 * byte + (bit + j))
        hb8 hbit hdata hk
      unfold bitAt at h
      have e1 : (8 * byte + (bit + j)) / 8 = byte := by omega
      have e2 : (8 * byte + (bit + j)) % 8 = bit + j := by omega
      have e3 : 8 * byte + (bit + j) - (8 * byte + bit) = j := by omega
      have e4 : 8 * byte + bit ≤ 8 * byte + (bit + j) := by omega
      rw [e1, e2, e3, getD_replicate_zero] at h
      rw [if_pos h0, h]
      simp [e4]
    · have hk : (8 * byte + (bit + j)) / 8 < (List.replicate n 0).length := by
        rw [List.length_replicate]
        have := hnext (by omega)
        omega
      have h := add_bits_bitAt b (List.replicate n 0) byte bit data (8 * byte + (bit + j))
        hb8 hbit hdata hk
      unfold bitAt at h
      have e1 : (8 * byte + (bit + j)) / 8 = byte + 1 := by omega
      have e2 : (8 * byte + (bit + j)) % 8 = bit + j - 8 := by omega
      have e3 : 8 * byte + (bit + j) - (8 * byte + bit) = j := by omega
      have e4 : 8 * byte + bit ≤ 8 * byte + (bit + j) := by omega
      rw [e1, e2, e3, getD_replicate_zero] at h
      rw [if_neg h0, h]
      simp [e4]
  · simp only [hj, decide_False, Bool.false_and]
    exact (testBit_of_lt_pow hdata (by omega)).symm

theorem add_bits_get_bits_round_trip_witness :
    get_bits 3 (add_bits 3 (List.replicate 2 0) 0 7 0b101) 0 7 = 0b101 :=
  add_bits_get_bits_round_trip 3 2 0 7 0b101 (by decide) (by decide) (by decide) (by decide)
    (by decide) (by decide)


/-! ### Capacity -/

theorem toInt32_of_fits {n : Int} (h0 : 0 ≤ n) (h1 : n < 2147483648) : toInt32 n = n := by
  unfold toInt32
  omega

theorem toSizeT_natCast {n : Nat} (h : n < 18446744073709551616) : toSizeT (n : Int) = n := by
  unfold toSizeT
  omega

theorem usize_small {n : Nat} (h : n < 18446744073709551616) : usize n = n := Nat.mod_eq_of_lt h

theorem usize_mul_mul (c w h : Nat) (hfit : c * w * h < 18446744073709551616) :
    usize (usize (c * w) * h) = c * w * h := by
  rcases Nat.eq_zero_or_pos h with rfl | hpos
  · simp [usize]
  · have h1 : c * w ≤ c * w * h := Nat.le_mul_of_pos_right _ hpos
    rw [usize_small (lt_of_le_of_lt h1 hfit), usize_small hfit]

theorem capacity_factor_eq_spec (type : ImageType) (b : Int) :
    capacity_factor type b = spec_factor type b := by
  cases type <;> simp [capacity_factor, spec_factor]

theorem capacity_factor_cases (type : ImageType) (b : Int) :
    capacity_factor type b = 0 ∨ capacity_factor type b = 3 ∨ capacity_factor type b = 4 := by
  cases type <;> simp only [capacity_factor] <;> first | (split <;> simp) | simp

theorem capacity_factor_bits (type : ImageType) (b : Int) (h : capacity_factor type b ≠ 0) :
    b < 5 := by
  cases type <;> simp only [capacity_factor] at h <;> first | (split at h <;> omega) | contradiction

/-- The value of `determine_max_content` when the product of factor, bits,
width and height fits 64 bits: the quotient by 8 reduced to an `int`. -/
theorem determine_max_content_eq (data : ImageData) (b c : Nat)
    (hc : capacity_factor data.type b * b = c) (hc31 : c < 2147483648)
    (hfit : c * data.width * data.height < 18446744073709551616) :
    determine_max_content data b = toInt32 ((c * data.width * data.height / 8 : Nat) : Int) := by
  unfold determine_max_content
  simp only [hc]
  have e1 : toInt32 (c : Int) = c := toInt32_of_fits (by omega) (by omega)
  rw [e1, toSizeT_natCast (by omega), usize_mul_mul _ _ _ hfit]

theorem determine_max_content_fits (data : ImageData) (b : Int) (hb : 1 ≤ b)
    (hfit : spec_factor data.type b * b * data.width * data.height < 17179869184) :
    determine_max_content data b
        = spec_factor data.type b * b * data.width * data.height / 8
      ∧ (spec_factor data.type b = 0 → determine_max_content data b = 0) := by
  rw [← capacity_factor_eq_spec] at *
  obtain ⟨n, rfl⟩ : ∃ n : Nat, b = n := ⟨b.toNat, by omega⟩
  have hb5 : capacity_factor data.type n = 0 ∨ (capacity_factor data.type n ≠ 0 ∧ (n : Int) < 5) := by
    by_cases h : capacity_factor data.type n = 0
    · exact Or.inl h
    · exact Or.inr ⟨h, capacity_factor_bits _ _ h⟩
  obtain ⟨f, hf, hf4⟩ : ∃ f : Nat, capacity_factor data.type n = f ∧ f ≤ 4 := by
    rcases capacity_factor_cases data.type n with h | h | h
    · exact ⟨0, by simpa using h, by omega⟩
    · exact ⟨3, by simpa using h, by omega⟩
    · exact ⟨4, by simpa using h, by omega⟩
  have hc : capacity_factor data.type (n : Int) * (n : Int) = ((f * n : Nat) : Int) := by
    rw [hf]; push_cast; ring
  have hprod : f * n * data.width * data.height < 17179869184 := by
    have : ((f * n * data.width * data.height : Nat) : Int) < 17179869184 := by
      push_cast; rw [← hf]; exact hfit
    exact_mod_cast this
  have hfn : f * n < 2147483648 := by
    rcases hb5 with h0 | ⟨-, h5⟩
    · rw [hf] at h0
      have : f = 0 := by exact_mod_cast h0
      subst this; simp
    · have : n < 5 := by exact_mod_cast h5
      nlinarith
  have key := determine_max_content_eq data n (f * n) hc hfn (by omega)
  constructor
  · have hq : f * n * data.width * data.height / 8 < 2147483648 := by omega
    rw [key, toInt32_of_fits (Int.natCast_nonneg _) (by exact_mod_cast hq), hf]
    push_cast
    rfl
  · intro h0
    rw [key]
    rw [hf] at h0
    have : f = 0 := by exact_mod_cast h0
    subst this
    simp [toInt32]

/-- C6 (amended). For `b ≥ 1`, when `factor * b * width * height` is below `2 ^ 34`
(so that its quotient by 8 fits the `int` result), `determine_max_content`
equals `floor (factor * b * width * height / 8)` with the factor of the
capacity rule; and whenever the factor is 0 the result is 0, whatever the
image size. -/
theorem determine_max_content_formula (data : ImageData) (b : Int) (hb : 1 ≤ b) :
    (spec_factor data.type b * b * data.width * data.height < 17179869184 →
        determine_max_content data b
          = spec_factor data.type b * b * data.width * data.height / 8)
      ∧ (spec_factor data.type b = 0 → determine_max_content data b = 0) := by
  constructor
  · intro hfit
    exact (determine_max_content_fits data b hb hfit).1
  · intro h0
    exact (determine_max_content_fits data b hb (by rw [h0]; simp)).2 h0

/-- C6, instance: a 2 x 2 RGB24 image at 4 bits holds 6 bytes, and at 5 bits
none. -/
theorem determine_max_content_formula_witness :
    ((spec_factor ImageType.IMAGE_RGB24 4 * 4 * (2 : Nat) * (2 : Nat) < 17179869184 →
        determine_max_content
            { type := ImageType.IMAGE_RGB24, height := 2, width := 2, buffer := [],
              resolution_horizontal := 0, resolution_vertical := 0, reserved := 0 } 4
          = spec_factor ImageType.IMAGE_RGB24 4 * 4 * (2 : Nat) * (2 : Nat) / 8)
      ∧ (spec_factor ImageType.IMAGE_RGB24 4 = 0 →
          determine_max_content
            { type := ImageType.IMAGE_RGB24, height := 2, width := 2, buffer := [],
              resolution_horizontal := 0, resolution_vertical := 0, reserved := 0 } 4 = 0)) :=
  determine_max_content_formula
    { type := ImageType.IMAGE_RGB24, height := 2, width := 2, buffer := [],
      resolution_horizontal := 0, resolution_vertical := 0, reserved := 0 } 4 (by decide)

/-- C6, counterexample: for the 32768 x 32768 RGBA32 image at 4 bits the
product `width * height` is `2 ^ 30`, the formula gives `2 ^ 31`, and
`determine_max_content` returns `-2 ^ 31`. -/
theorem determine_max_content_int_wrap :
    large_image.width * large_image.height = 1073741824
      ∧ (1 : Int) ≤ 4
      ∧ spec_factor large_image.type 4 * 4 * large_image.width * large_image.height / 8
          = 2147483648
      ∧ determine_max_content large_image 4 = -2147483648 := by
  decide

theorem toInt32_lt (n : Int) : toInt32 n < 2147483648 := by
  unfold toInt32
  omega

theorem determine_max_content_lt (data : ImageData) (b : Int) :
    determine_max_content data b < 2147483648 := toInt32_lt _

/-- C4 (amended). When `determine_max_content` is non-negative and smaller than
the payload length, `embed_content` returns 1 and the image, pixel array
included, is unchanged. -/
theorem embed_content_capacity_exceeded (img_data : ImageData) (content : List Nat)
    (content_length bit_number : Nat)
    (hnonneg : 0 ≤ determine_max_content img_data bit_number)
    (hlong : determine_max_content img_data bit_number < content_length) :
    embed_content img_data content content_length bit_number = (1, img_data) := by
  have hlt := determine_max_content_lt img_data bit_number
  have hsize : toSizeT (determine_max_content img_data bit_number) < content_length := by
    unfold toSizeT
    omega
  simp only [embed_content, if_pos hsize]

/-- C4, instance: a payload of 2 bytes for a 1 x 1 RGB24 image at 4 bits (capacity 1). -/
theorem embed_content_capacity_exceeded_witness :
    embed_content
        { type := ImageType.IMAGE_RGB24, height := 1, width := 1,
          buffer := [{ r := 1, g := 2, b := 3, a := 4 }],
          resolution_horizontal := 0, resolution_vertical := 0, reserved := 2 }
        [255, 255, 0, 0, 0, 0] 2 4
      = (1, { type := ImageType.IMAGE_RGB24, height := 1, width := 1,
              buffer := [{ r := 1, g := 2, b := 3, a := 4 }],
              resolution_horizontal := 0, resolution_vertical := 0, reserved := 2 }) :=
  embed_content_capacity_exceeded _ _ 2 4 (by decide) (by decide)

/-- C4, counterexample: for the 32768 x 32768 RGBA32 image at 4 bits
`determine_max_content` is negative, a 1-byte payload is longer than it, and
`embed_content` returns 0. -/
theorem embed_content_accepts_above_wrapped_capacity :
    determine_max_content large_image 4 < ((1 : Nat) : Int)
      ∧ (embed_content large_image [255, 0, 0, 0, 0] 1 4).1 = 0 := by
  decide

/-! ### Validation order of `parse_image` -/

theorem parse_image_error_eq (raw_data : List Nat) (length : Nat) (junk : Nat → Pixel) :
    (parse_image raw_data length junk).2 = first_failing_check raw_data length := by
  unfold parse_image first_failing_check required_length
  by_cases hlen : length < 34
  · rw [if_pos hlen, if_pos hlen]
  · rw [if_neg hlen, if_neg hlen]
    by_cases hm : raw_data.getD 0 0 = 66 ∧ raw_data.getD 1 0 = 77
    · have hm2 : ¬ (raw_data.getD 0 0 ≠ 66 ∨ raw_data.getD 1 0 ≠ 77) := by
        rintro (h | h)
        · exact h hm.1
        · exact h hm.2
      rw [if_neg hm2, if_neg (not_not.mpr hm)]
      dsimp only
      by_cases hc : read_u32 raw_data 30 ≠ 0
      · rw [if_pos hc, if_pos hc]
      · rw [if_neg hc, if_neg hc]
        by_cases hd : read_u16 raw_data 28 < 16
        · rw [if_pos hd, if_pos hd]
        · rw [if_neg hd, if_neg hd]
          split <;> rfl
    · have hm2 : raw_data.getD 0 0 ≠ 66 ∨ raw_data.getD 1 0 ≠ 77 := by
        by_cases h0 : raw_data.getD 0 0 = 66
        · exact Or.inr (fun h => hm ⟨h0, h⟩)
        · exact Or.inl h0
      rw [if_pos hm2, if_pos hm]

theorem first_failing_check_none_iff (raw_data : List Nat) (length : Nat) :
    first_failing_check raw_data length = ImageParseError.PARSE_ERROR_NO_ERROR ↔
      34 ≤ length ∧ raw_data.getD 0 0 = 66 ∧ raw_data.getD 1 0 = 77
        ∧ read_u32 raw_data 30 = 0 ∧ 16 ≤ read_u16 raw_data 28
        ∧ required_length raw_data ≤ length := by
  unfold first_failing_check
  constructor
  · intro h
    split at h
    · exact absurd h (by decide)
    · split at h
      · exact absurd h (by decide)
      · split at h
        · exact absurd h (by decide)
        · split at h
          · exact absurd h (by decide)
          · split at h
            · exact absurd h (by decide)
            · rename_i a b c d e
              simp only [not_not] at b c
              exact ⟨by omega, b.1, b.2, c, by omega, by omega⟩
  · rintro ⟨a, b, c, d, e, f⟩
    simp only [show ¬ length < 34 by omega, b, c, d, show ¬ read_u16 raw_data 28 < 16 by omega,
      show ¬ length < required_length raw_data by omega, if_false, and_self, not_true_eq_false,
      ne_eq]

/-- The image `parse_image` returns when every check passes. -/
theorem parse_image_ok (raw_data : List Nat) (length : Nat) (junk : Nat → Pixel)
    (h : first_failing_check raw_data length = ImageParseError.PARSE_ERROR_NO_ERROR) :
    parse_image raw_data length junk
      = ({ type := type_of_depth (read_u16 raw_data 28),
           height := read_u32 raw_data 22,
           width := read_u32 raw_data 18,
           buffer := (List.range (u32 (read_u32 raw_data 18 * read_u32 raw_data 22))).map
             (fun i => parse_pixel raw_data (read_u16 raw_data 28)
               (parse_index (u8 (read_u32 raw_data 10)) (read_u32 raw_data 18)
                 (read_u16 raw_data 28) i) (junk i)),
           resolution_horizontal := toInt32 (read_u32 raw_data 38),
           resolution_vertical := toInt32 (read_u32 raw_data 42),
           reserved := toInt32 (read_u32 raw_data 6) },
         ImageParseError.PARSE_ERROR_NO_ERROR) := by
  obtain ⟨a, b, c, d, e, f⟩ := (first_failing_check_none_iff raw_data length).mp h
  have hm2 : ¬ (raw_data.getD 0 0 ≠ 66 ∨ raw_data.getD 1 0 ≠ 77) := by
    rintro (h | h)
    · exact h b
    · exact h c
  unfold required_length at f
  unfold parse_image
  rw [if_neg (by omega : ¬ length < 34), if_neg hm2]
  dsimp only
  rw [if_neg (not_not.mpr d), if_neg (by omega : ¬ read_u16 raw_data 28 < 16), if_neg (by omega)]

/-- C5, evaluation at the failing input: the file parses, its reserved field
reads `4294967295`, the capacity at 2 bits is 0, the decoded `reserved` is
`-1`, so the guard of `retrieve_content` does not fire and the result is not
`NULL`. -/
theorem retrieve_content_accepts_negative_reserved :
    (parse_image corrupt_file 58 (fun _ => { r := 0, g := 0, b := 0, a := 0 })).2
        = ImageParseError.PARSE_ERROR_NO_ERROR
      ∧ read_u32 corrupt_file 6 = 4294967295
      ∧ determine_max_content
          (parse_image corrupt_file 58 (fun _ => { r := 0, g := 0, b := 0, a := 0 })).1 2 = 0
      ∧ (parse_image corrupt_file 58 (fun _ => { r := 0, g := 0, b := 0, a := 0 })).1.reserved = -1
      ∧ (retrieve_content
          (parse_image corrupt_file 58 (fun _ => { r := 0, g := 0, b := 0, a := 0 })).1 2
          (fun _ => 0)).isSome = true := by
  decide

/-! ### In-memory round trip -/

theorem cursor_step (b cb bit : Nat) (hb : b ≤ 8) (hbit : bit < 8) :
    8 * next_byte b cb bit + next_bit b bit = 8 * cb + bit + b ∧ next_bit b bit < 8 := by
  unfold next_byte next_bit
  split <;> omega

theorem add_bits_length (b : Nat) (buffer : List Nat) (byte bit data : Nat) :
    (add_bits b buffer byte bit data).length = buffer.length := by
  unfold add_bits
  split <;> simp

theorem add_bits_lt_256 (b : Nat) (buffer : List Nat) (byte bit data : Nat)
    (h : ∀ x ∈ buffer, x < 256) : ∀ x ∈ add_bits b buffer byte bit data, x < 256 := by
  intro x hx
  unfold add_bits at hx
  split at hx
  · rcases List.mem_or_eq_of_mem_set hx with h1 | h1
    · exact h x h1
    · rw [h1]; exact u8_lt _
  · rcases List.mem_or_eq_of_mem_set hx with h1 | h1
    · rcases List.mem_or_eq_of_mem_set h1 with h2 | h2
      · exact h x h2
      · rw [h2]; exact u8_lt _
    · rw [h1]; exact u8_lt _

/-- The low `b` bits that `retrieve_content` masks out of an embedded channel
are the bits `embed_content` read from the payload. -/
theorem retrieve_embedded_channel (b : Nat) (content : List Nat) (channel cb bit : Nat)
    (hb : b ≤ 8) (hbit : bit < 8) :
    u8 (embed_channel b content channel cb bit &&& u8 (u8 (0xFF <<< (8 - b)) >>> (8 - b)))
      = get_bits b content cb bit := by
  apply Nat.eq_of_testBit_eq
  intro j
  have hg := get_bits_testBit b content cb bit j hb hbit
  simp only [embed_channel, testBit_u8, testBit_u16, Nat.testBit_and, Nat.testBit_or,
    Nat.testBit_shiftLeft, Nat.testBit_shiftRight, testBit_255]
  by_cases hj : j < b
  · have e1 : ¬ j ≥ b := by omega
    have e2 : j < 8 := by omega
    have e3 : j < 16 := by omega
    have e4 : 8 - b + j < 8 := by omega
    have e5 : 8 - b + j ≥ 8 - b := by omega
    have e6 : 8 - b + j - (8 - b) < 8 := by omega
    simp only [e1, e2, e3, e4, e5, e6, decide_True, decide_False, Bool.true_and, Bool.false_and,
      Bool.and_false, Bool.false_or, Bool.and_true]
  · rw [hg]
    have e4 : ¬ 8 - b + j < 8 := by omega
    simp only [hj, e4, decide_False, Bool.false_and, Bool.and_false]

theorem covers_refl (buf content : List Nat) (lo : Nat) : Covers buf buf content lo lo := by
  refine ⟨rfl, ?_, fun h => h⟩
  intro k _
  have : ¬ (lo ≤ k ∧ k < lo) := by omega
  simp [this]

theorem covers_trans {b2 b1 b0 content : List Nat} {lo mid hi : Nat}
    (h1 : Covers b1 b0 content lo mid) (h2 : Covers b2 b1 content mid hi)
    (hlo : lo ≤ mid) (hhi : mid ≤ hi) : Covers b2 b0 content lo hi := by
  obtain ⟨l1, c1, p1⟩ := h1
  obtain ⟨l2, c2, p2⟩ := h2
  refine ⟨l2.trans l1, ?_, fun h => p2 (p1 h)⟩
  intro k hk
  rw [c2 k (by rw [l1]; exact hk), c1 k hk]
  by_cases ha : lo ≤ k ∧ k < mid
  · have hb : ¬ (mid ≤ k ∧ k < hi) := by omega
    have hc : lo ≤ k ∧ k < hi := by omega
    rw [decide_eq_true ha, decide_eq_false hb, decide_eq_true hc]
    simp
  · by_cases hb : mid ≤ k ∧ k < hi
    · have hc : lo ≤ k ∧ k < hi := by omega
      rw [decide_eq_false ha, decide_eq_true hb, decide_eq_true hc]
      simp
    · have hc : ¬ (lo ≤ k ∧ k < hi) := by omega
      rw [decide_eq_false ha, decide_eq_false hb, decide_eq_false hc]
      simp

/-- One channel: writing the bits `get_bits` read at a cursor back at the same
cursor copies the `b` content bits that start there. -/
theorem covers_channel (b : Nat) (buf content : List Nat) (cb bit : Nat)
    (hb : b ≤ 8) (hbit : bit < 8) :
    Covers (add_bits b buf cb bit (get_bits b content cb bit)) buf content
      (8 * cb + bit) (8 * cb + bit + b) := by
  refine ⟨add_bits_length _ _ _ _ _, ?_, add_bits_lt_256 _ _ _ _ _⟩
  intro k hk
  rw [add_bits_bitAt b buf cb bit _ k hb hbit (get_bits_lt b content cb bit hb hbit) hk]
  congr 1
  by_cases hlo : 8 * cb + bit ≤ k
  · rw [get_bits_testBit b content cb bit _ hb hbit]
    by_cases hhi : k < 8 * cb + bit + b
    · have e1 : k - (8 * cb + bit) < b := by omega
      have e2 : 8 * cb + bit ≤ k ∧ k < 8 * cb + bit + b := ⟨hlo, hhi⟩
      rw [decide_eq_true hlo, decide_eq_true e1, decide_eq_true e2]
      simp only [Bool.true_and]
      unfold bitAt
      by_cases h8 : bit + (k - (8 * cb + bit)) < 8
      · have e3 : k / 8 = cb := by omega
        have e4 : k % 8 = bit + (k - (8 * cb + bit)) := by omega
        rw [if_pos h8, e3, e4]
      · have e3 : k / 8 = cb + 1 := by omega
        have e4 : k % 8 = bit + (k - (8 * cb + bit)) - 8 := by omega
        rw [if_neg h8, e3, e4]
    · have e1 : ¬ k - (8 * cb + bit) < b := by omega
      have e2 : ¬ (8 * cb + bit ≤ k ∧ k < 8 * cb + bit + b) := by omega
      rw [decide_eq_false e1, decide_eq_false e2]
      simp only [Bool.false_and, Bool.and_false]
  · have e2 : ¬ (8 * cb + bit ≤ k ∧ k < 8 * cb + bit + b) := by omega
    rw [decide_eq_false hlo, decide_eq_false e2]
    simp only [Bool.false_and]

/-- One pixel: `retrieve_pixel` applied to the pixel `embed_pixel` produced, at
the same cursor, advances the cursor in the same way and copies the
`channel_count * b` content bits that start at the cursor. -/
theorem covers_pixel (type : ImageType) (b : Nat) (buf content : List Nat) (p : Pixel)
    (cb bit : Nat) (hb : b ≤ 8) (hbit : bit < 8) :
    (retrieve_pixel type b buf (embed_pixel type b content p cb bit).1 cb bit).2
        = (embed_pixel type b content p cb bit).2
      ∧ 8 * (embed_pixel type b content p cb bit).2.1 + (embed_pixel type b content p cb bit).2.2
          = 8 * cb + bit + channel_count type * b
      ∧ (embed_pixel type b content p cb bit).2.2 < 8
      ∧ Covers (retrieve_pixel type b buf (embed_pixel type b content p cb bit).1 cb bit).1
          buf content (8 * cb + bit) (8 * cb + bit + channel_count type * b) := by
  have s1 := cursor_step b cb bit hb hbit
  have s2 := cursor_step b (next_byte b cb bit) (next_bit b bit) hb s1.2
  have s3 := cursor_step b (next_byte b (next_byte b cb bit) (next_bit b bit))
    (next_bit b (next_bit b bit)) hb s2.2
  have s4 := cursor_step b
    (next_byte b (next_byte b (next_byte b cb bit) (next_bit b bit)) (next_bit b (next_bit b bit)))
    (next_bit b (next_bit b (next_bit b bit))) hb s3.2
  have c1 := covers_channel b buf content cb bit hb hbit
  have c2 := covers_channel b (add_bits b buf cb bit (get_bits b content cb bit)) content
    (next_byte b cb bit) (next_bit b bit) hb s1.2
  have c3 := covers_channel b
    (add_bits b (add_bits b buf cb bit (get_bits b content cb bit))
      (next_byte b cb bit) (next_bit b bit)
      (get_bits b content (next_byte b cb bit) (next_bit b bit))) content
    (next_byte b (next_byte b cb bit) (next_bit b bit)) (next_bit b (next_bit b bit)) hb s2.2
  rw [s1.1] at c2
  rw [s2.1, s1.1] at c3
  have c12 := covers_trans c1 c2 (by omega) (by omega)
  have c123 := covers_trans c12 c3 (by omega) (by omega)
  by_cases ha : type = ImageType.IMAGE_RGBA16 ∨ type = ImageType.IMAGE_RGBA32
  · have hcc : channel_count type = 4 := by simp only [channel_count, if_pos ha]
    have c4 := covers_channel b
      (add_bits b
        (add_bits b (add_bits b buf cb bit (get_bits b content cb bit))
          (next_byte b cb bit) (next_bit b bit)
          (get_bits b content (next_byte b cb bit) (next_bit b bit)))
        (next_byte b (next_byte b cb bit) (next_bit b bit)) (next_bit b (next_bit b bit))
        (get_bits b content (next_byte b (next_byte b cb bit) (next_bit b bit))
          (next_bit b (next_bit b bit)))) content
      (next_byte b (next_byte b (next_byte b cb bit) (next_bit b bit))
        (next_bit b (next_bit b bit)))
      (next_bit b (next_bit b (next_bit b bit))) hb s3.2
    rw [s3.1, s2.1, s1.1] at c4
    have c1234 := covers_trans c123 c4 (by omega) (by omega)
    have e : 8 * cb + bit + b + b + b + b = 8 * cb + bit + 4 * b := by omega
    rw [e] at c1234
    simp only [embed_pixel, retrieve_pixel, if_pos ha, retrieve_embedded_channel _ _ _ _ _ hb hbit,
      retrieve_embedded_channel _ _ _ _ _ hb s1.2, retrieve_embedded_channel _ _ _ _ _ hb s2.2,
      retrieve_embedded_channel _ _ _ _ _ hb s3.2, hcc]
    exact ⟨trivial, by omega, s4.2, c1234⟩
  · have hcc : channel_count type = 3 := by simp only [channel_count, if_neg ha]
    have e : 8 * cb + bit + b + b + b = 8 * cb + bit + 3 * b := by omega
    rw [e] at c123
    simp only [embed_pixel, retrieve_pixel, if_neg ha, retrieve_embedded_channel _ _ _ _ _ hb hbit,
      retrieve_embedded_channel _ _ _ _ _ hb s1.2, retrieve_embedded_channel _ _ _ _ _ hb s2.2, hcc]
    exact ⟨trivial, by omega, s3.2, c123⟩

/-- The two loops in lock step: extracting from the pixels `embed_loop`
produced copies the content bits from the cursor up to some position `hi`,
which is at least `8 * L` unless all `min n pixels.length` pixels were
used. -/
theorem covers_loop (type : ImageType) (b : Nat) (content : List Nat) (L : Nat) (hb : b ≤ 8) :
    ∀ (n : Nat) (pixels : List Pixel) (buf : List Nat) (cb bit : Nat), bit < 8 →
      ∃ hi, Covers
          (retrieve_loop type b L n (embed_loop type b content L n pixels cb bit) buf cb bit)
          buf content (8 * cb + bit) hi
        ∧ 8 * cb + bit ≤ hi
        ∧ (8 * L ≤ hi ∨ hi = 8 * cb + bit + min n pixels.length * (channel_count type * b)) := by
  intro n
  induction n with
  | zero =>
    intro pixels buf cb bit _
    exact ⟨8 * cb + bit, by simpa [retrieve_loop] using covers_refl buf content _,
      le_refl _, Or.inr (by simp)⟩
  | succ n ih =>
    intro pixels buf cb bit hbit
    cases pixels with
    | nil =>
      exact ⟨8 * cb + bit, by simpa [embed_loop, retrieve_loop] using covers_refl buf content _,
        le_refl _, Or.inr (by simp)⟩
    | cons p rest =>
      by_cases hlt : cb < L
      · obtain ⟨hcur, hpos, hbit2, hcov⟩ := covers_pixel type b buf content p cb bit hb hbit
        obtain ⟨hi, hc, hle, hend⟩ := ih rest
          (retrieve_pixel type b buf (embed_pixel type b content p cb bit).1 cb bit).1
          (embed_pixel type b content p cb bit).2.1 (embed_pixel type b content p cb bit).2.2 hbit2
        rw [hpos] at hc hle hend
        refine ⟨hi, ?_, by omega, ?_⟩
        · simp only [embed_loop, retrieve_loop, if_pos hlt, hcur]
          exact covers_trans hcov hc (by omega) hle
        · rcases hend with h | h
          · exact Or.inl h
          · right
            have e : min (n + 1) (rest.length + 1) = min n rest.length + 1 := Nat.succ_min_succ _ _
            rw [h, List.length_cons, e, Nat.add_mul, Nat.one_mul]
            omega
      · refine ⟨8 * cb + bit, ?_, le_refl _, Or.inl (by omega)⟩
        simp only [embed_loop, retrieve_loop, if_neg hlt]
        exact covers_refl buf content _

theorem usize_mul_le (a w h : Nat) : usize (usize (a * w) * h) ≤ a * usize (w * h) := by
  unfold usize
  have e1 : (a * w % 18446744073709551616 * h) % 18446744073709551616
      = (a * (w * h % 18446744073709551616)) % 18446744073709551616 := by
    rw [Nat.mod_mul_mod, Nat.mul_mod_mod, Nat.mul_assoc]
  rw [e1]
  exact Nat.mod_le _ _

theorem capacity_factor_channels (type : ImageType) (b : Int)
    (h : capacity_factor type b ≠ 0) : capacity_factor type b = channel_count type := by
  cases type <;> simp only [capacity_factor, channel_count] at h ⊢ <;>
    first
      | contradiction
      | (split at h <;> first | contradiction | simp_all)

/-- A payload length within `determine_max_content` needs no more bits than
the pixels the loops visit provide. -/
theorem capacity_bound (img : ImageData) (b L : Nat)
    (h : (L : Int) ≤ determine_max_content img b) :
    8 * L ≤ usize (img.width * img.height) * (channel_count img.type * b) := by
  unfold determine_max_content at h
  simp only at h
  by_cases hf : capacity_factor img.type b = 0
  · rw [hf] at h
    simp [toInt32, toSizeT, usize] at h
    omega
  · have hb5 : (b : Int) < 5 := capacity_factor_bits _ _ hf
    have hcc := capacity_factor_channels _ _ hf
    have hc4 : channel_count img.type ≤ 4 := by
      unfold channel_count; split <;> omega
    have hb5n : b < 5 := by exact_mod_cast hb5
    have hprod : channel_count img.type * b ≤ 16 := by nlinarith
    have e0 : capacity_factor img.type (b : Int) * (b : Int)
        = ((channel_count img.type * b : Nat) : Int) := by
      rw [hcc]; push_cast; rfl
    have e1 : toInt32 (((channel_count img.type * b : Nat) : Int))
        = ((channel_count img.type * b : Nat) : Int) :=
      toInt32_of_fits (Int.natCast_nonneg _) (by omega)
    rw [e0, e1, toSizeT_natCast (by omega)] at h
    have h2 := usize_mul_le (channel_count img.type * b) img.width img.height
    have h3 : L ≤ usize (usize (channel_count img.type * b * img.width) * img.height) / 8 := by
      unfold toInt32 at h
      omega
    have h4 : channel_count img.type * b * usize (img.width * img.height)
        = usize (img.width * img.height) * (channel_count img.type * b) := Nat.mul_comm _ _
    omega

theorem byte_eq_of_bits {x y : Nat} (hx : x < 256) (hy : y < 256)
    (h : ∀ j, j < 8 → x.testBit j = y.testBit j) : x = y := by
  apply Nat.eq_of_testBit_eq
  intro j
  by_cases hj : j < 8
  · exact h j hj
  · rw [testBit_of_lt_256 hx (by omega), testBit_of_lt_256 hy (by omega)]

theorem malloc_length (n : Nat) (junk : Nat → Nat) : (malloc n junk).length = n := by
  simp [malloc]

theorem malloc_lt_256 (n : Nat) (junk : Nat → Nat) : ∀ x ∈ malloc n junk, x < 256 := by
  intro x hx
  simp only [malloc, List.mem_map] at hx
  obtain ⟨i, -, rfl⟩ := hx
  exact u8_lt _

/-- The buffer `retrieve_content` starts from: `L + 2` bytes, the first `L`
zero. -/
theorem fresh_buffer (L : Nat) (junk : Nat → Nat) :
    (memset (malloc (L + 2) junk) 0 L).length = L + 2
      ∧ (∀ k, k < 8 * L → bitAt (memset (malloc (L + 2) junk) 0 L) k = false)
      ∧ (∀ x ∈ memset (malloc (L + 2) junk) 0 L, x < 256) := by
  have hmin : min L (malloc (L + 2) junk).length = L := by
    rw [malloc_length]; omega
  refine ⟨?_, ?_, ?_⟩
  · simp only [memset, hmin, List.length_append, List.length_replicate, List.length_drop,
      malloc_length]
    omega
  · intro k hk
    unfold bitAt memset
    rw [hmin, List.getD_eq_getElem?_getD, List.getElem?_append_left (by simp; omega)]
    simp [List.getElem?_replicate, show k / 8 < L by omega]
  · intro x hx
    simp only [memset, List.mem_append] at hx
    rcases hx with h | h
    · rw [List.eq_of_mem_replicate h]; decide
    · exact malloc_lt_256 _ _ x (List.mem_of_mem_drop h)

/-- Extraction from the pixels the embedding loop produced, started on a fresh
buffer, reproduces the first `L` payload bytes. -/
theorem retrieve_embed_loops (type : ImageType) (b n : Nat) (pixels : List Pixel)
    (payload spare : List Nat) (junk : Nat → Nat)
    (hb : b ≤ 8) (hn : n ≤ pixels.length)
    (hcap : 8 * payload.length ≤ n * (channel_count type * b))
    (hbytes : ∀ x ∈ payload, x < 256) :
    (retrieve_loop type b payload.length n
        (embed_loop type b (payload ++ spare) payload.length n pixels 0 0)
        (memset (malloc (payload.length + 2) junk) 0 payload.length) 0 0).take payload.length
      = payload := by
  obtain ⟨hlen0, hzero, hlt0⟩ := fresh_buffer payload.length junk
  obtain ⟨hi, ⟨hlen, hbits, hlt⟩, -, hend⟩ := covers_loop type b (payload ++ spare) payload.length hb
    n pixels (memset (malloc (payload.length + 2) junk) 0 payload.length) 0 0 (by decide)
  have hhi : 8 * payload.length ≤ hi := by
    rcases hend with h | h
    · exact h
    · rw [Nat.min_eq_left hn] at h
      omega
  have hout := hlt hlt0
  apply List.ext_getElem
  · rw [List.length_take, hlen, hlen0]
    omega
  · intro i h1 h2
    rw [List.getElem_take]
    have hi1 : i < (retrieve_loop type b payload.length n
        (embed_loop type b (payload ++ spare) payload.length n pixels 0 0)
        (memset (malloc (payload.length + 2) junk) 0 payload.length) 0 0).length := by
      rw [hlen, hlen0]; omega
    apply byte_eq_of_bits (hout _ (List.getElem_mem _)) (hbytes _ (List.getElem_mem _))
    intro j hj
    have hk := hbits (8 * i + j) (by rw [hlen0]; omega)
    rw [hzero (8 * i + j) (by omega)] at hk
    have hrange : 0 ≤ 8 * i + j ∧ 8 * i + j < hi := by omega
    rw [decide_eq_true (by simpa using hrange), Bool.false_or, Bool.true_and] at hk
    unfold bitAt at hk
    have e1 : (8 * i + j) / 8 = i := by omega
    have e2 : (8 * i + j) % 8 = j := by omega
    rw [e1, e2, List.getD_eq_getElem?_getD, List.getD_eq_getElem?_getD,
      List.getElem?_eq_getElem hi1, List.getElem?_append_left h2,
      List.getElem?_eq_getElem h2] at hk
    simpa using hk

theorem embed_content_eq (img : ImageData) (content : List Nat) (L b : Nat)
    (hcap : (L : Int) ≤ determine_max_content img b) :
    embed_content img content L b
      = (0, { img with
              buffer := embed_loop img.type b content L (usize (img.width * img.height))
                img.buffer 0 0 }) := by
  have hdlt := determine_max_content_lt img b
  have hsize : ¬ toSizeT (determine_max_content img b) < L := by
    unfold toSizeT
    omega
  simp only [embed_content, if_neg hsize]

theorem retrieve_content_eq (img : ImageData) (b : Nat) (junk : Nat → Nat) (L : Nat)
    (hres : img.reserved = L) (hcap : (L : Int) ≤ determine_max_content img b) :
    retrieve_content img b junk
      = some (retrieve_loop img.type b L (usize (img.width * img.height)) img.buffer
                (memset (malloc (L + 2) junk) 0 L) 0 0, L) := by
  have hdlt := determine_max_content_lt img b
  have hguard : ¬ (img.reserved > determine_max_content img b) := by
    rw [hres]; omega
  have hL : toSizeT (L : Int) = L := toSizeT_natCast (by omega)
  have hL2 : usize (L + 2) = L + 2 := usize_small (by omega)
  rw [hres] at hguard
  simp only [retrieve_content, hres, if_neg hguard, hL, hL2]

/-- C1. For an image of type RGBA16, RGB24 or RGBA32 whose pixel array has
`width * height` entries, a bit setting valid for the type and a payload no
longer than `determine_max_content`, `embed_content` succeeds and
`retrieve_content` on the resulting image with `reserved` set to the payload
length returns that length and a buffer that starts with the payload. -/
theorem embed_retrieve_round_trip (img : ImageData) (b : Nat) (payload spare : List Nat)
    (junk : Nat → Nat)
    (hvalid : valid_bit_number img.type b = true)
    (hbuf : img.buffer.length = img.width * img.height)
    (hbytes : ∀ x ∈ payload, x < 256)
    (hcap : (payload.length : Int) ≤ determine_max_content img b) :
    (embed_content img (payload ++ spare) payload.length b).1 = 0
      ∧ ∃ out, retrieve_content
            { (embed_content img (payload ++ spare) payload.length b).2 with
              reserved := payload.length } b junk
          = some (out, payload.length)
        ∧ out.take payload.length = payload := by
  have hb : b ≤ 8 := by
    cases ht : img.type <;> rw [ht] at hvalid <;> simp [valid_bit_number] at hvalid <;> omega
  have hbound := capacity_bound img b payload.length hcap
  have hn : usize (img.width * img.height) ≤ img.buffer.length := by
    rw [hbuf]; exact Nat.mod_le _ _
  rw [embed_content_eq img _ _ b hcap]
  refine ⟨rfl, _, retrieve_content_eq _ b junk payload.length rfl hcap, ?_⟩
  exact retrieve_embed_loops img.type b _ img.buffer payload spare junk hb hn hbound hbytes

/-- C1, instance: a 2 x 1 RGB24 image at 4 bits carries the 3 bytes
`[0xAB, 0xCD, 0xEF]`. -/
theorem embed_retrieve_round_trip_witness :
    (embed_content
        { type := ImageType.IMAGE_RGB24, height := 1, width := 2,
          buffer := [{ r := 17, g := 34, b := 51, a := 0 }, { r := 68, g := 85, b := 102, a := 0 }],
          resolution_horizontal := 0, resolution_vertical := 0, reserved := 0 }
        ([171, 205, 239] ++ [1, 2, 3, 4]) [171, 205, 239].length 4).1 = 0
      ∧ ∃ out, retrieve_content
            { (embed_content
                { type := ImageType.IMAGE_RGB24, height := 1, width := 2,
                  buffer := [{ r := 17, g := 34, b := 51, a := 0 },
                    { r := 68, g := 85, b := 102, a := 0 }],
                  resolution_horizontal := 0, resolution_vertical := 0, reserved := 0 }
                ([171, 205, 239] ++ [1, 2, 3, 4]) [171, 205, 239].length 4).2 with
              reserved := [171, 205, 239].length } 4 (fun _ => 170)
          = some (out, [171, 205, 239].length)
        ∧ out.take [171, 205, 239].length = [171, 205, 239] :=
  embed_retrieve_round_trip
    { type := ImageType.IMAGE_RGB24, height := 1, width := 2,
      buffer := [{ r := 17, g := 34, b := 51, a := 0 }, { r := 68, g := 85, b := 102, a := 0 }],
      resolution_horizontal := 0, resolution_vertical := 0, reserved := 0 }
    4 [171, 205, 239] [1, 2, 3, 4] (fun _ => 170) (by decide) (by decide) (by decide) (by decide)

/-! ### The encoder's header -/

theorem getD_set_of_lt {l : List Nat} {i : Nat} (k v : Nat) (h : i < l.length) :
    (l.set i v).getD k 0 = if k = i then v else l.getD k 0 := by
  by_cases hk : k = i
  · subst hk
    rw [if_pos rfl, getD_set_eq _ _ h]
  · rw [if_neg hk, getD_set_ne _ _ (fun e => hk e.symm)]

theorem set_append_mid (pre : List Nat) (o v : Nat) (post : List Nat) :
    (pre ++ o :: post).set pre.length v = pre ++ v :: post := by
  induction pre with
  | nil => rfl
  | cons a pre ih => simp [List.set, ih]

/-- Storing the values `vals` at consecutive offsets replaces that segment of
the buffer. -/
theorem foldl_set_enumFrom (vals : List Nat) :
    ∀ (pre old post : List Nat), old.length = vals.length →
      (vals.enumFrom pre.length).foldl (fun b (iv : Nat × Nat) => b.set iv.1 iv.2)
          (pre ++ old ++ post)
        = pre ++ vals ++ post := by
  induction vals with
  | nil =>
    intro pre old post h
    have : old = [] := List.length_eq_zero.mp h
    subst this
    simp
  | cons v rest ih =>
    intro pre old post h
    cases old with
    | nil => simp at h
    | cons o old =>
      simp only [List.length_cons, Nat.add_right_cancel_iff] at h
      simp only [List.enumFrom_cons, List.foldl_cons]
      have e1 : (pre ++ o :: old ++ post).set pre.length v = (pre ++ [v]) ++ old ++ post := by
        have h0 := set_append_mid pre o v (old ++ post)
        simp only [List.append_assoc, List.singleton_append, List.cons_append] at h0 ⊢
        exact h0
      have e2 : pre.length + 1 = (pre ++ [v]).length := by simp
      rw [e1, e2, ih (pre ++ [v]) old post h]
      simp

theorem write_header_eq_foldl (buffer : List Nat) (data : ImageData) (image_depth file_size : Nat) :
    write_header buffer data image_depth file_size
      = ((header_bytes data image_depth file_size).enumFrom 0).foldl
          (fun b (iv : Nat × Nat) => b.set iv.1 iv.2) buffer := by
  simp only [write_header, write_u32, write_u16, header_bytes, List.enumFrom, List.foldl]

/-- The header stores replace the first 54 bytes by `header_bytes`. -/
theorem write_header_eq (buffer : List Nat) (data : ImageData) (image_depth file_size : Nat)
    (hlen : 54 ≤ buffer.length) :
    write_header buffer data image_depth file_size
      = header_bytes data image_depth file_size ++ buffer.drop 54 := by
  have h := foldl_set_enumFrom (header_bytes data image_depth file_size) [] (buffer.take 54)
    (buffer.drop 54) (by simp [header_bytes]; omega)
  simp only [List.nil_append, List.take_append_drop, List.length_nil] at h
  rw [write_header_eq_foldl, h]

/-! ### Pixel layout of the 24-bit encoder and decoder -/

theorem padding_cases (x : Nat) :
    4 - x % 4 = 1 ∨ 4 - x % 4 = 2 ∨ 4 - x % 4 = 3 ∨ 4 - x % 4 = 4 := by
  omega

theorem create_padding_eq (w d : Nat) (h : w * d < 18446744073709551616) :
    create_padding w d = 4 - (w * d / 8) % 4 := by
  unfold create_padding
  rw [usize_small h]

theorem parse_padding_eq (w d : Nat) : parse_padding w d = 4 - (w * d / 8) % 4 := by
  unfold parse_padding u32
  omega

/-- Bounds on the layout of pixel `i < width * height` of a 24-bit image. -/
theorem pixel_offset_bounds (w h i : Nat) (hi : i < w * h) :
    pixel_offset w 24 i + 3 ≤ 54 + w * h * 24 / 8 + h * (4 - (w * 24 / 8) % 4)
      ∧ i / w * (4 - (w * 24 / 8) % 4) ≤ 4 * h := by
  have hw : 0 < w := by
    rcases Nat.eq_zero_or_pos w with h0 | h0
    · subst h0; simp at hi
    · exact h0
  have hq : i / w < h := Nat.div_lt_of_lt_mul hi
  unfold pixel_offset
  rcases padding_cases (w * 24 / 8) with hp | hp | hp | hp <;> rw [hp] <;> omega

theorem pixel_offset_step (w i : Nat) :
    pixel_offset w 24 i + 3 ≤ pixel_offset w 24 (i + 1) := by
  have hq : i / w ≤ (i + 1) / w := Nat.div_le_div_right (Nat.le_succ i)
  unfold pixel_offset
  rcases padding_cases (w * 24 / 8) with hp | hp | hp | hp <;> rw [hp] <;> omega

theorem pixel_offset_ge (w i : Nat) : 54 ≤ pixel_offset w 24 i := by
  unfold pixel_offset
  omega

/-! ### Accesses at an `int` index that is a natural number -/

theorem load_cast (buf : List Nat) (n : Nat) : load buf (n : Int) = buf.getD n 0 := by
  unfold load
  rw [if_neg (by omega), Int.toNat_natCast]

theorem load_cast1 (buf : List Nat) (n : Nat) : load buf ((n : Int) + 1) = buf.getD (n + 1) 0 :=
  load_cast buf (n + 1)

theorem load_cast2 (buf : List Nat) (n : Nat) : load buf ((n : Int) + 2) = buf.getD (n + 2) 0 :=
  load_cast buf (n + 2)

theorem load_cast3 (buf : List Nat) (n : Nat) : load buf ((n : Int) + 3) = buf.getD (n + 3) 0 :=
  load_cast buf (n + 3)

theorem store_cast (buf : List Nat) (n v : Nat) : store buf (n : Int) v = buf.set n v := by
  unfold store
  rw [if_neg (by omega), Int.toNat_natCast]

theorem store_cast1 (buf : List Nat) (n v : Nat) :
    store buf ((n : Int) + 1) v = buf.set (n + 1) v :=
  store_cast buf (n + 1) v

theorem store_cast2 (buf : List Nat) (n v : Nat) :
    store buf ((n : Int) + 2) v = buf.set (n + 2) v :=
  store_cast buf (n + 2) v

theorem store_cast3 (buf : List Nat) (n v : Nat) :
    store buf ((n : Int) + 3) v = buf.set (n + 3) v :=
  store_cast buf (n + 3) v

theorem load_u32_cast (buf : List Nat) (n : Nat) : load_u32 buf (n : Int) = read_u32 buf n := by
  unfold load_u32 read_u32
  rw [load_cast, load_cast1, load_cast2, load_cast3]

theorem store_u32_cast (buf : List Nat) (n v : Nat) :
    store_u32 buf (n : Int) v = write_u32 buf n v := by
  unfold store_u32 write_u32
  rw [store_cast, store_cast1, store_cast2, store_cast3]

/-! ### The index computations when the signed product is in range -/

theorem u32_small {n : Nat} (h : n < 4294967296) : u32 n = n := Nat.mod_eq_of_lt h

theorem toU32_natCast {n : Nat} (h : n < 4294967296) : toU32 (n : Int) = n := by
  unfold toU32
  omega

theorem tdiv_natCast (n : Nat) : Int.tdiv (n : Int) 8 = ((n / 8 : Nat) : Int) := by
  rw [Int.tdiv_eq_ediv (Int.natCast_nonneg _) (by decide)]
  norm_cast

theorem int_product_quot (i d : Nat) (h : i * d < 2147483648) :
    Int.tdiv (toInt32 ((i : Int) * (d : Int))) 8 = ((i * d / 8 : Nat) : Int) := by
  have e : toInt32 ((i : Int) * (d : Int)) = ((i * d : Nat) : Int) := by
    rw [Nat.cast_mul]
    exact toInt32_of_fits (by positivity) (by exact_mod_cast h)
  rw [e, tdiv_natCast]

theorem toInt32_natCast {n : Nat} (h : n < 2147483648) : toInt32 (n : Int) = n :=
  toInt32_of_fits (Int.natCast_nonneg _) (by exact_mod_cast h)

theorem create_index_of_fits (w d i : Nat) (hprod : i * d < 2147483648)
    (hwd : w * d < 18446744073709551616)
    (hsum : 54 + i * d / 8 + i / w * (4 - (w * d / 8) % 4) < 2147483648) :
    create_index w d i = ((pixel_offset w d i : Nat) : Int) := by
  unfold create_index pixel_offset
  rw [create_padding_eq w d hwd, int_product_quot i d hprod,
    toU32_natCast (by omega : i * d / 8 < 4294967296),
    usize_small (by omega : i / w * (4 - w * d / 8 % 4) < 18446744073709551616),
    u32_small (by omega : 54 + i * d / 8 < 4294967296),
    usize_small (by omega), toInt32_natCast hsum]

theorem parse_index_of_fits (ds w d i : Nat) (hprod : i * d < 2147483648)
    (hsum : ds + i * d / 8 + i / w * (4 - (w * d / 8) % 4) < 2147483648) :
    parse_index ds w d i = ((ds + i * d / 8 + i / w * (4 - (w * d / 8) % 4) : Nat) : Int) := by
  unfold parse_index
  rw [parse_padding_eq w d, int_product_quot i d hprod, ← Nat.cast_add,
    toU32_natCast (by omega : ds + i * d / 8 < 4294967296),
    u32_small (by omega : i / w * (4 - w * d / 8 % 4) < 4294967296),
    u32_small (by omega), toInt32_natCast hsum]

theorem product_le (i n d : Nat) (hi : i < n) : i * d ≤ d * n := by
  rw [Nat.mul_comm d n]
  exact Nat.mul_le_mul_right d (Nat.le_of_lt hi)

theorem create_index_eq (w h i : Nat) (hi : i < w * h)
    (hfit : 24 * (w * h) + 4 * h + 256 ≤ 2147483648) :
    create_index w 24 i = pixel_offset w 24 i := by
  have hw : 0 < w := by
    rcases Nat.eq_zero_or_pos w with h0 | h0
    · subst h0; simp at hi
    · exact h0
  have hh : 0 < h := by
    rcases Nat.eq_zero_or_pos h with h0 | h0
    · subst h0; simp at hi
    · exact h0
  have hwle : w ≤ w * h := Nat.le_mul_of_pos_right _ hh
  have hb := pixel_offset_bounds w h i hi
  have hp := product_le i (w * h) 24 hi
  unfold pixel_offset at hb
  exact create_index_of_fits w 24 i (by omega) (by omega) (by omega)

theorem parse_index_eq (w h i : Nat) (hi : i < w * h)
    (hfit : 24 * (w * h) + 4 * h + 256 ≤ 2147483648) :
    parse_index 54 w 24 i = pixel_offset w 24 i := by
  have hb := pixel_offset_bounds w h i hi
  have hp := product_le i (w * h) 24 hi
  unfold pixel_offset at hb
  exact parse_index_of_fits 54 w 24 i (by omega) (by omega)

theorem write_pixel_24 (buf : List Nat) (index : Nat) (p : Pixel) (h : index + 2 < buf.length) :
    (write_pixel 24 buf index p).length = buf.length
      ∧ (write_pixel 24 buf index p).getD index 0 = u8 p.b
      ∧ (write_pixel 24 buf index p).getD (index + 1) 0 = u8 p.g
      ∧ (write_pixel 24 buf index p).getD (index + 2) 0 = u8 p.r
      ∧ ∀ k, k < index → (write_pixel 24 buf index p).getD k 0 = buf.getD k 0 := by
  have e : write_pixel 24 buf index p
      = ((buf.set index (u8 p.b)).set (index + 1) (u8 p.g)).set (index + 2) (u8 p.r) := by
    simp [write_pixel, store_cast, store_cast1, store_cast2]
  rw [e]
  refine ⟨by simp, ?_, ?_, ?_, ?_⟩
  · rw [getD_set_ne _ _ (by omega), getD_set_ne _ _ (by omega), getD_set_eq _ _ (by omega)]
  · rw [getD_set_ne _ _ (by omega), getD_set_eq _ _ (by rw [List.length_set]; omega)]
  · rw [getD_set_eq _ _ (by rw [List.length_set, List.length_set]; omega)]
  · intro k hk
    rw [getD_set_ne _ _ (by omega), getD_set_ne _ _ (by omega), getD_set_ne _ _ (by omega)]

/-- The pixel loop of the 24-bit encoder: it keeps the length and the bytes
below the first pixel it stores, and pixel `j` of the list reads back at
offset `pixel_offset width 24 (i + j)` as blue, green, red. -/
theorem create_loop_24 (w : Nat) :
    ∀ (n i : Nat) (pixels : List Pixel) (buf : List Nat),
      (∀ j, i ≤ j → j < i + min n pixels.length →
        create_index w 24 j = pixel_offset w 24 j ∧ pixel_offset w 24 j + 2 < buf.length) →
      (create_loop w 24 n i pixels buf).length = buf.length
        ∧ (∀ k, k < pixel_offset w 24 i → (create_loop w 24 n i pixels buf).getD k 0 = buf.getD k 0)
        ∧ ∀ j p, j < n → pixels[j]? = some p →
            (create_loop w 24 n i pixels buf).getD (pixel_offset w 24 (i + j)) 0 = u8 p.b
              ∧ (create_loop w 24 n i pixels buf).getD (pixel_offset w 24 (i + j) + 1) 0 = u8 p.g
              ∧ (create_loop w 24 n i pixels buf).getD (pixel_offset w 24 (i + j) + 2) 0 = u8 p.r := by
  intro n
  induction n with
  | zero =>
    intro i pixels buf _
    refine ⟨rfl, fun _ _ => rfl, ?_⟩
    intro j p hj
    omega
  | succ n ih =>
    intro i pixels buf hidx
    cases pixels with
    | nil =>
      refine ⟨rfl, fun _ _ => rfl, ?_⟩
      intro j p _ hp
      simp at hp
    | cons p0 rest =>
      have h0 := hidx i (le_refl _) (by simp only [List.length_cons, Nat.succ_min_succ]; omega)
      obtain ⟨wl, wb, wg, wr, wframe⟩ := write_pixel_24 buf (pixel_offset w 24 i) p0 h0.2
      have hstep := pixel_offset_step w i
      have hrec := ih (i + 1) rest (write_pixel 24 buf (pixel_offset w 24 i) p0) (by
        intro j hj1 hj2
        have := hidx j (by omega) (by
          simp only [List.length_cons, Nat.succ_min_succ]; omega)
        rw [wl]
        exact this)
      obtain ⟨rl, rframe, rpix⟩ := hrec
      have e : create_loop w 24 (n + 1) i (p0 :: rest) buf
          = create_loop w 24 n (i + 1) rest (write_pixel 24 buf (pixel_offset w 24 i) p0) := by
        rw [create_loop, h0.1]
      rw [e]
      refine ⟨rl.trans wl, ?_, ?_⟩
      · intro k hk
        rw [rframe k (by omega), wframe k hk]
      · intro j p hj hp
        cases j with
        | zero =>
          simp only [List.getElem?_cons_zero, Option.some.injEq] at hp
          subst hp
          simp only [Nat.add_zero]
          rw [rframe _ (by omega), rframe _ (by omega), rframe _ (by omega)]
          exact ⟨wb, wg, wr⟩
        | succ j =>
          simp only [List.getElem?_cons_succ] at hp
          have := rpix j p (by omega) hp
          rw [show i + (j + 1) = i + 1 + j by omega]
          exact this

theorem le32 (v : Nat) :
    v % 256 + 256 * (v / 256 % 256) + 65536 * (v / 65536 % 256)
        + 16777216 * (v / 16777216 % 256) = v % 4294967296 := by
  omega

theorem read_u32_of_bytes (file : List Nat) (off b0 b1 b2 b3 : Nat)
    (h0 : file.getD off 0 = b0) (h1 : file.getD (off + 1) 0 = b1)
    (h2 : file.getD (off + 2) 0 = b2) (h3 : file.getD (off + 3) 0 = b3) :
    read_u32 file off = b0 + 256 * b1 + 65536 * b2 + 16777216 * b3 := by
  unfold read_u32
  rw [h0, h1, h2, h3]

/-- Header fields read from a buffer whose first 54 bytes are `header_bytes`. -/
theorem read_header (file : List Nat) (data : ImageData) (d fs : Nat)
    (hframe : ∀ k, k < 54 → file.getD k 0 = (header_bytes data d fs).getD k 0) :
    file.getD 0 0 = 66 ∧ file.getD 1 0 = 77
      ∧ read_u32 file 6 = toU32 data.reserved % 4294967296
      ∧ read_u32 file 10 = 54
      ∧ read_u32 file 18 = u32 data.width % 4294967296
      ∧ read_u32 file 22 = u32 data.height % 4294967296
      ∧ read_u16 file 28 = d % 256 + 256 * (d / 256 % 256)
      ∧ read_u32 file 30 = 0
      ∧ read_u32 file 38 = toU32 data.resolution_horizontal % 4294967296
      ∧ read_u32 file 42 = toU32 data.resolution_vertical % 4294967296 := by
  refine ⟨(hframe 0 (by decide)).trans rfl, (hframe 1 (by decide)).trans rfl, ?_, ?_, ?_, ?_, ?_,
    ?_, ?_, ?_⟩
  · exact (read_u32_of_bytes file 6 _ _ _ _ ((hframe 6 (by decide)).trans rfl)
      ((hframe (6 + 1) (by decide)).trans rfl) ((hframe (6 + 2) (by decide)).trans rfl)
      ((hframe (6 + 3) (by decide)).trans rfl)).trans (le32 _)
  · exact (read_u32_of_bytes file 10 _ _ _ _ ((hframe 10 (by decide)).trans rfl)
      ((hframe (10 + 1) (by decide)).trans rfl) ((hframe (10 + 2) (by decide)).trans rfl)
      ((hframe (10 + 3) (by decide)).trans rfl))
  · exact (read_u32_of_bytes file 18 _ _ _ _ ((hframe 18 (by decide)).trans rfl)
      ((hframe (18 + 1) (by decide)).trans rfl) ((hframe (18 + 2) (by decide)).trans rfl)
      ((hframe (18 + 3) (by decide)).trans rfl)).trans (le32 _)
  · exact (read_u32_of_bytes file 22 _ _ _ _ ((hframe 22 (by decide)).trans rfl)
      ((hframe (22 + 1) (by decide)).trans rfl) ((hframe (22 + 2) (by decide)).trans rfl)
      ((hframe (22 + 3) (by decide)).trans rfl)).trans (le32 _)
  · unfold read_u16
    rw [hframe 28 (by decide), hframe (28 + 1) (by decide)]
    rfl
  · exact (read_u32_of_bytes file 30 _ _ _ _ ((hframe 30 (by decide)).trans rfl)
      ((hframe (30 + 1) (by decide)).trans rfl) ((hframe (30 + 2) (by decide)).trans rfl)
      ((hframe (30 + 3) (by decide)).trans rfl))
  · exact (read_u32_of_bytes file 38 _ _ _ _ ((hframe 38 (by decide)).trans rfl)
      ((hframe (38 + 1) (by decide)).trans rfl) ((hframe (38 + 2) (by decide)).trans rfl)
      ((hframe (38 + 3) (by decide)).trans rfl)).trans (le32 _)
  · exact (read_u32_of_bytes file 42 _ _ _ _ ((hframe 42 (by decide)).trans rfl)
      ((hframe (42 + 1) (by decide)).trans rfl) ((hframe (42 + 2) (by decide)).trans rfl)
      ((hframe (42 + 3) (by decide)).trans rfl)).trans (le32 _)

/-- The file `create_image_file` produces for an RGB24 image whose sizes do
not wrap: its length, its header bytes and the bytes of every pixel. -/
theorem create_image_file_24 (img : ImageData) (junk : Nat → Nat)
    (htype : img.type = ImageType.IMAGE_RGB24)
    (hw : img.width < 4294967296)
    (hfit : 24 * (img.width * img.height) + 4 * img.height + 256 ≤ 2147483648)
    (hbuf : img.buffer.length = img.width * img.height) :
    ∃ file, create_image_file img junk = some (file, encoded_size img.width img.height 24)
      ∧ file.length = encoded_size img.width img.height 24
      ∧ (∀ k, k < 54 → file.getD k 0
          = (header_bytes img 24 (encoded_size img.width img.height 24)).getD k 0)
      ∧ ∀ j p, img.buffer[j]? = some p →
          file.getD (pixel_offset img.width 24 j) 0 = u8 p.b
            ∧ file.getD (pixel_offset img.width 24 j + 1) 0 = u8 p.g
            ∧ file.getD (pixel_offset img.width 24 j + 2) 0 = u8 p.r := by
  have hpad := create_padding_eq img.width 24 (by omega)
  have hsize : u32 (u32 (usize (usize (usize (usize (img.height * img.width) * 24) / 8)
      + usize (img.height * create_padding img.width 24))) + 54)
      = encoded_size img.width img.height 24 := by
    rw [hpad, Nat.mul_comm img.height img.width]
    unfold encoded_size u32 usize
    rcases padding_cases (img.width * 24 / 8) with hp | hp | hp | hp <;> rw [hp] <;> omega
  have hn : usize (img.width * img.height) = img.width * img.height := usize_small (by omega)
  have hmlen : (malloc (encoded_size img.width img.height 24) junk).length
      = encoded_size img.width img.height 24 := malloc_length _ _
  have h54 : 54 ≤ encoded_size img.width img.height 24 := by
    unfold encoded_size; omega
  have hhdr := write_header_eq (malloc (encoded_size img.width img.height 24) junk) img 24
    (encoded_size img.width img.height 24) (by rw [hmlen]; exact h54)
  have hhlen : (write_header (malloc (encoded_size img.width img.height 24) junk) img 24
      (encoded_size img.width img.height 24)).length = encoded_size img.width img.height 24 := by
    rw [hhdr, List.length_append, List.length_drop, hmlen]
    simp only [header_bytes, List.length_cons, List.length_nil]
    omega
  obtain ⟨ll, lframe, lpix⟩ := create_loop_24 img.width (img.width * img.height) 0 img.buffer
    (write_header (malloc (encoded_size img.width img.height 24) junk) img 24
      (encoded_size img.width img.height 24)) (by
      intro j _ hj
      rw [hbuf, Nat.min_self, Nat.zero_add] at hj
      refine ⟨create_index_eq _ _ _ hj hfit, ?_⟩
      have hb := (pixel_offset_bounds img.width img.height j hj).1
      rw [hhlen]
      unfold encoded_size
      omega)
  refine ⟨create_loop img.width 24 (img.width * img.height) 0 img.buffer
    (write_header (malloc (encoded_size img.width img.height 24) junk) img 24
      (encoded_size img.width img.height 24)), ?_, ?_, ?_, ?_⟩
  · unfold create_image_file
    simp only [htype, hsize, hn]
  · rw [ll, hhlen]
  · intro k hk
    rw [lframe k (by have := pixel_offset_ge img.width 0; omega), hhdr,
      List.getD_eq_getElem?_getD, List.getD_eq_getElem?_getD,
      List.getElem?_append_left (by simpa [header_bytes] using hk)]
  · intro j p hp
    have hj : j < img.width * img.height := by
      rw [← hbuf]
      exact (List.getElem?_eq_some.mp hp).1
    have := lpix j p hj hp
    rw [Nat.zero_add] at this
    exact this

/-! ### Extraction depends on the low channel bytes only -/

theorem u8_and (x m : Nat) : u8 (x &&& m) = u8 x &&& u8 m := by
  apply Nat.eq_of_testBit_eq
  intro j
  simp only [testBit_u8, Nat.testBit_and]
  cases decide (j < 8) <;> simp

theorem retrieve_pixel_congr (type : ImageType) (b : Nat) (buf : List Nat) (p q : Pixel)
    (cb bit : Nat) (h : SameLowBytes type p q) :
    retrieve_pixel type b buf p cb bit = retrieve_pixel type b buf q cb bit := by
  obtain ⟨hr, hg, hbl, ha⟩ := h
  unfold retrieve_pixel
  by_cases halpha : type = ImageType.IMAGE_RGBA16 ∨ type = ImageType.IMAGE_RGBA32
  · simp only [if_pos halpha, u8_and, hr, hg, hbl, ha halpha]
  · simp only [if_neg halpha, u8_and, hr, hg, hbl]

theorem retrieve_loop_congr (type : ImageType) (b L : Nat) (ps qs : List Pixel)
    (h : List.Forall₂ (SameLowBytes type) ps qs) :
    ∀ (n : Nat) (buf : List Nat) (cb bit : Nat),
      retrieve_loop type b L n ps buf cb bit = retrieve_loop type b L n qs buf cb bit := by
  induction h with
  | nil => intro n buf cb bit; rfl
  | cons hpq _ ih =>
    intro n buf cb bit
    cases n with
    | zero => rfl
    | succ n =>
      simp only [retrieve_loop, retrieve_pixel_congr type b buf _ _ cb bit hpq, ih]

theorem embed_loop_length (type : ImageType) (b : Nat) (content : List Nat) (L : Nat) :
    ∀ (n : Nat) (pixels : List Pixel) (cb bit : Nat),
      (embed_loop type b content L n pixels cb bit).length = pixels.length := by
  intro n
  induction n with
  | zero => intro pixels cb bit; rfl
  | succ n ih =>
    intro pixels cb bit
    cases pixels with
    | nil => rfl
    | cons p rest =>
      simp only [embed_loop]
      split
      · simp [ih]
      · rfl

theorem read_u32_lt (raw : List Nat) (off : Nat) (h : ∀ x ∈ raw, x < 256) :
    read_u32 raw off < 4294967296 := by
  have h0 := getD_lt h off
  have h1 := getD_lt h (off + 1)
  have h2 := getD_lt h (off + 2)
  have h3 := getD_lt h (off + 3)
  unfold read_u32
  omega

/-! ### Encoding and decoding a 24-bit image -/

theorem toInt32_toU32 {v : Int} (h0 : 0 ≤ v) (h1 : v < 2147483648) :
    toInt32 ((toU32 v % 4294967296 : Nat) : Int) = v := by
  unfold toInt32 toU32
  omega

theorem parse_row_size_24 (w h : Nat) (hfit : 24 * (w * h) + 4 * h + 256 ≤ 2147483648) :
    parse_row_size w h 24
      = ((w * h * 24 / 8 + h * (4 - (w * 24 / 8) % 4) : Nat) : Int) := by
  unfold parse_row_size
  rw [parse_padding_eq]
  have hp4 : h * (4 - (w * 24 / 8) % 4) ≤ 4 * h := by
    rcases padding_cases (w * 24 / 8) with hp | hp | hp | hp <;> rw [hp] <;> omega
  have a1 : u32 (w * h) = w * h := u32_small (by omega)
  have a2 : u32 (w * h * 24) = w * h * 24 := u32_small (by omega)
  have a3 : u32 (h * (4 - (w * 24 / 8) % 4)) = h * (4 - (w * 24 / 8) % 4) := u32_small (by omega)
  have a4 : u32 (w * h * 24 / 8 + h * (4 - (w * 24 / 8) % 4))
      = w * h * 24 / 8 + h * (4 - (w * 24 / 8) % 4) := u32_small (by omega)
  rw [a1, a2, a3, a4]
  apply toInt32_of_fits (Int.natCast_nonneg _)
  have : w * h * 24 / 8 + h * (4 - (w * 24 / 8) % 4) < 2147483648 := by omega
  exact_mod_cast this

/-- Decoding the file `create_image_file` produces for an RGB24 image whose
sizes do not wrap succeeds and returns the same type, width, height and
`reserved`, and pixels with the same low channel bytes. -/
theorem parse_create_24 (img : ImageData) (junk : Nat → Nat) (junk_pixels : Nat → Pixel)
    (htype : img.type = ImageType.IMAGE_RGB24)
    (hw : img.width < 4294967296) (hh : img.height < 4294967296)
    (hfit : 24 * (img.width * img.height) + 4 * img.height + 256 ≤ 2147483648)
    (hbuf : img.buffer.length = img.width * img.height)
    (hres0 : 0 ≤ img.reserved) (hres1 : img.reserved < 2147483648) :
    ∃ file decoded,
      create_image_file img junk = some (file, encoded_size img.width img.height 24)
        ∧ parse_image file (encoded_size img.width img.height 24) junk_pixels
            = (decoded, ImageParseError.PARSE_ERROR_NO_ERROR)
        ∧ decoded.type = ImageType.IMAGE_RGB24
        ∧ decoded.width = img.width ∧ decoded.height = img.height
        ∧ decoded.reserved = img.reserved
        ∧ List.Forall₂ (SameLowBytes ImageType.IMAGE_RGB24) decoded.buffer img.buffer := by
  obtain ⟨file, hfile, hlen, hframe, hpix⟩ := create_image_file_24 img junk htype hw hfit hbuf
  obtain ⟨m0, m1, f6, f10, f18, f22, f28, f30, -, -⟩ := read_header file img 24 _ hframe
  have e18 : read_u32 file 18 = img.width := by
    rw [f18]; unfold u32; omega
  have e22 : read_u32 file 22 = img.height := by
    rw [f22]; unfold u32; omega
  have e28 : read_u16 file 28 = 24 := by
    rw [f28]
  have e10 : u8 (read_u32 file 10) = 54 := by
    rw [f10]; rfl
  have hrow := parse_row_size_24 img.width img.height hfit
  have hreq : required_length file = encoded_size img.width img.height 24 := by
    unfold required_length
    rw [e10, e18, e22, e28, hrow]
    have hp4 : img.height * (4 - (img.width * 24 / 8) % 4) ≤ 4 * img.height := by
      rcases padding_cases (img.width * 24 / 8) with hp | hp | hp | hp <;> rw [hp] <;> omega
    have hsum : ((54 : Nat) : Int)
        + ((img.width * img.height * 24 / 8 + img.height * (4 - (img.width * 24 / 8) % 4) : Nat) : Int)
        = ((encoded_size img.width img.height 24 : Nat) : Int) := by
      unfold encoded_size
      push_cast
      omega
    have hlt : encoded_size img.width img.height 24 < 2147483648 := by
      unfold encoded_size
      omega
    rw [hsum, toInt32_of_fits (Int.natCast_nonneg _) (by exact_mod_cast hlt),
      toSizeT_natCast (by omega)]
  have hok : first_failing_check file (encoded_size img.width img.height 24)
      = ImageParseError.PARSE_ERROR_NO_ERROR := by
    rw [first_failing_check_none_iff]
    refine ⟨by unfold encoded_size; omega, m0, m1, f30, by rw [e28]; decide, by rw [hreq]⟩
  have hparse := parse_image_ok file (encoded_size img.width img.height 24) junk_pixels hok
  rw [e10, e18, e22, e28] at hparse
  have hn : u32 (img.width * img.height) = img.width * img.height := by
    unfold u32; omega
  refine ⟨file, _, hfile, hparse, rfl, rfl, rfl, ?_, ?_⟩
  · show toInt32 ((read_u32 file 6 : Nat) : Int) = img.reserved
    rw [f6]
    exact toInt32_toU32 hres0 hres1
  · show List.Forall₂ (SameLowBytes ImageType.IMAGE_RGB24)
      ((List.range (u32 (img.width * img.height))).map (fun i =>
        parse_pixel file 24 (parse_index 54 img.width 24 i) (junk_pixels i))) img.buffer
    rw [hn, List.forall₂_iff_get]
    refine ⟨by simp [hbuf], ?_⟩
    intro i h1 h2
    have hi : i < img.width * img.height := by rw [← hbuf]; exact h2
    obtain ⟨pb, pg, pr⟩ := hpix i (img.buffer.get ⟨i, h2⟩) (by
      rw [List.getElem?_eq_getElem h2]; rfl)
    simp only [List.get_eq_getElem, List.getElem_map, List.getElem_range,
      parse_index_eq _ _ _ hi hfit] at pb pg pr ⊢
    have e24 : parse_pixel file 24 (pixel_offset img.width 24 i) (junk_pixels i)
        = { b := u16 (file.getD (pixel_offset img.width 24 i) 0),
            g := u16 (file.getD (pixel_offset img.width 24 i + 1) 0),
            r := u16 (file.getD (pixel_offset img.width 24 i + 2) 0),
            a := (junk_pixels i).a } := by
      simp [parse_pixel, load_cast, load_cast1, load_cast2]
    rw [e24, pb, pg, pr]
    refine ⟨?_, ?_, ?_, ?_⟩
    · show u8 (u16 (u8 _)) = u8 _
      unfold u8 u16; omega
    · show u8 (u16 (u8 _)) = u8 _
      unfold u8 u16; omega
    · show u8 (u16 (u8 _)) = u8 _
      unfold u8 u16; omega
    · intro h
      rcases h with h | h <;> exact absurd h (by decide)

/-! ### File-level round trip -/

theorem determine_max_content_congr (a c : ImageData) (b : Int)
    (ht : a.type = c.type) (hw : a.width = c.width) (hh : a.height = c.height) :
    determine_max_content a b = determine_max_content c b := by
  unfold determine_max_content
  rw [ht, hw, hh]

theorem set_reserved_facts (img : ImageData) (r : Int) :
    ∃ img1, img1 = { img with reserved := r } ∧ img1.type = img.type
      ∧ img1.width = img.width ∧ img1.height = img.height ∧ img1.buffer = img.buffer
      ∧ img1.reserved = r :=
  ⟨_, rfl, rfl, rfl, rfl, rfl, rfl⟩

theorem embed_content_ok (img : ImageData) (content : List Nat) (L b : Nat)
    (hcap : (L : Int) ≤ determine_max_content img b) :
    ∃ img2, embed_content img content L b = (0, img2) ∧ img2.type = img.type
      ∧ img2.width = img.width ∧ img2.height = img.height ∧ img2.reserved = img.reserved
      ∧ img2.buffer = embed_loop img.type b content L (usize (img.width * img.height))
          img.buffer 0 0 :=
  ⟨_, embed_content_eq img content L b hcap, rfl, rfl, rfl, rfl, rfl⟩

/-- C2, evaluation at the failing input: the 1 x 1 16-bit sample file parses as
RGBA16, its capacity at 2 bits is 1 byte, and the file-level round trip of the
1-byte payload `[0xFF]` returns `[0x33]`. -/
theorem file_round_trip_16_fails :
    (parse_image sample_file_16 58 (fun _ => { r := 0, g := 0, b := 0, a := 0 })).2
        = ImageParseError.PARSE_ERROR_NO_ERROR
      ∧ (parse_image sample_file_16 58 (fun _ => { r := 0, g := 0, b := 0, a := 0 })).1.type
        = ImageType.IMAGE_RGBA16
      ∧ determine_max_content
          (parse_image sample_file_16 58 (fun _ => { r := 0, g := 0, b := 0, a := 0 })).1 2 = 1
      ∧ ((embed_sequence sample_file_16 58 [255] [0, 0, 0, 0] 2
            (fun _ => { r := 0, g := 0, b := 0, a := 0 }) (fun _ => 0)).bind
          (fun encoded => (extract_sequence encoded.1 encoded.2 2
            (fun _ => { r := 0, g := 0, b := 0, a := 0 }) (fun _ => 0)).map
              (fun r => (r.1.take r.2, r.2))))
        = some ([51], 1) := by
  decide

/-! ### Encoder failure, row padding, unsupported depth -/

/-- C13. `create_image_file` returns `NULL` exactly when the image type is not
one of RGBA16, RGB24, RGBA32; for each of those it returns a buffer. -/
theorem create_image_file_none_iff (data : ImageData) (junk : Nat → Nat) :
    (create_image_file data junk = none ↔
        ¬ (data.type = ImageType.IMAGE_RGBA16 ∨ data.type = ImageType.IMAGE_RGB24
          ∨ data.type = ImageType.IMAGE_RGBA32))
      ∧ (data.type = ImageType.IMAGE_RGBA16 ∨ data.type = ImageType.IMAGE_RGB24
          ∨ data.type = ImageType.IMAGE_RGBA32 →
        (create_image_file data junk).isSome = true) := by
  unfold create_image_file
  cases h : data.type <;> simp

/-- C17. For a depth of 16, 24 or 32 and `width * depth` below `2 ^ 32`, the
padding of `parse_image` and of `create_image_file` is
`4 - ((width * depth / 8) mod 4)`, lies in 1..4, is 4 when `width * depth / 8`
is a multiple of 4, and makes `width * depth / 8 + padding` a multiple of 4. -/
theorem row_padding (width depth : Nat)
    (hdepth : depth = 16 ∨ depth = 24 ∨ depth = 32)
    (hfit : width * depth < 4294967296) :
    parse_padding width depth = 4 - (width * depth / 8) % 4
      ∧ create_padding width depth = 4 - (width * depth / 8) % 4
      ∧ 1 ≤ 4 - (width * depth / 8) % 4 ∧ 4 - (width * depth / 8) % 4 ≤ 4
      ∧ ((width * depth / 8) % 4 = 0 → 4 - (width * depth / 8) % 4 = 4)
      ∧ (width * depth / 8 + (4 - (width * depth / 8) % 4)) % 4 = 0 := by
  have _hd := hdepth
  refine ⟨parse_padding_eq width depth, create_padding_eq width depth (by omega), ?_, ?_, ?_, ?_⟩
    <;> omega

/-- C17, instance: a 24-bit row of 4 pixels (12 bytes) gets 4 padding bytes. -/
theorem row_padding_witness :
    parse_padding 4 24 = 4 - (4 * 24 / 8) % 4
      ∧ create_padding 4 24 = 4 - (4 * 24 / 8) % 4
      ∧ 1 ≤ 4 - (4 * 24 / 8) % 4 ∧ 4 - (4 * 24 / 8) % 4 ≤ 4
      ∧ ((4 * 24 / 8) % 4 = 0 → 4 - (4 * 24 / 8) % 4 = 4)
      ∧ (4 * 24 / 8 + (4 - (4 * 24 / 8) % 4)) % 4 = 0 :=
  row_padding 4 24 (by decide) (by decide)

theorem determine_max_content_none (data : ImageData) (bits : Int)
    (h : data.type = ImageType.IMAGE_NONE) : determine_max_content data bits = 0 := by
  unfold determine_max_content
  rw [h]
  simp [capacity_factor, toInt32, toSizeT, usize]

/-! ### What the embedding loop does to each pixel -/

theorem cursor_eq (b cb bit : Nat) (hb : b ≤ 8) (hbit : bit < 8) :
    next_byte b cb bit = (8 * cb + bit + b) / 8 ∧ next_bit b bit = (8 * cb + bit + b) % 8 := by
  have h := cursor_step b cb bit hb hbit
  omega

theorem embed_pixel_pos (type : ImageType) (b : Nat) (content : List Nat) (p : Pixel)
    (cb bit : Nat) (hb : b ≤ 8) (hbit : bit < 8) :
    (embed_pixel type b content p cb bit).2.1 = (8 * cb + bit + channel_count type * b) / 8
      ∧ (embed_pixel type b content p cb bit).2.2
          = (8 * cb + bit + channel_count type * b) % 8 := by
  obtain ⟨-, h1, h2, -⟩ := covers_pixel type b [] content p cb bit hb hbit
  omega

/-- Element `i` of the pixel array after `embed_loop`: the embedded pixel when
the loop reaches it with payload bytes left, the old pixel otherwise. -/
theorem embed_loop_get (type : ImageType) (b : Nat) (content : List Nat) (L : Nat) (hb : b ≤ 8) :
    ∀ (n : Nat) (pixels : List Pixel) (cb bit i : Nat) (p : Pixel), bit < 8 →
      pixels[i]? = some p →
      (embed_loop type b content L n pixels cb bit)[i]?
        = if i < n ∧ (8 * cb + bit + i * (channel_count type * b)) / 8 < L then
            some (embed_pixel type b content p
              ((8 * cb + bit + i * (channel_count type * b)) / 8)
              ((8 * cb + bit + i * (channel_count type * b)) % 8)).1
          else some p := by
  intro n
  induction n with
  | zero =>
    intro pixels cb bit i p _ hp
    have : ¬ (i < 0 ∧ (8 * cb + bit + i * (channel_count type * b)) / 8 < L) := by omega
    rw [if_neg this]
    exact hp
  | succ n ih =>
    intro pixels cb bit i p hbit hp
    cases pixels with
    | nil => simp at hp
    | cons p0 rest =>
      by_cases hlt : cb < L
      · simp only [embed_loop, if_pos hlt]
        cases i with
        | zero =>
          simp only [List.getElem?_cons_zero, Option.some.injEq] at hp
          subst hp
          have e1 : (8 * cb + bit + 0 * (channel_count type * b)) / 8 = cb := by omega
          have e2 : (8 * cb + bit + 0 * (channel_count type * b)) % 8 = bit := by omega
          have hc : 0 < n + 1 ∧ (8 * cb + bit + 0 * (channel_count type * b)) / 8 < L := by
            rw [e1]; exact ⟨by omega, hlt⟩
          rw [if_pos hc, e1, e2]
          exact List.getElem?_cons_zero
        | succ i =>
          simp only [List.getElem?_cons_succ] at hp ⊢
          obtain ⟨q1, q2⟩ := embed_pixel_pos type b content p0 cb bit hb hbit
          have hbit2 : (embed_pixel type b content p0 cb bit).2.2 < 8 := by
            rw [q2]; exact Nat.mod_lt _ (by decide)
          rw [ih rest _ _ i p hbit2 hp, q1, q2]
          have e : 8 * ((8 * cb + bit + channel_count type * b) / 8)
              + (8 * cb + bit + channel_count type * b) % 8 + i * (channel_count type * b)
              = 8 * cb + bit + (i + 1) * (channel_count type * b) := by
            rw [Nat.add_mul, Nat.one_mul]
            omega
          rw [e]
          have hiff : (i < n ∧ (8 * cb + bit + (i + 1) * (channel_count type * b)) / 8 < L)
              ↔ (i + 1 < n + 1 ∧ (8 * cb + bit + (i + 1) * (channel_count type * b)) / 8 < L) := by
            omega
          by_cases hc : i < n ∧ (8 * cb + bit + (i + 1) * (channel_count type * b)) / 8 < L
          · rw [if_pos hc, if_pos (hiff.mp hc)]
          · rw [if_neg hc, if_neg (fun h => hc (hiff.mpr h))]
      · simp only [embed_loop, if_neg hlt]
        have hc : ¬ (i < n + 1 ∧ (8 * cb + bit + i * (channel_count type * b)) / 8 < L) := by
          omega
        rw [if_neg hc]
        exact hp

theorem embed_pixel_channel (type : ImageType) (b : Nat) (content : List Nat) (p : Pixel)
    (cb bit j : Nat) (hb : b ≤ 8) (hbit : bit < 8) (hj : j < channel_count type) :
    channel (embed_pixel type b content p cb bit).1 j
      = embed_channel b content (channel p j) ((8 * cb + bit + j * b) / 8)
          ((8 * cb + bit + j * b) % 8) := by
  have s1 := cursor_step b cb bit hb hbit
  have s2 := cursor_step b (next_byte b cb bit) (next_bit b bit) hb s1.2
  have s3 := cursor_step b (next_byte b (next_byte b cb bit) (next_bit b bit))
    (next_bit b (next_bit b bit)) hb s2.2
  have a0 : cb = (8 * cb + bit + 0 * b) / 8 ∧ bit = (8 * cb + bit + 0 * b) % 8 := by omega
  have a1 : next_byte b cb bit = (8 * cb + bit + 1 * b) / 8
      ∧ next_bit b bit = (8 * cb + bit + 1 * b) % 8 := by omega
  have a2 : next_byte b (next_byte b cb bit) (next_bit b bit) = (8 * cb + bit + 2 * b) / 8
      ∧ next_bit b (next_bit b bit) = (8 * cb + bit + 2 * b) % 8 := by omega
  have a3 : next_byte b (next_byte b (next_byte b cb bit) (next_bit b bit))
        (next_bit b (next_bit b bit)) = (8 * cb + bit + 3 * b) / 8
      ∧ next_bit b (next_bit b (next_bit b bit)) = (8 * cb + bit + 3 * b) % 8 := by omega
  by_cases ha : type = ImageType.IMAGE_RGBA16 ∨ type = ImageType.IMAGE_RGBA32
  · have hcc : channel_count type = 4 := by simp only [channel_count, if_pos ha]
    simp only [embed_pixel, if_pos ha]
    have hj4 : j = 0 ∨ j = 1 ∨ j = 2 ∨ j = 3 := by omega
    rcases hj4 with rfl | rfl | rfl | rfl
    · simp only [channel]; rw [← a0.1, ← a0.2]
    · simp only [channel]; rw [← a1.1, ← a1.2]
    · simp only [channel]; rw [← a2.1, ← a2.2]
    · simp only [channel]; rw [← a3.1, ← a3.2]
  · have hcc : channel_count type = 3 := by simp only [channel_count, if_neg ha]
    simp only [embed_pixel, if_neg ha]
    have hj3 : j = 0 ∨ j = 1 ∨ j = 2 := by omega
    rcases hj3 with rfl | rfl | rfl
    · simp only [channel]; rw [← a0.1, ← a0.2]
    · simp only [channel]; rw [← a1.1, ← a1.2]
    · simp only [channel]; rw [← a2.1, ← a2.2]

/-- Bits of a channel after one assignment of `embed_content`: the low `b`
bits come from the payload, bits `b..7` are the old ones, bits 8 and above
are cleared by the 8-bit mask. -/
theorem embed_channel_bits (b : Nat) (content : List Nat) (chan cb bit : Nat)
    (hb : b ≤ 8) (hbit : bit < 8) :
    embed_channel b content chan cb bit % 2 ^ b = get_bits b content cb bit
      ∧ (∀ t, b ≤ t → t < 8 →
          (embed_channel b content chan cb bit).testBit t = chan.testBit t)
      ∧ (∀ t, 8 ≤ t → (embed_channel b content chan cb bit).testBit t = false) := by
  have hbits : ∀ t, (embed_channel b content chan cb bit).testBit t
      = (decide (t < 16) && ((chan.testBit t && (decide (t < 8) && (decide (t ≥ b)
          && decide (t - b < 8)))) || (get_bits b content cb bit).testBit t)) := by
    intro t
    simp only [embed_channel, testBit_u16, testBit_u8, Nat.testBit_or, Nat.testBit_and,
      Nat.testBit_shiftLeft, testBit_255]
  have hg := get_bits_lt b content cb bit hb hbit
  refine ⟨?_, ?_, ?_⟩
  · apply Nat.eq_of_testBit_eq
    intro t
    rw [Nat.testBit_mod_two_pow, hbits]
    by_cases ht : t < b
    · have e1 : ¬ t ≥ b := by omega
      have e2 : t < 16 := by omega
      simp only [ht, e1, e2, decide_True, decide_False, Bool.true_and, Bool.false_and,
        Bool.and_false, Bool.false_or]
    · rw [testBit_of_lt_pow hg (by omega)]
      simp only [ht, decide_False, Bool.false_and]
  · intro t h1 h2
    rw [hbits, testBit_of_lt_pow hg h1]
    have e1 : t ≥ b := h1
    have e2 : t < 16 := by omega
    have e3 : t - b < 8 := by omega
    simp only [h2, e1, e2, e3, decide_True, Bool.true_and, Bool.and_true, Bool.or_false]
  · intro t h1
    rw [hbits, testBit_of_lt_pow hg (by omega)]
    have e1 : ¬ t < 8 := by omega
    simp only [e1, decide_False, Bool.false_and, Bool.and_false, Bool.or_false]

theorem valid_bit_number_le (type : ImageType) (b : Nat)
    (h : valid_bit_number type b = true) : 1 ≤ b ∧ b ≤ 8 := by
  cases type <;> simp [valid_bit_number] at h <;> omega

/-- C19. For a bit setting valid for the image type and a payload of length `L`
within capacity, `embed_content` leaves every pixel with index `i` such that
`i * c * b ≥ 8 * L` unchanged, `c` being the channel count; an empty payload
changes no pixel. -/
theorem embed_content_localized (img : ImageData) (b : Nat) (payload spare : List Nat)
    (hvalid : valid_bit_number img.type b = true)
    (hcap : (payload.length : Int) ≤ determine_max_content img b) :
    (∀ i, 8 * payload.length ≤ i * (channel_count img.type * b) →
        (embed_content img (payload ++ spare) payload.length b).2.buffer[i]? = img.buffer[i]?)
      ∧ (payload.length = 0 →
          (embed_content img (payload ++ spare) payload.length b).2.buffer = img.buffer) := by
  have hb := (valid_bit_number_le _ _ hvalid).2
  have hall : ∀ i, 8 * payload.length ≤ i * (channel_count img.type * b) →
      (embed_content img (payload ++ spare) payload.length b).2.buffer[i]? = img.buffer[i]? := by
    intro i hi
    rw [embed_content_eq img _ _ b hcap]
    show (embed_loop img.type b (payload ++ spare) payload.length
      (usize (img.width * img.height)) img.buffer 0 0)[i]? = img.buffer[i]?
    cases hp : img.buffer[i]? with
    | none =>
      rw [List.getElem?_eq_none_iff] at hp ⊢
      rw [embed_loop_length]
      exact hp
    | some p =>
      rw [embed_loop_get img.type b _ _ hb _ _ 0 0 i p (by decide) hp]
      have hc : ¬ (i < usize (img.width * img.height)
          ∧ (8 * 0 + 0 + i * (channel_count img.type * b)) / 8 < payload.length) := by
        omega
      rw [if_neg hc]
  refine ⟨hall, ?_⟩
  intro h0
  apply List.ext_getElem?
  intro i
  exact hall i (by rw [h0]; omega)

/-- C19, instance: a 1-byte payload at 4 bits in a 3 x 1 RGB24 image leaves
pixels 1 and 2 unchanged. -/
theorem embed_content_localized_witness :
    (∀ i, 8 * [171].length ≤ i * (channel_count ImageType.IMAGE_RGB24 * 4) →
        (embed_content
            { type := ImageType.IMAGE_RGB24, height := 1, width := 3,
              buffer := [{ r := 1, g := 2, b := 3, a := 0 }, { r := 4, g := 5, b := 6, a := 0 },
                { r := 7, g := 8, b := 9, a := 0 }],
              resolution_horizontal := 0, resolution_vertical := 0, reserved := 0 }
            ([171] ++ [0, 0, 0, 0]) [171].length 4).2.buffer[i]?
          = [({ r := 1, g := 2, b := 3, a := 0 } : Pixel), { r := 4, g := 5, b := 6, a := 0 },
              { r := 7, g := 8, b := 9, a := 0 }][i]?)
      ∧ ([171].length = 0 →
          (embed_content
            { type := ImageType.IMAGE_RGB24, height := 1, width := 3,
              buffer := [{ r := 1, g := 2, b := 3, a := 0 }, { r := 4, g := 5, b := 6, a := 0 },
                { r := 7, g := 8, b := 9, a := 0 }],
              resolution_horizontal := 0, resolution_vertical := 0, reserved := 0 }
            ([171] ++ [0, 0, 0, 0]) [171].length 4).2.buffer
          = [{ r := 1, g := 2, b := 3, a := 0 }, { r := 4, g := 5, b := 6, a := 0 },
              { r := 7, g := 8, b := 9, a := 0 }]) :=
  embed_content_localized
    { type := ImageType.IMAGE_RGB24, height := 1, width := 3,
      buffer := [{ r := 1, g := 2, b := 3, a := 0 }, { r := 4, g := 5, b := 6, a := 0 },
        { r := 7, g := 8, b := 9, a := 0 }],
      resolution_horizontal := 0, resolution_vertical := 0, reserved := 0 }
    4 [171] [0, 0, 0, 0] (by decide) (by decide)

/-- C18 (amended). For a bit setting valid for the image type and a payload
within capacity, channel `j` of every pixel `i` the loop visits
(`i * c * b < 8 * L`, channels in the order red, green, blue, alpha) is the
`k`-th visited channel with `k = i * c + j`: its low `b` bits are `get_bits`
of the payload at bit position `k * b`, its bits `b..7` are those of the old
value, and its bits 8 and above are 0. -/
theorem embed_content_channel (img : ImageData) (b : Nat) (payload spare : List Nat)
    (i j : Nat) (old new : Pixel)
    (hvalid : valid_bit_number img.type b = true)
    (hcap : (payload.length : Int) ≤ determine_max_content img b)
    (hold : img.buffer[i]? = some old)
    (hnew : (embed_content img (payload ++ spare) payload.length b).2.buffer[i]? = some new)
    (hvisit : i * (channel_count img.type * b) < 8 * payload.length)
    (hj : j < channel_count img.type) :
    channel new j % 2 ^ b
        = get_bits b (payload ++ spare) ((i * channel_count img.type + j) * b / 8)
            ((i * channel_count img.type + j) * b % 8)
      ∧ (∀ t, b ≤ t → t < 8 → (channel new j).testBit t = (channel old j).testBit t)
      ∧ (∀ t, 8 ≤ t → (channel new j).testBit t = false) := by
  have hb := (valid_bit_number_le _ _ hvalid).2
  have hi : i < img.buffer.length := (List.getElem?_eq_some.mp hold).1
  have hbound := capacity_bound img b payload.length hcap
  have hin : i < usize (img.width * img.height) := by
    by_contra hge
    have h1 : usize (img.width * img.height) ≤ i := by omega
    have h2 := Nat.mul_le_mul_right (channel_count img.type * b) h1
    omega
  rw [embed_content_eq img _ _ b hcap] at hnew
  have hnew2 : (embed_loop img.type b (payload ++ spare) payload.length
      (usize (img.width * img.height)) img.buffer 0 0)[i]? = some new := hnew
  rw [embed_loop_get img.type b _ _ hb _ _ 0 0 i old (by decide) hold,
    if_pos ⟨hin, by omega⟩] at hnew2
  simp only [Option.some.injEq] at hnew2
  have hbit : (8 * 0 + 0 + i * (channel_count img.type * b)) % 8 < 8 :=
    Nat.mod_lt _ (by decide)
  have hch := embed_pixel_channel img.type b (payload ++ spare) old
    ((8 * 0 + 0 + i * (channel_count img.type * b)) / 8)
    ((8 * 0 + 0 + i * (channel_count img.type * b)) % 8) j hb hbit hj
  rw [hnew2] at hch
  have epos : 8 * ((8 * 0 + 0 + i * (channel_count img.type * b)) / 8)
      + (8 * 0 + 0 + i * (channel_count img.type * b)) % 8 + j * b
      = (i * channel_count img.type + j) * b := by
    rw [Nat.add_mul, Nat.mul_assoc]
    omega
  rw [epos] at hch
  rw [hch]
  exact embed_channel_bits b (payload ++ spare) (channel old j) _ _ hb
    (Nat.mod_lt _ (by decide))

/-- C18, instance: the green channel of pixel 0 of a 2 x 1 RGB24 image at 4
bits with payload `[0xAB, 0xCD, 0xEF]`. -/
theorem embed_content_channel_witness :
    channel ({ r := 27, g := 42, b := 61, a := 0 } : Pixel) 1 % 2 ^ 4
        = get_bits 4 ([171, 205, 239] ++ [1, 2, 3, 4])
            ((0 * channel_count ImageType.IMAGE_RGB24 + 1) * 4 / 8)
            ((0 * channel_count ImageType.IMAGE_RGB24 + 1) * 4 % 8)
      ∧ (∀ t, 4 ≤ t → t < 8 →
          (channel ({ r := 27, g := 42, b := 61, a := 0 } : Pixel) 1).testBit t
            = (channel ({ r := 17, g := 34, b := 51, a := 0 } : Pixel) 1).testBit t)
      ∧ (∀ t, 8 ≤ t →
          (channel ({ r := 27, g := 42, b := 61, a := 0 } : Pixel) 1).testBit t = false) :=
  embed_content_channel
    { type := ImageType.IMAGE_RGB24, height := 1, width := 2,
      buffer := [{ r := 17, g := 34, b := 51, a := 0 }, { r := 68, g := 85, b := 102, a := 0 }],
      resolution_horizontal := 0, resolution_vertical := 0, reserved := 0 }
    4 [171, 205, 239] [1, 2, 3, 4] 0 1 { r := 17, g := 34, b := 51, a := 0 }
    { r := 27, g := 42, b := 61, a := 0 }
    (by decide) (by decide) (by decide) (by decide) (by decide) (by decide)

/-- C18, counterexample: in the 2 x 1 RGBA32 image whose first pixel has blue
value 256, a 1-byte payload at 1 bit is within capacity, the blue channel of
pixel 0 is visited, its old value has bit 8 set and its new value is 1. -/
theorem embed_content_clears_high_byte :
    valid_bit_number wide_blue_image.type 1 = true
      ∧ ((1 : Nat) : Int) ≤ determine_max_content wide_blue_image 1
      ∧ wide_blue_image.buffer[0]? = some { r := 0, g := 0, b := 256, a := 0 }
      ∧ (embed_content wide_blue_image ([255] ++ [0, 0, 0, 0]) 1 1).2.buffer[0]?
          = some { r := 1, g := 1, b := 1, a := 1 }
      ∧ (256 : Nat).testBit 8 = true ∧ (1 : Nat).testBit 8 = false := by
  decide

/-! ### Layout of the encoded file for the three depths -/

theorem pixel_offset_bounds_any (w h d i : Nat) (hd : d = 16 ∨ d = 24 ∨ d = 32)
    (hi : i < w * h) :
    pixel_offset w d i + d / 8 ≤ encoded_size w h d
      ∧ i / w * (4 - (w * d / 8) % 4) ≤ 4 * h := by
  have hw : 0 < w := by
    rcases Nat.eq_zero_or_pos w with h0 | h0
    · subst h0; simp at hi
    · exact h0
  have hq : i / w < h := Nat.div_lt_of_lt_mul hi
  unfold pixel_offset encoded_size
  rcases hd with rfl | rfl | rfl <;>
    rcases padding_cases (w * _ / 8) with hp | hp | hp | hp <;> rw [hp] <;> omega

theorem pixel_offset_step_any (w d i : Nat) (hd : d = 16 ∨ d = 24 ∨ d = 32) :
    pixel_offset w d i + d / 8 ≤ pixel_offset w d (i + 1) := by
  have hq : i / w ≤ (i + 1) / w := Nat.div_le_div_right (Nat.le_succ i)
  unfold pixel_offset
  rcases hd with rfl | rfl | rfl <;>
    rcases padding_cases (w * _ / 8) with hp | hp | hp | hp <;> rw [hp] <;> omega

theorem pixel_offset_ge_any (w d i : Nat) : 54 ≤ pixel_offset w d i := by
  unfold pixel_offset
  omega

theorem encoded_size_le (w h d : Nat) (hd : d = 16 ∨ d = 24 ∨ d = 32) :
    encoded_size w h d ≤ d * (w * h) + 4 * h + 54 ∧ 54 ≤ encoded_size w h d
      ∧ h * (4 - (w * d / 8) % 4) ≤ 4 * h
      ∧ encoded_size w h d = 54 + w * h * d / 8 + h * (4 - (w * d / 8) % 4) := by
  unfold encoded_size
  rcases hd with rfl | rfl | rfl <;>
    rcases padding_cases (w * _ / 8) with hp | hp | hp | hp <;> rw [hp] <;> omega

theorem create_index_eq_any (w h d i : Nat) (hd : d = 16 ∨ d = 24 ∨ d = 32) (hi : i < w * h)
    (hfit : d * (w * h) + 4 * h + 256 ≤ 2147483648) :
    create_index w d i = pixel_offset w d i := by
  have hw : 0 < w := by
    rcases Nat.eq_zero_or_pos w with h0 | h0
    · subst h0; simp at hi
    · exact h0
  have hh : 0 < h := by
    rcases Nat.eq_zero_or_pos h with h0 | h0
    · subst h0; simp at hi
    · exact h0
  have hwle : w ≤ w * h := Nat.le_mul_of_pos_right _ hh
  have hb := pixel_offset_bounds_any w h d i hd hi
  have he := encoded_size_le w h d hd
  have hwd : w * d < 18446744073709551616 := by
    rcases hd with rfl | rfl | rfl <;> omega
  have hp := product_le i (w * h) d hi
  unfold pixel_offset at hb
  have h1 : 54 + i * d / 8 + i / w * (4 - w * d / 8 % 4) < 2147483648 := by omega
  exact create_index_of_fits w d i (by omega) hwd h1

theorem parse_index_eq_any (ds w h d i : Nat) (hd : d = 16 ∨ d = 24 ∨ d = 32) (hi : i < w * h)
    (hds : ds < 256)
    (hfit : d * (w * h) + 4 * h + 256 ≤ 2147483648) :
    parse_index ds w d i = ((ds + i * d / 8 + i / w * (4 - (w * d / 8) % 4) : Nat) : Int) := by
  have hb := pixel_offset_bounds_any w h d i hd hi
  have he := encoded_size_le w h d hd
  have hp := product_le i (w * h) d hi
  unfold pixel_offset at hb
  have h1 : ds + i * d / 8 + i / w * (4 - w * d / 8 % 4) < 2147483648 := by omega
  exact parse_index_of_fits ds w d i (by omega) h1

theorem parse_row_size_any (w h d : Nat) (hd : d = 16 ∨ d = 24 ∨ d = 32)
    (hfit : d * (w * h) + 4 * h + 256 ≤ 2147483648) :
    parse_row_size w h d
      = ((w * h * d / 8 + h * (4 - (w * d / 8) % 4) : Nat) : Int) := by
  unfold parse_row_size
  rw [parse_padding_eq]
  have he := encoded_size_le w h d hd
  have hwhd : w * h * d = d * (w * h) := Nat.mul_comm _ _
  have a1 : u32 (w * h) = w * h := u32_small (by rcases hd with rfl | rfl | rfl <;> omega)
  have a2 : u32 (w * h * d) = w * h * d := u32_small (by omega)
  have a3 : u32 (h * (4 - (w * d / 8) % 4)) = h * (4 - (w * d / 8) % 4) := u32_small (by omega)
  have a4 : u32 (w * h * d / 8 + h * (4 - (w * d / 8) % 4))
      = w * h * d / 8 + h * (4 - (w * d / 8) % 4) := u32_small (by omega)
  rw [a1, a2, a3, a4]
  apply toInt32_of_fits (Int.natCast_nonneg _)
  have : w * h * d / 8 + h * (4 - (w * d / 8) % 4) < 2147483648 := by omega
  exact_mod_cast this

/-! ### The stores for one pixel -/

theorem write_u32_getD (buf : List Nat) (off v : Nat) (h : off + 3 < buf.length) :
    (write_u32 buf off v).length = buf.length
      ∧ (write_u32 buf off v).getD off 0 = v % 256
      ∧ (write_u32 buf off v).getD (off + 1) 0 = v / 256 % 256
      ∧ (write_u32 buf off v).getD (off + 2) 0 = v / 65536 % 256
      ∧ (write_u32 buf off v).getD (off + 3) 0 = v / 16777216 % 256
      ∧ ∀ k, k < off ∨ off + 4 ≤ k → (write_u32 buf off v).getD k 0 = buf.getD k 0 := by
  unfold write_u32
  refine ⟨by simp, ?_, ?_, ?_, ?_, ?_⟩
  · rw [getD_set_ne _ _ (by omega), getD_set_ne _ _ (by omega), getD_set_ne _ _ (by omega),
      getD_set_eq _ _ (by omega)]
  · rw [getD_set_ne _ _ (by omega), getD_set_ne _ _ (by omega),
      getD_set_eq _ _ (by rw [List.length_set]; omega)]
  · rw [getD_set_ne _ _ (by omega),
      getD_set_eq _ _ (by rw [List.length_set, List.length_set]; omega)]
  · rw [getD_set_eq _ _ (by rw [List.length_set, List.length_set, List.length_set]; omega)]
  · intro k hk
    rw [getD_set_ne _ _ (by omega), getD_set_ne _ _ (by omega), getD_set_ne _ _ (by omega),
      getD_set_ne _ _ (by omega)]

theorem read_write_u32 (buf : List Nat) (off v : Nat) (h : off + 3 < buf.length) :
    read_u32 (write_u32 buf off v) off = u32 v := by
  obtain ⟨-, h0, h1, h2, h3, -⟩ := write_u32_getD buf off v h
  rw [read_u32_of_bytes _ off _ _ _ _ h0 h1 h2 h3, le32]
  rfl

theorem testBit_u32 (n i : Nat) : (u32 n).testBit i = (decide (i < 32) && n.testBit i) := by
  have h := Nat.testBit_mod_two_pow n 32 i
  simpa [u32] using h

theorem u8_or_shift4 (x y : Nat) : u8 (u8 x ||| (u8 y <<< 4)) = u8 (x ||| (y <<< 4)) := by
  apply Nat.eq_of_testBit_eq
  intro i
  simp only [testBit_u8, Nat.testBit_or, Nat.testBit_shiftLeft]
  by_cases hi : i < 8
  · have e : i - 4 < 8 := by omega
    simp [hi, e]
  · simp [hi]

theorem bytes_of_u32 (v : Nat) :
    u32 v % 256 = v % 256 ∧ u32 v / 256 % 256 = v / 256 % 256
      ∧ u32 v / 65536 % 256 = v / 65536 % 256
      ∧ u32 v / 16777216 % 256 = v / 16777216 % 256 := by
  unfold u32
  omega

/-- The stores of `write_pixel` for a depth of 16, 24 or 32: the length is
kept, the `depth / 8` bytes from `index` on are `packed_pixel`, and the bytes
below `index` are unchanged. -/
theorem write_pixel_getD (d : Nat) (buf : List Nat) (index : Nat) (p : Pixel)
    (hd : d = 16 ∨ d = 24 ∨ d = 32) (h : index + d / 8 ≤ buf.length) :
    (write_pixel d buf index p).length = buf.length
      ∧ (∀ t, t < d / 8 →
          (write_pixel d buf index p).getD (index + t) 0 = (packed_pixel d p).getD t 0)
      ∧ ∀ k, k < index → (write_pixel d buf index p).getD k 0 = buf.getD k 0 := by
  rcases hd with rfl | rfl | rfl
  · have hlen : index + 1 < buf.length := by omega
    have e : write_pixel 16 buf index p
        = (buf.set index (u8 (p.b ||| (p.g <<< 4)))).set (index + 1) (u8 (p.r ||| (p.a <<< 4))) := by
      have e0 : write_pixel 16 buf index p
          = (((buf.set index (u8 p.b)).set index
              (u8 ((buf.set index (u8 p.b)).getD index 0 ||| (u8 p.g <<< 4)))).set (index + 1)
              (u8 p.r)).set (index + 1)
              (u8 ((((buf.set index (u8 p.b)).set index
                (u8 ((buf.set index (u8 p.b)).getD index 0 ||| (u8 p.g <<< 4)))).set (index + 1)
                (u8 p.r)).getD (index + 1) 0 ||| (u8 p.a <<< 4))) := by
        simp only [write_pixel, if_true, store_cast, store_cast1, load_cast, load_cast1]
      have e1 : (buf.set index (u8 p.b)).getD index 0 = u8 p.b := getD_set_eq _ _ (by omega)
      rw [e0, e1]
      have e2 : ((((buf.set index (u8 p.b)).set index (u8 (u8 p.b ||| u8 p.g <<< 4))).set
          (index + 1) (u8 p.r))).getD (index + 1) 0 = u8 p.r :=
        getD_set_eq _ _ (by rw [List.length_set, List.length_set]; omega)
      rw [e2, u8_or_shift4, u8_or_shift4, List.set_set, List.set_set]
    rw [e]
    refine ⟨by simp, ?_, ?_⟩
    · intro t ht
      have ht2 : t = 0 ∨ t = 1 := by omega
      rcases ht2 with rfl | rfl
      · simp only [Nat.add_zero]
        rw [getD_set_ne _ _ (by omega), getD_set_eq _ _ (by omega)]
        rfl
      · rw [getD_set_eq _ _ (by rw [List.length_set]; omega)]
        rfl
    · intro k hk
      rw [getD_set_ne _ _ (by omega), getD_set_ne _ _ (by omega)]
  · obtain ⟨wl, wb, wg, wr, wframe⟩ := write_pixel_24 buf index p (by omega)
    refine ⟨wl, ?_, wframe⟩
    intro t ht
    have ht3 : t = 0 ∨ t = 1 ∨ t = 2 := by omega
    rcases ht3 with rfl | rfl | rfl
    · simp only [Nat.add_zero]; rw [wb]; rfl
    · rw [wg]; rfl
    · rw [wr]; rfl
  · have hlen : index + 3 < buf.length := by omega
    have hl1 := (write_u32_getD buf index (u8 p.b) hlen).1
    have r1 := read_write_u32 buf index (u8 p.b) hlen
    have hl2 := (write_u32_getD (write_u32 buf index (u8 p.b)) index
      (u32 (u8 p.b) ||| u32 (p.g <<< 9)) (by rw [hl1]; exact hlen)).1
    have r2 := read_write_u32 (write_u32 buf index (u8 p.b)) index
      (u32 (u8 p.b) ||| u32 (p.g <<< 9)) (by rw [hl1]; exact hlen)
    have hl3 := (write_u32_getD (write_u32 (write_u32 buf index (u8 p.b)) index
      (u32 (u8 p.b) ||| u32 (p.g <<< 9))) index
      (u32 (u32 (u8 p.b) ||| u32 (p.g <<< 9)) ||| u32 (p.b <<< 17))
      (by rw [hl2, hl1]; exact hlen)).1
    have r3 := read_write_u32 (write_u32 (write_u32 buf index (u8 p.b)) index
      (u32 (u8 p.b) ||| u32 (p.g <<< 9))) index
      (u32 (u32 (u8 p.b) ||| u32 (p.g <<< 9)) ||| u32 (p.b <<< 17))
      (by rw [hl2, hl1]; exact hlen)
    have e : write_pixel 32 buf index p
        = write_u32 (write_u32 (write_u32 (write_u32 buf index (u8 p.b)) index
            (u32 (u8 p.b) ||| u32 (p.g <<< 9))) index
            (u32 (u32 (u8 p.b) ||| u32 (p.g <<< 9)) ||| u32 (p.b <<< 17))) index
            (u32 (u32 (u32 (u8 p.b) ||| u32 (p.g <<< 9)) ||| u32 (p.b <<< 17))
              ||| u32 (p.a <<< 24)) := by
      simp only [write_pixel, if_true, store_u32_cast, load_u32_cast, r1, r2, r3]
      rfl
    have hword : u32 (u32 (u32 (u32 (u8 p.b) ||| u32 (p.g <<< 9)) ||| u32 (p.b <<< 17))
        ||| u32 (p.a <<< 24))
        = u32 (u8 p.b ||| (p.g <<< 9) ||| (p.b <<< 17) ||| (p.a <<< 24)) := by
      apply Nat.eq_of_testBit_eq
      intro i
      simp only [testBit_u32, Nat.testBit_or]
      cases decide (i < 32) <;> simp
    obtain ⟨l4, g0, g1, g2, g3, gframe⟩ := write_u32_getD
      (write_u32 (write_u32 (write_u32 buf index (u8 p.b)) index
        (u32 (u8 p.b) ||| u32 (p.g <<< 9))) index
        (u32 (u32 (u8 p.b) ||| u32 (p.g <<< 9)) ||| u32 (p.b <<< 17))) index
      (u32 (u32 (u32 (u8 p.b) ||| u32 (p.g <<< 9)) ||| u32 (p.b <<< 17)) ||| u32 (p.a <<< 24))
      (by rw [hl3, hl2, hl1]; exact hlen)
    obtain ⟨y0, y1, y2, y3⟩ := bytes_of_u32
      (u32 (u32 (u32 (u8 p.b) ||| u32 (p.g <<< 9)) ||| u32 (p.b <<< 17)) ||| u32 (p.a <<< 24))
    rw [e]
    refine ⟨by rw [l4, hl3, hl2, hl1], ?_, ?_⟩
    · intro t ht
      have ht4 : t = 0 ∨ t = 1 ∨ t = 2 ∨ t = 3 := by omega
      rcases ht4 with rfl | rfl | rfl | rfl
      · simp only [Nat.add_zero]; rw [g0, ← y0, hword]; rfl
      · rw [g1, ← y1, hword]; rfl
      · rw [g2, ← y2, hword]; rfl
      · rw [g3, ← y3, hword]; rfl
    · intro k hk
      rw [gframe k (Or.inl hk)]
      rw [(write_u32_getD (write_u32 (write_u32 buf index (u8 p.b)) index
        (u32 (u8 p.b) ||| u32 (p.g <<< 9))) index _ (by rw [hl2, hl1]; exact hlen)).2.2.2.2.2 k
        (Or.inl hk)]
      rw [(write_u32_getD (write_u32 buf index (u8 p.b)) index _
        (by rw [hl1]; exact hlen)).2.2.2.2.2 k (Or.inl hk)]
      rw [(write_u32_getD buf index _ hlen).2.2.2.2.2 k (Or.inl hk)]

/-- The pixel loop of the encoder for a depth of 16, 24 or 32: it keeps the
length and the bytes below the first pixel it stores, and pixel `j` of the
list reads back at offset `pixel_offset width depth (i + j)` as
`packed_pixel`. -/
theorem create_loop_any (w d : Nat) (hd : d = 16 ∨ d = 24 ∨ d = 32) :
    ∀ (n i : Nat) (pixels : List Pixel) (buf : List Nat),
      (∀ j, i ≤ j → j < i + min n pixels.length →
        create_index w d j = pixel_offset w d j ∧ pixel_offset w d j + d / 8 ≤ buf.length) →
      (create_loop w d n i pixels buf).length = buf.length
        ∧ (∀ k, k < pixel_offset w d i → (create_loop w d n i pixels buf).getD k 0 = buf.getD k 0)
        ∧ ∀ j p t, j < n → pixels[j]? = some p → t < d / 8 →
            (create_loop w d n i pixels buf).getD (pixel_offset w d (i + j) + t) 0
              = (packed_pixel d p).getD t 0 := by
  intro n
  induction n with
  | zero =>
    intro i pixels buf _
    refine ⟨rfl, fun _ _ => rfl, ?_⟩
    intro j p t hj
    omega
  | succ n ih =>
    intro i pixels buf hidx
    cases pixels with
    | nil =>
      refine ⟨rfl, fun _ _ => rfl, ?_⟩
      intro j p t _ hp
      simp at hp
    | cons p0 rest =>
      have h0 := hidx i (le_refl _) (by simp only [List.length_cons, Nat.succ_min_succ]; omega)
      obtain ⟨wl, wpix, wframe⟩ := write_pixel_getD d buf (pixel_offset w d i) p0 hd h0.2
      have hstep := pixel_offset_step_any w d i hd
      have hrec := ih (i + 1) rest (write_pixel d buf (pixel_offset w d i) p0) (by
        intro j hj1 hj2
        have := hidx j (by omega) (by
          simp only [List.length_cons, Nat.succ_min_succ]; omega)
        rw [wl]
        exact this)
      obtain ⟨rl, rframe, rpix⟩ := hrec
      have e : create_loop w d (n + 1) i (p0 :: rest) buf
          = create_loop w d n (i + 1) rest (write_pixel d buf (pixel_offset w d i) p0) := by
        rw [create_loop, h0.1]
      rw [e]
      refine ⟨rl.trans wl, ?_, ?_⟩
      · intro k hk
        rw [rframe k (by omega), wframe k hk]
      · intro j p t hj hp ht
        cases j with
        | zero =>
          simp only [List.getElem?_cons_zero, Option.some.injEq] at hp
          subst hp
          simp only [Nat.add_zero]
          rw [rframe _ (by omega)]
          exact wpix t ht
        | succ j =>
          simp only [List.getElem?_cons_succ] at hp
          have := rpix j p t (by omega) hp ht
          rw [show i + (j + 1) = i + 1 + j by omega]
          exact this

theorem create_image_file_eq (img : ImageData) (junk : Nat → Nat) (d : Nat)
    (htype : depth_of_type img.type = some d) :
    create_image_file img junk
      = some (create_loop img.width d (usize (img.width * img.height)) 0 img.buffer
          (write_header
            (malloc (u32 (u32 (usize (usize (usize (usize (img.height * img.width) * d) / 8)
              + usize (img.height * create_padding img.width d))) + 54)) junk) img d
            (u32 (u32 (usize (usize (usize (usize (img.height * img.width) * d) / 8)
              + usize (img.height * create_padding img.width d))) + 54))),
          u32 (u32 (usize (usize (usize (usize (img.height * img.width) * d) / 8)
            + usize (img.height * create_padding img.width d))) + 54)) := by
  unfold create_image_file
  cases ht : img.type <;> rw [ht] at htype <;> simp only [depth_of_type] at htype
  · exact absurd htype (by simp)
  · have hd : d = 24 := by injection htype with h; exact h.symm
    subst hd
    rfl
  · have hd : d = 16 := by injection htype with h; exact h.symm
    subst hd
    rfl
  · have hd : d = 32 := by injection htype with h; exact h.symm
    subst hd
    rfl

/-- The file `create_image_file` produces for an image of a supported type
whose sizes do not wrap: its length, its header bytes and the bytes of every
pixel. -/
theorem create_image_file_any (img : ImageData) (junk : Nat → Nat) (d : Nat)
    (htype : depth_of_type img.type = some d)
    (hw : img.width < 4294967296)
    (hfit : d * (img.width * img.height) + 4 * img.height + 256 ≤ 2147483648) :
    ∃ file, create_image_file img junk = some (file, encoded_size img.width img.height d)
      ∧ file.length = encoded_size img.width img.height d
      ∧ (∀ k, k < 54 → file.getD k 0
          = (header_bytes img d (encoded_size img.width img.height d)).getD k 0)
      ∧ ∀ j p t, j < img.width * img.height → img.buffer[j]? = some p → t < d / 8 →
          file.getD (pixel_offset img.width d j + t) 0 = (packed_pixel d p).getD t 0 := by
  have hd : d = 16 ∨ d = 24 ∨ d = 32 := by
    cases ht : img.type <;> rw [ht] at htype <;> simp [depth_of_type] at htype <;> omega
  have hwd : img.width * d < 18446744073709551616 := by
    rcases hd with rfl | rfl | rfl <;> omega
  have hpad := create_padding_eq img.width d hwd
  obtain ⟨he1, h54, he3, he4⟩ := encoded_size_le img.width img.height d hd
  have hsize : u32 (u32 (usize (usize (usize (usize (img.height * img.width) * d) / 8)
      + usize (img.height * create_padding img.width d))) + 54)
      = encoded_size img.width img.height d := by
    rw [hpad, Nat.mul_comm img.height img.width, he4]
    have hwhd : img.width * img.height * d = d * (img.width * img.height) := Nat.mul_comm _ _
    have hwh : img.width * img.height ≤ d * (img.width * img.height) :=
      Nat.le_mul_of_pos_left _ (by omega)
    have b1 : usize (img.width * img.height) = img.width * img.height := usize_small (by omega)
    have b2 : usize (img.width * img.height * d) = img.width * img.height * d :=
      usize_small (by omega)
    have b3 : usize (img.width * img.height * d / 8) = img.width * img.height * d / 8 :=
      usize_small (by omega)
    have b4 : usize (img.height * (4 - img.width * d / 8 % 4))
        = img.height * (4 - img.width * d / 8 % 4) := usize_small (by omega)
    have b5 : usize (img.width * img.height * d / 8 + img.height * (4 - img.width * d / 8 % 4))
        = img.width * img.height * d / 8 + img.height * (4 - img.width * d / 8 % 4) :=
      usize_small (by omega)
    have b6 : u32 (img.width * img.height * d / 8 + img.height * (4 - img.width * d / 8 % 4))
        = img.width * img.height * d / 8 + img.height * (4 - img.width * d / 8 % 4) :=
      u32_small (by omega)
    rw [b1, b2, b3, b4, b5, b6, u32_small (by omega)]
    omega
  have hwh0 : img.width * img.height ≤ d * (img.width * img.height) :=
    Nat.le_mul_of_pos_left _ (by omega)
  have hn : usize (img.width * img.height) = img.width * img.height :=
    usize_small (by omega)
  have hmlen : (malloc (encoded_size img.width img.height d) junk).length
      = encoded_size img.width img.height d := malloc_length _ _
  have hhdr := write_header_eq (malloc (encoded_size img.width img.height d) junk) img d
    (encoded_size img.width img.height d) (by rw [hmlen]; exact h54)
  have hhlen : (write_header (malloc (encoded_size img.width img.height d) junk) img d
      (encoded_size img.width img.height d)).length = encoded_size img.width img.height d := by
    rw [hhdr, List.length_append, List.length_drop, hmlen]
    simp only [header_bytes, List.length_cons, List.length_nil]
    omega
  obtain ⟨ll, lframe, lpix⟩ := create_loop_any img.width d hd (img.width * img.height) 0
    img.buffer
    (write_header (malloc (encoded_size img.width img.height d) junk) img d
      (encoded_size img.width img.height d)) (by
      intro j _ hj
      have hj2 : j < img.width * img.height := by
        have := Nat.min_le_left (img.width * img.height) img.buffer.length
        omega
      refine ⟨create_index_eq_any _ _ _ _ hd hj2 hfit, ?_⟩
      rw [hhlen]
      exact (pixel_offset_bounds_any img.width img.height d j hd hj2).1)
  refine ⟨create_loop img.width d (img.width * img.height) 0 img.buffer
    (write_header (malloc (encoded_size img.width img.height d) junk) img d
      (encoded_size img.width img.height d)), ?_, ?_, ?_, ?_⟩
  · rw [create_image_file_eq img junk d htype, hsize, hn]
  · rw [ll, hhlen]
  · intro k hk
    rw [lframe k (by have := pixel_offset_ge_any img.width d 0; omega), hhdr,
      List.getD_eq_getElem?_getD, List.getD_eq_getElem?_getD,
      List.getElem?_append_left (by simpa [header_bytes] using hk)]
  · intro j p t hj hp ht
    have := lpix j p t hj hp ht
    rw [Nat.zero_add] at this
    exact this

/-- The remaining header fields read from a buffer whose first 54 bytes are
`header_bytes`. -/
theorem read_header_rest (file : List Nat) (data : ImageData) (d fs : Nat)
    (hframe : ∀ k, k < 54 → file.getD k 0 = (header_bytes data d fs).getD k 0) :
    read_u32 file 2 = fs % 4294967296
      ∧ read_u32 file 14 = 40
      ∧ read_u16 file 26 = 1
      ∧ read_u32 file 34
          = u32 (usize (usize (data.height * data.width) * d) / 8) % 4294967296
      ∧ read_u32 file 46 = 0
      ∧ read_u32 file 50 = 0 := by
  refine ⟨?_, ?_, ?_, ?_, ?_, ?_⟩
  · exact (read_u32_of_bytes file 2 _ _ _ _ ((hframe 2 (by decide)).trans rfl)
      ((hframe (2 + 1) (by decide)).trans rfl) ((hframe (2 + 2) (by decide)).trans rfl)
      ((hframe (2 + 3) (by decide)).trans rfl)).trans (le32 _)
  · exact (read_u32_of_bytes file 14 _ _ _ _ ((hframe 14 (by decide)).trans rfl)
      ((hframe (14 + 1) (by decide)).trans rfl) ((hframe (14 + 2) (by decide)).trans rfl)
      ((hframe (14 + 3) (by decide)).trans rfl))
  · unfold read_u16
    rw [hframe 26 (by decide), hframe (26 + 1) (by decide)]
    rfl
  · exact (read_u32_of_bytes file 34 _ _ _ _ ((hframe 34 (by decide)).trans rfl)
      ((hframe (34 + 1) (by decide)).trans rfl) ((hframe (34 + 2) (by decide)).trans rfl)
      ((hframe (34 + 3) (by decide)).trans rfl)).trans (le32 _)
  · exact (read_u32_of_bytes file 46 _ _ _ _ ((hframe 46 (by decide)).trans rfl)
      ((hframe (46 + 1) (by decide)).trans rfl) ((hframe (46 + 2) (by decide)).trans rfl)
      ((hframe (46 + 3) (by decide)).trans rfl))
  · exact (read_u32_of_bytes file 50 _ _ _ _ ((hframe 50 (by decide)).trans rfl)
      ((hframe (50 + 1) (by decide)).trans rfl) ((hframe (50 + 2) (by decide)).trans rfl)
      ((hframe (50 + 3) (by decide)).trans rfl))

theorem toU32_mod (v : Int) : toU32 v % 4294967296 = toU32 v := by
  unfold toU32
  omega

theorem required_length_of_header (file : List Nat) (w h d : Nat)
    (hd : d = 16 ∨ d = 24 ∨ d = 32)
    (hfit : d * (w * h) + 4 * h + 256 ≤ 2147483648)
    (e10 : u8 (read_u32 file 10) = 54) (e18 : read_u32 file 18 = w)
    (e22 : read_u32 file 22 = h) (e28 : read_u16 file 28 = d) :
    required_length file = encoded_size w h d := by
  obtain ⟨he1, -, -, he4⟩ := encoded_size_le w h d hd
  have hrow := parse_row_size_any w h d hd hfit
  have hlt : encoded_size w h d < 2147483648 := by
    clear he4 hrow e10 e18 e22 e28
    omega
  have hsum : 54 + (w * h * d / 8 + h * (4 - (w * d / 8) % 4)) = encoded_size w h d := by
    rw [he4, Nat.add_assoc]
  unfold required_length
  rw [e10, e18, e22, e28, hrow, ← Nat.cast_add, hsum,
    toInt32_of_fits (Int.natCast_nonneg _) (by exact_mod_cast hlt),
    toSizeT_natCast (by clear he4 hsum hrow; omega)]

theorem toInt32_toU32_any {v : Int} (h0 : -2147483648 ≤ v) (h1 : v < 2147483648) :
    toInt32 ((toU32 v : Nat) : Int) = v := by
  unfold toInt32 toU32
  omega

theorem type_of_depth_of_type (t : ImageType) (d : Nat) (h : depth_of_type t = some d) :
    type_of_depth d = t := by
  cases t <;> simp [depth_of_type] at h <;> subst h <;> rfl

theorem overflow_file_getD (k : Nat) (hk : k < 54) :
    overflow_file.getD k 0 = overflow_header.getD k 0 := by
  unfold overflow_file
  exact List.getD_append _ _ _ _ hk

theorem overflow_file_fields :
    overflow_file.getD 0 0 = 66 ∧ overflow_file.getD 1 0 = 77
      ∧ read_u32 overflow_file 10 = 54 ∧ read_u32 overflow_file 18 = 65536
      ∧ read_u32 overflow_file 22 = 65536 ∧ read_u16 overflow_file 28 = 16
      ∧ read_u32 overflow_file 30 = 0 := by
  refine ⟨(overflow_file_getD 0 (by decide)).trans rfl,
    (overflow_file_getD 1 (by decide)).trans rfl, ?_, ?_, ?_, ?_, ?_⟩
  · exact read_u32_of_bytes overflow_file 10 54 0 0 0
      ((overflow_file_getD 10 (by decide)).trans rfl)
      ((overflow_file_getD 11 (by decide)).trans rfl)
      ((overflow_file_getD 12 (by decide)).trans rfl)
      ((overflow_file_getD 13 (by decide)).trans rfl)
  · exact read_u32_of_bytes overflow_file 18 0 0 1 0
      ((overflow_file_getD 18 (by decide)).trans rfl)
      ((overflow_file_getD 19 (by decide)).trans rfl)
      ((overflow_file_getD 20 (by decide)).trans rfl)
      ((overflow_file_getD 21 (by decide)).trans rfl)
  · exact read_u32_of_bytes overflow_file 22 0 0 1 0
      ((overflow_file_getD 22 (by decide)).trans rfl)
      ((overflow_file_getD 23 (by decide)).trans rfl)
      ((overflow_file_getD 24 (by decide)).trans rfl)
      ((overflow_file_getD 25 (by decide)).trans rfl)
  · unfold read_u16
    rw [overflow_file_getD 28 (by decide), overflow_file_getD (28 + 1) (by decide)]
    rfl
  · exact read_u32_of_bytes overflow_file 30 0 0 0 0
      ((overflow_file_getD 30 (by decide)).trans rfl)
      ((overflow_file_getD 31 (by decide)).trans rfl)
      ((overflow_file_getD 32 (by decide)).trans rfl)
      ((overflow_file_getD 33 (by decide)).trans rfl)

/-- C15, counterexample: the 262198-byte file with width 65536, height 65536
and depth 16 is accepted, its pixel count `width * height` is positive, and
`parse_image` decodes no pixel at all, the 32-bit product `width * height`
being 0. -/
theorem parse_image_skips_pixels_on_wrap :
    overflow_file.length = 262198
      ∧ (parse_image overflow_file 262198 (fun _ => { r := 0, g := 0, b := 0, a := 0 })).2
          = ImageParseError.PARSE_ERROR_NO_ERROR
      ∧ (parse_image overflow_file 262198 (fun _ => { r := 0, g := 0, b := 0, a := 0 })).1.width
          = 65536
      ∧ (parse_image overflow_file 262198 (fun _ => { r := 0, g := 0, b := 0, a := 0 })).1.height
          = 65536
      ∧ 0 < 65536 * 65536
      ∧ (parse_image overflow_file 262198
          (fun _ => { r := 0, g := 0, b := 0, a := 0 })).1.buffer = [] := by
  obtain ⟨m0, m1, e10, e18, e22, e28, e30⟩ := overflow_file_fields
  have hreq : required_length overflow_file ≤ 262198 := by
    unfold required_length
    rw [e10, e18, e22, e28]
    decide
  have hok : first_failing_check overflow_file 262198 = ImageParseError.PARSE_ERROR_NO_ERROR :=
    (first_failing_check_none_iff overflow_file 262198).mpr
      ⟨by decide, m0, m1, e30, by rw [e28], hreq⟩
  have hp := parse_image_ok overflow_file 262198 (fun _ => { r := 0, g := 0, b := 0, a := 0 }) hok
  have hlen : overflow_file.length = 262198 := by
    unfold overflow_file
    rw [List.length_append, List.length_replicate]
    rfl
  refine ⟨hlen, ?_, ?_, ?_, by decide, ?_⟩
  · rw [hp]
  · rw [hp]; exact e18
  · rw [hp]; exact e22
  · rw [hp]
    have hn : u32 (read_u32 overflow_file 18 * read_u32 overflow_file 22) = 0 := by
      rw [e18, e22]
      rfl
    have hb : ∀ (f : Nat → Pixel) (n : Nat), n = 0 → List.map f (List.range n) = [] := by
      intro f n h
      subst h
      rfl
    exact hb _ _ hn

theorem u16_small {n : Nat} (h : n < 65536) : u16 n = n := Nat.mod_eq_of_lt h

theorem and_le_right_lt {x m n : Nat} (h : m < n) : x &&& m < n :=
  Nat.lt_of_le_of_lt Nat.and_le_right h

/-- The channels `parse_pixel` assigns, for byte values below 256. -/
theorem parse_pixel_eq (raw_data : List Nat) (index : Nat) (junk : Pixel)
    (hbytes : ∀ x ∈ raw_data, x < 256) :
    parse_pixel raw_data 16 index junk
        = { b := raw_data.getD index 0 &&& 15, g := raw_data.getD index 0 &&& 240,
            r := raw_data.getD (index + 1) 0 &&& 15, a := raw_data.getD (index + 1) 0 &&& 240 }
      ∧ parse_pixel raw_data 24 index junk
        = { b := raw_data.getD index 0, g := raw_data.getD (index + 1) 0,
            r := raw_data.getD (index + 2) 0, a := junk.a }
      ∧ parse_pixel raw_data 32 index junk
        = { b := (raw_data.getD index 0 + (raw_data.getD (index + 1) 0 <<< 8)) &&& 511,
            g := (raw_data.getD (index + 1) 0 + (raw_data.getD (index + 2) 0 <<< 8)) &&& 510,
            r := raw_data.getD (index + 2) 0 &&& 254,
            a := raw_data.getD (index + 3) 0 &&& 31 } := by
  have h0 := getD_lt hbytes index
  have h1 := getD_lt hbytes (index + 1)
  have h2 := getD_lt hbytes (index + 2)
  have h3 := getD_lt hbytes (index + 3)
  refine ⟨?_, ?_, ?_⟩
  · unfold parse_pixel
    rw [if_pos rfl]
    simp only [load_cast, load_cast1]
    rw [u16_small (and_le_right_lt (by decide)),
      u16_small (and_le_right_lt (by decide)), u16_small (and_le_right_lt (by decide)),
      u16_small (and_le_right_lt (by decide))]
  · unfold parse_pixel
    rw [if_neg (by decide), if_pos rfl]
    simp only [load_cast, load_cast1, load_cast2]
    rw [u16_small (by omega), u16_small (by omega), u16_small (by omega)]
  · unfold parse_pixel
    rw [if_neg (by decide), if_neg (by decide), if_pos rfl]
    simp only [load_cast, load_cast1, load_cast2, load_cast3]
    rw [u16_small (by omega : raw_data.getD (index + 1) 0 < 65536),
      u16_small (by omega : raw_data.getD (index + 2) 0 < 65536),
      u16_small (and_le_right_lt (by decide)), u16_small (and_le_right_lt (by decide)),
      u16_small (and_le_right_lt (by decide)), u16_small (and_le_right_lt (by decide))]

/-- C15. For a buffer of byte values that `parse_image` accepts with depth 16,
24 or 32 and sizes that do not overflow the 32-bit arithmetic of the decoder,
every pixel index `i` below `width * height` is decoded from the byte index
`data_start + i * depth / 8 + (i / width) * padding`, `data_start` being the
low byte of the field at offset 10, with the channels: depth 16: blue
`byte0 & 0x0F`, green `byte0 & 0xF0`, red `byte1 & 0x0F`, alpha `byte1 & 0xF0`;
depth 24: blue `byte0`, green `byte1`, red `byte2`; depth 32: blue
`(byte0 + (byte1 << 8)) & 0x1FF`, green `(byte1 + (byte2 << 8)) & 0x1FE`, red
`byte2 & 0xFE`, alpha `byte3 & 0x1F`. -/
theorem parse_image_pixel (raw_data : List Nat) (length : Nat) (junk : Nat → Pixel) (i : Nat)
    (hbytes : ∀ x ∈ raw_data, x < 256)
    (hacc : (parse_image raw_data length junk).2 = ImageParseError.PARSE_ERROR_NO_ERROR)
    (hd : read_u16 raw_data 28 = 16 ∨ read_u16 raw_data 28 = 24 ∨ read_u16 raw_data 28 = 32)
    (hfit : read_u16 raw_data 28 * (read_u32 raw_data 18 * read_u32 raw_data 22)
      + 4 * read_u32 raw_data 22 + 256 ≤ 2147483648)
    (hi : i < read_u32 raw_data 18 * read_u32 raw_data 22) :
    ∃ p, (parse_image raw_data length junk).1.buffer[i]? = some p
      ∧ (read_u16 raw_data 28 = 16 →
          p.b = raw_data.getD (source_index raw_data i) 0 &&& 15
            ∧ p.g = raw_data.getD (source_index raw_data i) 0 &&& 240
            ∧ p.r = raw_data.getD (source_index raw_data i + 1) 0 &&& 15
            ∧ p.a = raw_data.getD (source_index raw_data i + 1) 0 &&& 240)
      ∧ (read_u16 raw_data 28 = 24 →
          p.b = raw_data.getD (source_index raw_data i) 0
            ∧ p.g = raw_data.getD (source_index raw_data i + 1) 0
            ∧ p.r = raw_data.getD (source_index raw_data i + 2) 0)
      ∧ (read_u16 raw_data 28 = 32 →
          p.b = (raw_data.getD (source_index raw_data i) 0
              + (raw_data.getD (source_index raw_data i + 1) 0 <<< 8)) &&& 511
            ∧ p.g = (raw_data.getD (source_index raw_data i + 1) 0
              + (raw_data.getD (source_index raw_data i + 2) 0 <<< 8)) &&& 510
            ∧ p.r = raw_data.getD (source_index raw_data i + 2) 0 &&& 254
            ∧ p.a = raw_data.getD (source_index raw_data i + 3) 0 &&& 31) := by
  have hok : first_failing_check raw_data length = ImageParseError.PARSE_ERROR_NO_ERROR := by
    rw [← parse_image_error_eq raw_data length junk]
    exact hacc
  have hp := parse_image_ok raw_data length junk hok
  have hidx : parse_index (u8 (read_u32 raw_data 10)) (read_u32 raw_data 18)
      (read_u16 raw_data 28) i = source_index raw_data i :=
    parse_index_eq_any (u8 (read_u32 raw_data 10)) (read_u32 raw_data 18)
      (read_u32 raw_data 22) (read_u16 raw_data 28) i hd hi (u8_lt _) hfit
  have hwh : read_u32 raw_data 18 * read_u32 raw_data 22
      ≤ read_u16 raw_data 28 * (read_u32 raw_data 18 * read_u32 raw_data 22) :=
    Nat.le_mul_of_pos_left _ (by omega)
  have hn : u32 (read_u32 raw_data 18 * read_u32 raw_data 22)
      = read_u32 raw_data 18 * read_u32 raw_data 22 := u32_small (by omega)
  have hget : (parse_image raw_data length junk).1.buffer[i]?
      = some (parse_pixel raw_data (read_u16 raw_data 28) (source_index raw_data i) (junk i)) := by
    rw [hp]
    show ((List.range (u32 (read_u32 raw_data 18 * read_u32 raw_data 22))).map (fun i =>
      parse_pixel raw_data (read_u16 raw_data 28)
        (parse_index (u8 (read_u32 raw_data 10)) (read_u32 raw_data 18)
          (read_u16 raw_data 28) i) (junk i)))[i]? = _
    rw [hn, List.getElem?_map, List.getElem?_range hi, Option.map_some', hidx]
  obtain ⟨p16, p24, p32⟩ := parse_pixel_eq raw_data (source_index raw_data i) (junk i) hbytes
  refine ⟨_, hget, ?_, ?_, ?_⟩
  · intro h
    rw [h, p16]
    exact ⟨rfl, rfl, rfl, rfl⟩
  · intro h
    rw [h, p24]
    exact ⟨rfl, rfl, rfl⟩
  · intro h
    rw [h, p32]
    exact ⟨rfl, rfl, rfl, rfl⟩

/-- C15, instance: pixel 1 of the 2 x 1 sample file of depth 24. -/
theorem parse_image_pixel_witness :
    ∃ p, (parse_image sample_file_24 62 (fun _ => { r := 9, g := 9, b := 9, a := 9 })).1.buffer[1]?
        = some p
      ∧ (read_u16 sample_file_24 28 = 16 →
          p.b = sample_file_24.getD (source_index sample_file_24 1) 0 &&& 15
            ∧ p.g = sample_file_24.getD (source_index sample_file_24 1) 0 &&& 240
            ∧ p.r = sample_file_24.getD (source_index sample_file_24 1 + 1) 0 &&& 15
            ∧ p.a = sample_file_24.getD (source_index sample_file_24 1 + 1) 0 &&& 240)
      ∧ (read_u16 sample_file_24 28 = 24 →
          p.b = sample_file_24.getD (source_index sample_file_24 1) 0
            ∧ p.g = sample_file_24.getD (source_index sample_file_24 1 + 1) 0
            ∧ p.r = sample_file_24.getD (source_index sample_file_24 1 + 2) 0)
      ∧ (read_u16 sample_file_24 28 = 32 →
          p.b = (sample_file_24.getD (source_index sample_file_24 1) 0
              + (sample_file_24.getD (source_index sample_file_24 1 + 1) 0 <<< 8)) &&& 511
            ∧ p.g = (sample_file_24.getD (source_index sample_file_24 1 + 1) 0
              + (sample_file_24.getD (source_index sample_file_24 1 + 2) 0 <<< 8)) &&& 510
            ∧ p.r = sample_file_24.getD (source_index sample_file_24 1 + 2) 0 &&& 254
            ∧ p.a = sample_file_24.getD (source_index sample_file_24 1 + 3) 0 &&& 31) :=
  parse_image_pixel sample_file_24 62 (fun _ => { r := 9, g := 9, b := 9, a := 9 }) 1
    (by decide) (by decide) (by decide) (by decide) (by decide)

/-- C14. The 2 x 1 24-bit sample file parses, its capacity at 2 bits is 1 byte
and `embed_content` returns 1 for a 2-byte data file, yet `handle_embed_file`
prints no message, returns 0 and hands an image file to `write_file`: the test
after `embed_content` reads the parse error instead of the value
`embed_content` returned. -/
theorem handle_embed_file_ignores_capacity_error :
    (parse_image sample_file_24 62 (fun _ => { r := 0, g := 0, b := 0, a := 0 })).2
        = ImageParseError.PARSE_ERROR_NO_ERROR
      ∧ determine_max_content
          (parse_image sample_file_24 62 (fun _ => { r := 0, g := 0, b := 0, a := 0 })).1 2 = 1
      ∧ (embed_content
          { (parse_image sample_file_24 62 (fun _ => { r := 0, g := 0, b := 0, a := 0 })).1 with
            reserved := 2 } ([255, 255] ++ [0, 0, 0, 0]) 2 2).1 = 1
      ∧ handle_embed_file [255, 255] sample_file_24 [0, 0, 0, 0] 2 0
          (fun _ => { r := 0, g := 0, b := 0, a := 0 }) (fun _ => 0)
        = { return_code := 0, reports := [],
            written := some (some
              ([66, 77, 62, 0, 0, 0, 2, 0, 0, 0, 54, 0, 0, 0,
                40, 0, 0, 0, 2, 0, 0, 0, 1, 0, 0, 0, 1, 0, 24, 0,
                0, 0, 0, 0, 6, 0, 0, 0, 0, 0, 0, 0, 0, 0, 0, 0, 0, 0, 0, 0, 0, 0, 0, 0,
                10, 20, 30, 40, 50, 60, 0, 0], 62)) } := by
  refine ⟨by decide, by decide, by decide, ?_⟩
  decide

/-! ### Buffer accesses of the embedding and extraction loops -/

/-- The cursor of `embed_pixel_reads` is the cursor of `embed_pixel`. -/
theorem embed_pixel_reads_cursor (type : ImageType) (b : Nat) (content : List Nat) (p : Pixel)
    (cb bit : Nat) :
    (embed_pixel_reads type b cb bit).2 = (embed_pixel type b content p cb bit).2 := by
  unfold embed_pixel_reads embed_pixel
  dsimp only
  split <;> rfl

/-- The cursor of `retrieve_pixel_writes` is the cursor of `retrieve_pixel`. -/
theorem retrieve_pixel_writes_cursor (type : ImageType) (b : Nat) (buffer : List Nat) (p : Pixel)
    (cb bit : Nat) :
    (retrieve_pixel_writes type b cb bit).2 = (retrieve_pixel type b buffer p cb bit).2 := by
  unfold retrieve_pixel_writes retrieve_pixel
  dsimp only
  split <;> rfl

theorem access_bound (b byte bit k lim : Nat)
    (h : k ∈ (if b + bit ≤ 8 then [byte] else [byte, byte + 1]))
    (h1 : 8 * byte + bit + b ≤ 8 * lim + 8) (hb : 1 ≤ b) : k ≤ lim := by
  split at h
  · simp only [List.mem_singleton] at h
    omega
  · simp only [List.mem_cons, List.mem_singleton, List.not_mem_nil, or_false] at h
    omega

theorem embed_pixel_reads_bound (type : ImageType) (b cb bit : Nat) (hb1 : 1 ≤ b) (hb : b ≤ 4)
    (hbit : bit < 8) :
    (∀ k ∈ (embed_pixel_reads type b cb bit).1, k ≤ cb + 2)
      ∧ (embed_pixel_reads type b cb bit).2.2 < 8 := by
  obtain ⟨s1, t1⟩ := cursor_step b cb bit (by omega) hbit
  obtain ⟨s2, t2⟩ := cursor_step b (next_byte b cb bit) (next_bit b bit) (by omega) t1
  obtain ⟨s3, t3⟩ := cursor_step b (next_byte b (next_byte b cb bit) (next_bit b bit))
    (next_bit b (next_bit b bit)) (by omega) t2
  obtain ⟨s4, t4⟩ := cursor_step b
    (next_byte b (next_byte b (next_byte b cb bit) (next_bit b bit)) (next_bit b (next_bit b bit)))
    (next_bit b (next_bit b (next_bit b bit))) (by omega) t3
  unfold embed_pixel_reads
  dsimp only
  split
  · refine ⟨?_, t4⟩
    intro k hk
    simp only [List.mem_append] at hk
    rcases hk with ((hk | hk) | hk) | hk
    · exact access_bound b _ _ k _ hk (by omega) hb1
    · exact access_bound b _ _ k _ hk (by omega) hb1
    · exact access_bound b _ _ k _ hk (by omega) hb1
    · exact access_bound b _ _ k _ hk (by omega) hb1
  · refine ⟨?_, t3⟩
    intro k hk
    simp only [List.mem_append] at hk
    rcases hk with (hk | hk) | hk
    · exact access_bound b _ _ k _ hk (by omega) hb1
    · exact access_bound b _ _ k _ hk (by omega) hb1
    · exact access_bound b _ _ k _ hk (by omega) hb1

theorem retrieve_pixel_writes_eq (type : ImageType) (b cb bit : Nat) :
    retrieve_pixel_writes type b cb bit = embed_pixel_reads type b cb bit := rfl

theorem embed_loop_reads_bound (type : ImageType) (b L : Nat) (hb1 : 1 ≤ b) (hb : b ≤ 4) :
    ∀ (n : Nat) (pixels : List Pixel) (cb bit : Nat), bit < 8 →
      ∀ k ∈ embed_loop_reads type b L n pixels cb bit, k < L + 2 := by
  intro n
  induction n with
  | zero =>
    intro pixels cb bit _ k hk
    simp [embed_loop_reads] at hk
  | succ n ih =>
    intro pixels cb bit hbit k hk
    cases pixels with
    | nil => simp [embed_loop_reads] at hk
    | cons p rest =>
      unfold embed_loop_reads at hk
      by_cases hc : cb < L
      · rw [if_pos hc] at hk
        obtain ⟨h1, h2⟩ := embed_pixel_reads_bound type b cb bit hb1 hb hbit
        rcases List.mem_append.mp hk with hk | hk
        · have := h1 k hk
          omega
        · exact ih rest _ _ h2 k hk
      · rw [if_neg hc] at hk
        simp at hk

theorem retrieve_loop_writes_bound (type : ImageType) (b L : Nat) (hb1 : 1 ≤ b) (hb : b ≤ 4) :
    ∀ (n : Nat) (pixels : List Pixel) (cb bit : Nat), bit < 8 →
      ∀ k ∈ retrieve_loop_writes type b L n pixels cb bit, k < L + 2 := by
  intro n
  induction n with
  | zero =>
    intro pixels cb bit _ k hk
    simp [retrieve_loop_writes] at hk
  | succ n ih =>
    intro pixels cb bit hbit k hk
    cases pixels with
    | nil => simp [retrieve_loop_writes] at hk
    | cons p rest =>
      unfold retrieve_loop_writes at hk
      by_cases hc : cb < L
      · rw [if_pos hc, retrieve_pixel_writes_eq] at hk
        obtain ⟨h1, h2⟩ := embed_pixel_reads_bound type b cb bit hb1 hb hbit
        rcases List.mem_append.mp hk with hk | hk
        · have := h1 k hk
          omega
        · exact ih rest _ _ h2 k hk
      · rw [if_neg hc] at hk
        simp at hk

theorem valid_bit_number_le_four (type : ImageType) (b : Nat)
    (h : valid_bit_number type b = true) : 1 ≤ b ∧ b ≤ 4 := by
  cases type <;> simp [valid_bit_number] at h <;> omega

/-- C21. For a bit setting valid for the image type and a payload length `L`
within capacity, every index of the payload that `embed_content` reads is below
`L + 4`, and every index of its output buffer that `retrieve_content` writes,
for `reserved = L`, is below `L + 2`. -/
theorem spare_bytes_suffice (img : ImageData) (b L : Nat)
    (hvalid : valid_bit_number img.type b = true)
    (hcap : (L : Int) ≤ determine_max_content img b) :
    (∀ k ∈ embed_content_reads img L b, k < L + 4)
      ∧ ∀ k ∈ retrieve_content_writes { img with reserved := L } b, k < L + 2 := by
  obtain ⟨hb1, hb4⟩ := valid_bit_number_le_four img.type b hvalid
  have hdlt := determine_max_content_lt img b
  constructor
  · intro k hk
    unfold embed_content_reads at hk
    dsimp only at hk
    split at hk
    · simp at hk
    · have := embed_loop_reads_bound img.type b L hb1 hb4 _ _ 0 0 (by decide) k hk
      omega
  · intro k hk
    have hL : toSizeT (L : Int) = L := toSizeT_natCast (by omega)
    unfold retrieve_content_writes at hk
    dsimp only at hk
    split at hk
    · simp at hk
    · rw [hL] at hk
      rcases List.mem_append.mp hk with hk | hk
      · have := List.mem_range.mp hk
        omega
      · exact retrieve_loop_writes_bound img.type b L hb1 hb4 _ _ 0 0 (by decide) k hk

/-- C21, instance: the 2 x 1 RGBA32 image at 4 bits with a 2-byte payload. -/
theorem spare_bytes_suffice_witness :
    (∀ k ∈ embed_content_reads wide_blue_image 2 4, k < 2 + 4)
      ∧ ∀ k ∈ retrieve_content_writes { wide_blue_image with reserved := ((2 : Nat) : Int) } 4,
          k < 2 + 2 :=
  spare_bytes_suffice wide_blue_image 4 2 (by decide) (by decide)

/-! ### Offsets the decoder reads -/

/-- C22. For a buffer of at least 34 and fewer than 46 bytes that starts with
`'B'`, `'M'`, the last byte of the vertical resolution field, offset 45, is
among the offsets `parse_image` reads and is not below the buffer length: the
only length check before the header fields are read is `length < 34`. -/
theorem parse_image_header_reads_past_end (raw_data : List Nat) (length : Nat)
    (hlen : 34 ≤ length) (hshort : length < 46)
    (hmagic : raw_data.getD 0 0 = 66 ∧ raw_data.getD 1 0 = 77) :
    45 ∈ parse_image_header_reads raw_data length ∧ ¬ 45 < length := by
  refine ⟨?_, by omega⟩
  unfold parse_image_header_reads
  rw [if_neg (by omega), if_neg (not_not.mpr hmagic.1), if_neg (not_not.mpr hmagic.2)]
  decide

/-- C22, instance: the 34-byte buffer `short_file`, of which `parse_image`
reads offset 45. -/
theorem parse_image_header_reads_past_end_witness :
    short_file.length = 34
      ∧ 45 ∈ parse_image_header_reads short_file short_file.length
      ∧ ¬ 45 < short_file.length :=
  ⟨by decide,
    parse_image_header_reads_past_end short_file short_file.length (by decide) (by decide)
      (by decide)⟩


/-! ### Offsets inside a buffer -/

theorem in_bounds_iff (accesses : List Int) (size : Nat) :
    in_bounds accesses size = true ↔ ∀ k ∈ accesses, 0 ≤ k ∧ k < (size : Int) := by
  unfold in_bounds
  simp only [List.all_eq_true, decide_eq_true_eq]

theorem in_bounds_eq_false (accesses : List Int) (size : Nat) (k : Int) (hk : k ∈ accesses)
    (hneg : k < 0) : in_bounds accesses size = false := by
  cases h : in_bounds accesses size with
  | false => rfl
  | true =>
    have := (in_bounds_iff _ _).mp h k hk
    omega

theorem parse_row_size_exact (w h d : Nat) (hd : 16 ≤ d)
    (hfit : d * (w * h) + 4 * h + 256 ≤ 2147483648) :
    parse_row_size w h d
      = ((w * h * d / 8 + h * (4 - (w * d / 8) % 4) : Nat) : Int) := by
  unfold parse_row_size
  rw [parse_padding_eq]
  have hp4 : h * (4 - (w * d / 8) % 4) ≤ 4 * h := by
    rcases padding_cases (w * d / 8) with hp | hp | hp | hp <;> rw [hp] <;> omega
  have hwhd : w * h * d = d * (w * h) := Nat.mul_comm _ _
  have hwh : w * h ≤ d * (w * h) := Nat.le_mul_of_pos_left _ (by omega)
  have a1 : u32 (w * h) = w * h := u32_small (by omega)
  have a2 : u32 (w * h * d) = w * h * d := u32_small (by omega)
  have a3 : u32 (h * (4 - (w * d / 8) % 4)) = h * (4 - (w * d / 8) % 4) := u32_small (by omega)
  have a4 : u32 (w * h * d / 8 + h * (4 - (w * d / 8) % 4))
      = w * h * d / 8 + h * (4 - (w * d / 8) % 4) := u32_small (by omega)
  rw [a1, a2, a3, a4]
  apply toInt32_of_fits (Int.natCast_nonneg _)
  have : w * h * d / 8 + h * (4 - (w * d / 8) % 4) < 2147483648 := by omega
  exact_mod_cast this

theorem spec_required_length_lt (raw_data : List Nat)
    (hfit : read_u16 raw_data 28 * (read_u32 raw_data 18 * read_u32 raw_data 22)
      + 4 * read_u32 raw_data 22 + 256 ≤ 2147483648) :
    spec_required_length raw_data < 2147483648 := by
  unfold spec_required_length
  have hp4 : read_u32 raw_data 22
      * (4 - (read_u32 raw_data 18 * read_u16 raw_data 28 / 8) % 4) ≤ 4 * read_u32 raw_data 22 := by
    rcases padding_cases (read_u32 raw_data 18 * read_u16 raw_data 28 / 8) with hp | hp | hp | hp
      <;> rw [hp] <;> omega
  have hwhd : read_u32 raw_data 18 * read_u32 raw_data 22 * read_u16 raw_data 28
      = read_u16 raw_data 28 * (read_u32 raw_data 18 * read_u32 raw_data 22) := Nat.mul_comm _ _
  omega

/-- Inside the size bound the value the source compares `length` with is the
bound of the format rules. -/
theorem required_length_exact (raw_data : List Nat) (hd : 16 ≤ read_u16 raw_data 28)
    (hfit : read_u16 raw_data 28 * (read_u32 raw_data 18 * read_u32 raw_data 22)
      + 4 * read_u32 raw_data 22 + 256 ≤ 2147483648) :
    required_length raw_data = spec_required_length raw_data := by
  have hrow := parse_row_size_exact (read_u32 raw_data 18) (read_u32 raw_data 22)
    (read_u16 raw_data 28) hd hfit
  have hlt := spec_required_length_lt raw_data hfit
  unfold spec_required_length at hlt ⊢
  have hu8 : u8 (read_u32 raw_data 10) = read_u32 raw_data 10 % 256 := rfl
  unfold required_length
  rw [hrow, hu8, ← Nat.cast_add,
    toInt32_of_fits (Int.natCast_nonneg _) (by exact_mod_cast hlt),
    toSizeT_natCast (by clear hrow; omega)]

theorem parse_pixel_reads_bound (d : Nat) (index k : Int) (hk : k ∈ parse_pixel_reads d index) :
    index ≤ k ∧ k < index + ((d / 8 : Nat) : Int) := by
  unfold parse_pixel_reads at hk
  split at hk
  · subst d
    simp only [List.mem_cons, List.mem_singleton, List.not_mem_nil, or_false] at hk
    omega
  · split at hk
    · subst d
      simp only [List.mem_cons, List.mem_singleton, List.not_mem_nil, or_false] at hk
      omega
    · split at hk
      · subst d
        simp only [List.mem_cons, List.mem_singleton, List.not_mem_nil, or_false] at hk
        omega
      · simp at hk

theorem write_pixel_writes_bound (d : Nat) (index k : Int)
    (hk : k ∈ write_pixel_writes d index) :
    index ≤ k ∧ k < index + ((d / 8 : Nat) : Int) := by
  unfold write_pixel_writes at hk
  split at hk
  · subst d
    simp only [List.mem_cons, List.mem_singleton, List.not_mem_nil, or_false] at hk
    omega
  · split at hk
    · subst d
      simp only [List.mem_cons, List.mem_singleton, List.not_mem_nil, or_false] at hk
      omega
    · split at hk
      · subst d
        simp only [List.mem_cons, List.mem_singleton, List.not_mem_nil, or_false] at hk
        omega
      · simp at hk

theorem parse_pixel_reads_nil (d : Nat) (index : Int) (h : d ≠ 16 ∧ d ≠ 24 ∧ d ≠ 32) :
    parse_pixel_reads d index = [] := by
  unfold parse_pixel_reads
  rw [if_neg h.1, if_neg h.2.1, if_neg h.2.2]

theorem flatMap_nil_of_forall {α β : Type} (l : List α) (f : α → List β)
    (h : ∀ a, f a = []) : l.flatMap f = [] := by
  induction l with
  | nil => rfl
  | cons a l ih => rw [List.flatMap_cons, h a, ih]; rfl

theorem parse_image_pixel_reads_ok (raw_data : List Nat) (length : Nat)
    (h : first_failing_check raw_data length = ImageParseError.PARSE_ERROR_NO_ERROR) :
    parse_image_pixel_reads raw_data length
      = (List.range (u32 (read_u32 raw_data 18 * read_u32 raw_data 22))).flatMap (fun i =>
          parse_pixel_reads (read_u16 raw_data 28)
            (parse_index (u8 (read_u32 raw_data 10)) (read_u32 raw_data 18)
              (read_u16 raw_data 28) i)) := by
  obtain ⟨a, b, c, d, e, f⟩ := (first_failing_check_none_iff raw_data length).mp h
  have hm2 : ¬ (raw_data.getD 0 0 ≠ 66 ∨ raw_data.getD 1 0 ≠ 77) := by
    rintro (h | h)
    · exact h b
    · exact h c
  unfold required_length at f
  unfold parse_image_pixel_reads
  rw [if_neg (by omega : ¬ length < 34), if_neg hm2]
  dsimp only
  rw [if_neg (not_not.mpr d), if_neg (by omega : ¬ read_u16 raw_data 28 < 16), if_neg (by omega)]

/-- Inside the size bound every offset the pixel loop of `parse_image` loads
from lies in the buffer. -/
theorem parse_reads_in_bounds (raw_data : List Nat) (length : Nat)
    (hok : first_failing_check raw_data length = ImageParseError.PARSE_ERROR_NO_ERROR)
    (hfit : read_u16 raw_data 28 * (read_u32 raw_data 18 * read_u32 raw_data 22)
      + 4 * read_u32 raw_data 22 + 256 ≤ 2147483648) :
    ∀ k ∈ parse_image_pixel_reads raw_data length, 0 ≤ k ∧ k < (length : Int) := by
  obtain ⟨-, -, -, -, h16, hreq⟩ := (first_failing_check_none_iff raw_data length).mp hok
  rw [required_length_exact raw_data h16 hfit] at hreq
  unfold spec_required_length at hreq
  have hu8 : u8 (read_u32 raw_data 10) = read_u32 raw_data 10 % 256 := rfl
  have hwh : read_u32 raw_data 18 * read_u32 raw_data 22
      ≤ read_u16 raw_data 28 * (read_u32 raw_data 18 * read_u32 raw_data 22) :=
    Nat.le_mul_of_pos_left _ (by omega)
  have hn : u32 (read_u32 raw_data 18 * read_u32 raw_data 22)
      = read_u32 raw_data 18 * read_u32 raw_data 22 := u32_small (by omega)
  intro k hk
  rw [parse_image_pixel_reads_ok raw_data length hok, hn] at hk
  obtain ⟨i, hi, hki⟩ := List.mem_flatMap.mp hk
  have hi2 := List.mem_range.mp hi
  by_cases hd : read_u16 raw_data 28 = 16 ∨ read_u16 raw_data 28 = 24 ∨ read_u16 raw_data 28 = 32
  · rw [parse_index_eq_any (u8 (read_u32 raw_data 10)) (read_u32 raw_data 18)
      (read_u32 raw_data 22) (read_u16 raw_data 28) i hd hi2 (u8_lt _) hfit, hu8] at hki
    obtain ⟨hk1, hk2⟩ := parse_pixel_reads_bound _ _ k hki
    obtain ⟨hb, -⟩ := pixel_offset_bounds_any (read_u32 raw_data 18) (read_u32 raw_data 22)
      (read_u16 raw_data 28) i hd hi2
    obtain ⟨-, -, -, he4⟩ := encoded_size_le (read_u32 raw_data 18) (read_u32 raw_data 22)
      (read_u16 raw_data 28) hd
    rw [he4] at hb
    unfold pixel_offset at hb
    clear hki hk hok hwh hn he4 hfit
    omega
  · rw [parse_pixel_reads_nil _ _ (by omega)] at hki
    simp at hki

theorem create_image_file_writes_eq (img : ImageData) (d : Nat)
    (htype : depth_of_type img.type = some d) :
    create_image_file_writes img
      = (List.range (usize (img.width * img.height))).flatMap (fun i =>
          write_pixel_writes d (create_index img.width d i)) := by
  unfold create_image_file_writes
  cases ht : img.type <;> rw [ht] at htype <;> simp [depth_of_type] at htype <;> subst htype <;> rfl

/-- Inside the size bound every offset the pixel loop of `create_image_file`
stores to lies in the pixel array of the allocated buffer. -/
theorem create_writes_in_bounds (img : ImageData) (d : Nat)
    (htype : depth_of_type img.type = some d)
    (hfit : d * (img.width * img.height) + 4 * img.height + 256 ≤ 2147483648) :
    ∀ k ∈ create_image_file_writes img,
      54 ≤ k ∧ k < ((encoded_size img.width img.height d : Nat) : Int) := by
  have hd : d = 16 ∨ d = 24 ∨ d = 32 := by
    cases ht : img.type <;> rw [ht] at htype <;> simp [depth_of_type] at htype <;> omega
  have hwh : img.width * img.height ≤ d * (img.width * img.height) :=
    Nat.le_mul_of_pos_left _ (by omega)
  have hn : usize (img.width * img.height) = img.width * img.height := usize_small (by omega)
  intro k hk
  rw [create_image_file_writes_eq img d htype, hn] at hk
  obtain ⟨i, hi, hki⟩ := List.mem_flatMap.mp hk
  have hi2 := List.mem_range.mp hi
  rw [create_index_eq_any img.width img.height d i hd hi2 hfit] at hki
  obtain ⟨hk1, hk2⟩ := write_pixel_writes_bound _ _ k hki
  obtain ⟨hb, -⟩ := pixel_offset_bounds_any img.width img.height d i hd hi2
  have hge := pixel_offset_ge_any img.width d i
  clear hki hk hfit hwh hn
  omega

/-! ### Header fields of the large sample files -/

theorem getD_append_header (header rest : List Nat) (k : Nat) (hk : k < header.length) :
    (header ++ rest).getD k 0 = header.getD k 0 :=
  List.getD_append _ _ _ _ hk

theorem read_u32_append (header rest : List Nat) (off : Nat) (h : off + 3 < header.length) :
    read_u32 (header ++ rest) off = read_u32 header off := by
  unfold read_u32
  rw [getD_append_header _ _ _ (by omega), getD_append_header _ _ _ (by omega),
    getD_append_header _ _ _ (by omega), getD_append_header _ _ _ (by omega)]

theorem read_u16_append (header rest : List Nat) (off : Nat) (h : off + 1 < header.length) :
    read_u16 (header ++ rest) off = read_u16 header off := by
  unfold read_u16
  rw [getD_append_header _ _ _ (by omega), getD_append_header _ _ _ (by omega)]

theorem large_file_24_fields :
    large_file_24.length = 270036054
      ∧ large_file_24.getD 0 0 = 66 ∧ large_file_24.getD 1 0 = 77
      ∧ read_u32 large_file_24 10 = 54 ∧ read_u32 large_file_24 18 = 10000
      ∧ read_u32 large_file_24 22 = 9000 ∧ read_u16 large_file_24 28 = 24
      ∧ read_u32 large_file_24 30 = 0 := by
  refine ⟨?_, ?_, ?_, ?_, ?_, ?_, ?_, ?_⟩
  · unfold large_file_24
    rw [List.length_append, List.length_replicate]
    rfl
  · exact (getD_append_header large_header_24 _ 0 (by decide)).trans rfl
  · exact (getD_append_header large_header_24 _ 1 (by decide)).trans rfl
  · exact (read_u32_append large_header_24 _ 10 (by decide)).trans rfl
  · exact (read_u32_append large_header_24 _ 18 (by decide)).trans rfl
  · exact (read_u32_append large_header_24 _ 22 (by decide)).trans rfl
  · exact (read_u16_append large_header_24 _ 28 (by decide)).trans rfl
  · exact (read_u32_append large_header_24 _ 30 (by decide)).trans rfl

theorem large_file_24_accepted :
    first_failing_check large_file_24 270036054 = ImageParseError.PARSE_ERROR_NO_ERROR := by
  obtain ⟨-, m0, m1, e10, e18, e22, e28, e30⟩ := large_file_24_fields
  have hreq : required_length large_file_24 ≤ 270036054 := by
    unfold required_length
    rw [e10, e18, e22, e28]
    decide
  exact (first_failing_check_none_iff large_file_24 270036054).mpr
    ⟨by decide, m0, m1, e30, by rw [e28]; decide, hreq⟩

theorem large_file_24_read_outside :
    (-268399612 : Int) ∈ parse_image_pixel_reads large_file_24 270036054 := by
  obtain ⟨-, -, -, e10, e18, e22, e28, -⟩ := large_file_24_fields
  rw [parse_image_pixel_reads_ok _ _ large_file_24_accepted, e10, e18, e22, e28]
  refine List.mem_flatMap.mpr ⟨89478486, List.mem_range.mpr (by decide), ?_⟩
  have hidx : parse_index (u8 54) 10000 24 89478486 = -268399612 := by decide
  rw [hidx]
  decide

theorem deep_file_fields :
    deep_file.length = 258102
      ∧ deep_file.getD 0 0 = 66 ∧ deep_file.getD 1 0 = 77
      ∧ read_u32 deep_file 10 = 54 ∧ read_u32 deep_file 18 = 65536
      ∧ read_u32 deep_file 22 = 64512 ∧ read_u16 deep_file 28 = 64
      ∧ read_u32 deep_file 30 = 0 := by
  refine ⟨?_, ?_, ?_, ?_, ?_, ?_, ?_, ?_⟩
  · unfold deep_file
    rw [List.length_append, List.length_replicate]
    rfl
  · exact (getD_append_header deep_header _ 0 (by decide)).trans rfl
  · exact (getD_append_header deep_header _ 1 (by decide)).trans rfl
  · exact (read_u32_append deep_header _ 10 (by decide)).trans rfl
  · exact (read_u32_append deep_header _ 18 (by decide)).trans rfl
  · exact (read_u32_append deep_header _ 22 (by decide)).trans rfl
  · exact (read_u16_append deep_header _ 28 (by decide)).trans rfl
  · exact (read_u32_append deep_header _ 30 (by decide)).trans rfl

/-! ### Inputs inside 32-bit sizes on which the pixel loops leave their buffer -/

/-- C23, counterexample: the 270036054-byte 24-bit file of width 10000 and
height 9000 is accepted and `width * height * depth / 8 + height * padding` is
270036000, with no overflow; at pixel 89478486 the product `i * image_depth`
is 2147483664, above the largest `int`, the index the loop computes is
-268399612, and that offset is among those the loop reads. -/
theorem parse_image_reads_before_buffer :
    large_file_24.length = 270036054
      ∧ (parse_image large_file_24 270036054 (fun _ => { r := 0, g := 0, b := 0, a := 0 })).2
          = ImageParseError.PARSE_ERROR_NO_ERROR
      ∧ read_u16 large_file_24 28 = 24
      ∧ read_u32 large_file_24 18 = 10000 ∧ read_u32 large_file_24 22 = 9000
      ∧ 10000 * 9000 * 24 / 8 + 9000 * (4 - (10000 * 24 / 8) % 4) = 270036000
      ∧ 89478486 < 10000 * 9000
      ∧ 89478486 * 24 = 2147483664
      ∧ product_fits 89478486 24 = false
      ∧ parse_index 54 10000 24 89478486 = -268399612
      ∧ (-268399612 : Int) ∈ parse_image_pixel_reads large_file_24 270036054 := by
  obtain ⟨hlen, -, -, -, e18, e22, e28, -⟩ := large_file_24_fields
  refine ⟨hlen, ?_, e28, e18, e22, by decide, by decide, by decide, by decide, by decide,
    large_file_24_read_outside⟩
  rw [parse_image_error_eq]
  exact large_file_24_accepted

/-- C20, counterexample: the 258102-byte file with depth 64, width 65536 and
height 64512 passes the length, magic, compression and size tests of
`parse_image` (the 32-bit `row_size` is 258048, the exact one over 33 GB), so
no error is reported; the pixel array `parse_image` then asks `malloc` for,
without testing the result, has 33822867456 bytes, the bound `width * height`
of the loop is 4227858432, and at pixel 33554432 the product `i * image_depth`
is `2 ^ 31`, above the largest `int`. -/
theorem parse_image_unsupported_depth_wrap :
    deep_file.length = 258102
      ∧ deep_file.getD 0 0 = 66 ∧ deep_file.getD 1 0 = 77
      ∧ read_u32 deep_file 30 = 0
      ∧ read_u16 deep_file 28 = 64
      ∧ required_length deep_file = 258102
      ∧ (parse_image deep_file 258102 (fun _ => { r := 0, g := 0, b := 0, a := 0 })).2
          = ImageParseError.PARSE_ERROR_NO_ERROR
      ∧ spec_required_length deep_file = 33823125558
      ∧ parse_image_allocation deep_file = 33822867456
      ∧ u32 (read_u32 deep_file 18 * read_u32 deep_file 22) = 4227858432
      ∧ 33554432 < 4227858432
      ∧ 33554432 * 64 = 2147483648
      ∧ product_fits 33554432 64 = false := by
  obtain ⟨hlen, m0, m1, e10, e18, e22, e28, e30⟩ := deep_file_fields
  have hreq : required_length deep_file = 258102 := by
    unfold required_length
    rw [e10, e18, e22, e28]
    decide
  have hok : first_failing_check deep_file 258102 = ImageParseError.PARSE_ERROR_NO_ERROR :=
    (first_failing_check_none_iff deep_file 258102).mpr
      ⟨by decide, m0, m1, e30, by rw [e28]; decide, by rw [hreq]⟩
  refine ⟨hlen, m0, m1, e30, e28, hreq, ?_, ?_, ?_, ?_, by decide, by decide, by decide⟩
  · rw [parse_image_error_eq]
    exact hok
  · unfold spec_required_length
    rw [e10, e18, e22, e28]
  · unfold parse_image_allocation
    rw [e18, e22]
    decide
  · rw [e18, e22]
    decide

/-- C11, counterexample: for the 10000 x 9000 RGB24 image every size fits 32
bits (the encoded file has 270036054 bytes, which `create_image_file` returns
as its length), and at pixel 89478486 the product `i * image_depth` is
2147483664, above the largest `int`, the index the loop computes is
-268399612, and the loop stores to that offset of the buffer it allocated. -/
theorem create_image_file_writes_before_buffer :
    depth_of_type large_image_24.type = some 24
      ∧ large_image_24.width = 10000 ∧ large_image_24.height = 9000
      ∧ 54 + 10000 * 9000 * 24 / 8 + 9000 * (4 - (10000 * 24 / 8) % 4) = 270036054
      ∧ 270036054 < 4294967296
      ∧ (∃ file, create_image_file large_image_24 (fun _ => 0) = some (file, 270036054))
      ∧ 89478486 < 10000 * 9000
      ∧ 89478486 * 24 = 2147483664
      ∧ product_fits 89478486 24 = false
      ∧ create_index 10000 24 89478486 = -268399612
      ∧ (-268399612 : Int) ∈ create_image_file_writes large_image_24 := by
  have hsize : u32 (u32 (usize (usize (usize (usize (large_image_24.height
      * large_image_24.width) * 24) / 8)
      + usize (large_image_24.height * create_padding large_image_24.width 24))) + 54)
      = 270036054 := by decide
  refine ⟨rfl, rfl, rfl, by decide, by decide, ?_, by decide, by decide, by decide, by decide, ?_⟩
  · exact ⟨_, by rw [create_image_file_eq large_image_24 _ 24 rfl, hsize]⟩
  · rw [create_image_file_writes_eq large_image_24 24 rfl]
    refine List.mem_flatMap.mpr ⟨89478486, List.mem_range.mpr (by decide), ?_⟩
    decide

/-- C12, counterexample: for the 8200 x 8200 RGBA32 image every size fits 32
bits (the encoded file has 268992854 bytes) and the `int32_t` fields are 0; at
pixel 67108864 the product `i * image_depth` of `create_image_file` is
`2 ^ 31`, above the largest `int`, the index the loop computes is -268402666,
and the loop stores to that offset of the buffer it allocated. -/
theorem header_round_trip_writes_before_buffer :
    depth_of_type large_image_32.type = some 32
      ∧ large_image_32.width = 8200 ∧ large_image_32.height = 8200
      ∧ large_image_32.reserved = 0 ∧ large_image_32.resolution_horizontal = 0
      ∧ large_image_32.resolution_vertical = 0
      ∧ 54 + 8200 * 8200 * 32 / 8 + 8200 * (4 - (8200 * 32 / 8) % 4) = 268992854
      ∧ 268992854 < 4294967296
      ∧ (∃ file, create_image_file large_image_32 (fun _ => 0) = some (file, 268992854))
      ∧ 67108864 < 8200 * 8200
      ∧ 67108864 * 32 = 2147483648
      ∧ product_fits 67108864 32 = false
      ∧ create_index 8200 32 67108864 = -268402666
      ∧ (-268402666 : Int) ∈ create_image_file_writes large_image_32 := by
  have hsize : u32 (u32 (usize (usize (usize (usize (large_image_32.height
      * large_image_32.width) * 32) / 8)
      + usize (large_image_32.height * create_padding large_image_32.width 32))) + 54)
      = 268992854 := by decide
  refine ⟨rfl, rfl, rfl, rfl, rfl, rfl, by decide, by decide, ?_, by decide, by decide,
    by decide, by decide, ?_⟩
  · exact ⟨_, by rw [create_image_file_eq large_image_32 _ 32 rfl, hsize]⟩
  · rw [create_image_file_writes_eq large_image_32 32 rfl]
    refine List.mem_flatMap.mpr ⟨67108864, List.mem_range.mpr (by decide), ?_⟩
    decide

/-- C3, counterexample: the 270036054-byte 24-bit file of width 10000 and
height 9000 is accepted, no size of it overflows 32-bit arithmetic, and the
empty payload is within its capacity of 33750000 bytes at 1 bit; the sequence
fails at its first step, the pixel loop of `parse_image` reading outside the
buffer (offset -268399612 at pixel 89478486). -/
theorem file_round_trip_24_leaves_buffer :
    large_file_24.length = 270036054
      ∧ (parse_image large_file_24 270036054 (fun _ => { r := 0, g := 0, b := 0, a := 0 })).2
          = ImageParseError.PARSE_ERROR_NO_ERROR
      ∧ read_u16 large_file_24 28 = 24
      ∧ spec_required_length large_file_24 = 270036054
      ∧ 10000 * 9000 * 24 < 4294967296
      ∧ determine_max_content
          (parse_image large_file_24 270036054 (fun _ => { r := 0, g := 0, b := 0, a := 0 })).1 1
          = 33750000
      ∧ embed_sequence large_file_24 270036054 [] [0, 0, 0, 0] 1
          (fun _ => { r := 0, g := 0, b := 0, a := 0 }) (fun _ => 0) = none := by
  obtain ⟨hlen, -, -, e10, e18, e22, e28, -⟩ := large_file_24_fields
  have hacc : (parse_image large_file_24 270036054
      (fun _ => { r := 0, g := 0, b := 0, a := 0 })).2
      = ImageParseError.PARSE_ERROR_NO_ERROR := by
    rw [parse_image_error_eq]
    exact large_file_24_accepted
  have hp := congrArg Prod.fst (parse_image_ok large_file_24 270036054
    (fun _ => { r := 0, g := 0, b := 0, a := 0 }) large_file_24_accepted)
  have ht : (parse_image large_file_24 270036054
      (fun _ => { r := 0, g := 0, b := 0, a := 0 })).1.type = large_image_24.type := by
    rw [hp]
    show type_of_depth (read_u16 large_file_24 28) = _
    rw [e28]
    rfl
  have hw : (parse_image large_file_24 270036054
      (fun _ => { r := 0, g := 0, b := 0, a := 0 })).1.width = large_image_24.width := by
    rw [hp]
    exact e18
  have hh : (parse_image large_file_24 270036054
      (fun _ => { r := 0, g := 0, b := 0, a := 0 })).1.height = large_image_24.height := by
    rw [hp]
    exact e22
  have hout : in_bounds (parse_image_pixel_reads large_file_24 270036054) 270036054 = false :=
    in_bounds_eq_false _ _ (-268399612) large_file_24_read_outside (by decide)
  refine ⟨hlen, hacc, e28, ?_, by decide, ?_, ?_⟩
  · unfold spec_required_length
    rw [e10, e18, e22, e28]
  · rw [determine_max_content_congr _ large_image_24 1 ht hw hh]
    decide
  · unfold embed_sequence
    simp only [hacc, hout, ne_eq, not_true_eq_false, if_false, if_true]

/-! ### The decoder inside the size bound -/

/-- C23 (amended). For a buffer on which `parse_image` reports no error, with
depth 16, 24 or 32 and `depth * width * height + 4 * height + 256 ≤ 2 ^ 31`,
every offset the pixel loop reads lies in the buffer of `length` bytes, and the
product `i * image_depth` of every iteration fits an `int`. -/
theorem parse_image_pixel_reads_in_bounds (raw_data : List Nat) (length : Nat)
    (junk : Nat → Pixel)
    (hacc : (parse_image raw_data length junk).2 = ImageParseError.PARSE_ERROR_NO_ERROR)
    (hd : read_u16 raw_data 28 = 16 ∨ read_u16 raw_data 28 = 24 ∨ read_u16 raw_data 28 = 32)
    (hfit : read_u16 raw_data 28 * (read_u32 raw_data 18 * read_u32 raw_data 22)
      + 4 * read_u32 raw_data 22 + 256 ≤ 2147483648) :
    (∀ k ∈ parse_image_pixel_reads raw_data length, 0 ≤ k ∧ k < (length : Int))
      ∧ ∀ i, i < read_u32 raw_data 18 * read_u32 raw_data 22 →
          product_fits i (read_u16 raw_data 28) = true := by
  have _hd := hd
  have hok : first_failing_check raw_data length = ImageParseError.PARSE_ERROR_NO_ERROR := by
    rw [← parse_image_error_eq raw_data length junk]
    exact hacc
  refine ⟨parse_reads_in_bounds raw_data length hok hfit, ?_⟩
  intro i hi
  have hp := product_le i _ (read_u16 raw_data 28) hi
  unfold product_fits
  exact decide_eq_true (by omega)

/-- C23, instance: the 2 x 1 sample file of depth 24. -/
theorem parse_image_pixel_reads_in_bounds_witness :
    (parse_image sample_file_24 62 (fun _ => { r := 9, g := 9, b := 9, a := 9 })).2
        = ImageParseError.PARSE_ERROR_NO_ERROR
      ∧ read_u16 sample_file_24 28 = 24
      ∧ (∀ k ∈ parse_image_pixel_reads sample_file_24 62, 0 ≤ k ∧ k < ((62 : Nat) : Int))
      ∧ ∀ i, i < read_u32 sample_file_24 18 * read_u32 sample_file_24 22 →
          product_fits i (read_u16 sample_file_24 28) = true :=
  ⟨by decide, by decide,
    parse_image_pixel_reads_in_bounds sample_file_24 62
      (fun _ => { r := 9, g := 9, b := 9, a := 9 }) (by decide) (by decide) (by decide)⟩

theorem parse_image_allocation_le (raw_data : List Nat) (length : Nat)
    (hdepth : 16 ≤ read_u16 raw_data 28)
    (hreq : spec_required_length raw_data ≤ length)
    (hfit : read_u16 raw_data 28 * (read_u32 raw_data 18 * read_u32 raw_data 22)
      + 4 * read_u32 raw_data 22 + 256 ≤ 2147483648) :
    parse_image_allocation raw_data = 8 * (read_u32 raw_data 18 * read_u32 raw_data 22)
      ∧ parse_image_allocation raw_data ≤ 4 * length := by
  have hwh : 16 * (read_u32 raw_data 18 * read_u32 raw_data 22)
      ≤ read_u16 raw_data 28 * (read_u32 raw_data 18 * read_u32 raw_data 22) :=
    Nat.mul_le_mul_right _ hdepth
  have hwhd : read_u32 raw_data 18 * read_u32 raw_data 22 * read_u16 raw_data 28
      = read_u16 raw_data 28 * (read_u32 raw_data 18 * read_u32 raw_data 22) := Nat.mul_comm _ _
  unfold spec_required_length at hreq
  have hw : read_u32 raw_data 18 < 4294967296 ∨ read_u32 raw_data 22 = 0 := by
    rcases Nat.eq_zero_or_pos (read_u32 raw_data 22) with h0 | h0
    · exact Or.inr h0
    · have : read_u32 raw_data 18 ≤ read_u32 raw_data 18 * read_u32 raw_data 22 :=
        Nat.le_mul_of_pos_right _ h0
      exact Or.inl (by omega)
  have e : parse_image_allocation raw_data
      = 8 * (read_u32 raw_data 18 * read_u32 raw_data 22) := by
    unfold parse_image_allocation
    rcases hw with hw | hw
    · rw [usize_small (by omega : 8 * read_u32 raw_data 18 < 18446744073709551616),
        Nat.mul_assoc, usize_small (by omega)]
    · rw [hw]
      simp [usize]
  refine ⟨e, ?_⟩
  rw [e]
  omega

/-- C20 (amended). A buffer that passes the length, magic, compression and
size checks with a depth of at least 16 other than 16, 24 and 32, and whose
header fields satisfy `depth * width * height + 4 * height + 256 ≤ 2 ^ 31`, is
decoded without error into an image of type `IMAGE_NONE`, whose
`determine_max_content` is 0 for every bit setting; the pixel loop reads no
byte of the buffer, and the pixel array allocated has `8 * width * height`
bytes, at most 4 times the length of the buffer. -/
theorem parse_image_unsupported_depth (raw_data : List Nat) (length : Nat) (junk : Nat → Pixel)
    (hchecks : 34 ≤ length ∧ raw_data.getD 0 0 = 66 ∧ raw_data.getD 1 0 = 77
      ∧ read_u32 raw_data 30 = 0 ∧ spec_required_length raw_data ≤ length)
    (hdepth : 16 ≤ read_u16 raw_data 28)
    (hother : read_u16 raw_data 28 ≠ 16 ∧ read_u16 raw_data 28 ≠ 24
      ∧ read_u16 raw_data 28 ≠ 32)
    (hfit : read_u16 raw_data 28 * (read_u32 raw_data 18 * read_u32 raw_data 22)
      + 4 * read_u32 raw_data 22 + 256 ≤ 2147483648) :
    (parse_image raw_data length junk).2 = ImageParseError.PARSE_ERROR_NO_ERROR
      ∧ (parse_image raw_data length junk).1.type = ImageType.IMAGE_NONE
      ∧ (∀ bits : Int, determine_max_content (parse_image raw_data length junk).1 bits = 0)
      ∧ parse_image_pixel_reads raw_data length = []
      ∧ parse_image_allocation raw_data = 8 * (read_u32 raw_data 18 * read_u32 raw_data 22)
      ∧ parse_image_allocation raw_data ≤ 4 * length := by
  obtain ⟨h1, h2, h3, h4, h5⟩ := hchecks
  have hok : first_failing_check raw_data length = ImageParseError.PARSE_ERROR_NO_ERROR :=
    (first_failing_check_none_iff raw_data length).mpr
      ⟨h1, h2, h3, h4, hdepth, by rw [required_length_exact raw_data hdepth hfit]; exact h5⟩
  have hp := parse_image_ok raw_data length junk hok
  have ht : (parse_image raw_data length junk).1.type = ImageType.IMAGE_NONE := by
    rw [hp]
    simp only [type_of_depth, if_neg hother.1, if_neg hother.2.1, if_neg hother.2.2]
  obtain ⟨ha1, ha2⟩ := parse_image_allocation_le raw_data length hdepth h5 hfit
  refine ⟨by rw [hp], ht, fun bits => determine_max_content_none _ bits ht, ?_, ha1, ha2⟩
  rw [parse_image_pixel_reads_ok raw_data length hok]
  exact flatMap_nil_of_forall _ _ (fun i => parse_pixel_reads_nil _ _ hother)

/-- C20, instance: the 1 x 1 sample file of depth 48. -/
theorem parse_image_unsupported_depth_witness :
    (parse_image sample_file_48 62 (fun _ => { r := 9, g := 9, b := 9, a := 9 })).2
        = ImageParseError.PARSE_ERROR_NO_ERROR
      ∧ (parse_image sample_file_48 62 (fun _ => { r := 9, g := 9, b := 9, a := 9 })).1.type
        = ImageType.IMAGE_NONE
      ∧ (∀ bits : Int, determine_max_content
          (parse_image sample_file_48 62 (fun _ => { r := 9, g := 9, b := 9, a := 9 })).1 bits
        = 0)
      ∧ parse_image_pixel_reads sample_file_48 62 = []
      ∧ parse_image_allocation sample_file_48
          = 8 * (read_u32 sample_file_48 18 * read_u32 sample_file_48 22)
      ∧ parse_image_allocation sample_file_48 ≤ 4 * 62 :=
  parse_image_unsupported_depth sample_file_48 62 (fun _ => { r := 9, g := 9, b := 9, a := 9 })
    (by decide) (by decide) (by decide) (by decide)

/-! ### The encoder and the codec round trip inside the size bound -/

/-- C11 (amended). For an image of a supported type with depth `d`, width
below `2 ^ 32` and `d * width * height + 4 * height + 256 ≤ 2 ^ 31`,
`create_image_file` returns a buffer of length
`54 + width * height * d / 8 + height * padding` whose header reads,
little-endian: `'B'`, `'M'`, the file size, `reserved`, 54, 40, width, height,
1 (16 bits), `d` (16 bits), 0, `height * width * d / 8`, the two resolutions,
0 and 0; every offset the pixel loop stores to lies in the buffer, past the
header. -/
theorem create_image_file_header (img : ImageData) (junk : Nat → Nat) (d : Nat)
    (htype : depth_of_type img.type = some d)
    (hw : img.width < 4294967296)
    (hfit : d * (img.width * img.height) + 4 * img.height + 256 ≤ 2147483648) :
    ∃ file,
      create_image_file img junk
          = some (file, 54 + img.width * img.height * d / 8
              + img.height * (4 - (img.width * d / 8) % 4))
        ∧ file.length = 54 + img.width * img.height * d / 8
            + img.height * (4 - (img.width * d / 8) % 4)
        ∧ file.getD 0 0 = 66 ∧ file.getD 1 0 = 77
        ∧ read_u32 file 2 = file.length
        ∧ read_u32 file 6 = toU32 img.reserved
        ∧ read_u32 file 10 = 54
        ∧ read_u32 file 14 = 40
        ∧ read_u32 file 18 = img.width
        ∧ read_u32 file 22 = img.height
        ∧ read_u16 file 26 = 1
        ∧ read_u16 file 28 = d
        ∧ read_u32 file 30 = 0
        ∧ read_u32 file 34 = img.height * img.width * d / 8
        ∧ read_u32 file 38 = toU32 img.resolution_horizontal
        ∧ read_u32 file 42 = toU32 img.resolution_vertical
        ∧ read_u32 file 46 = 0
        ∧ read_u32 file 50 = 0
        ∧ ∀ k ∈ create_image_file_writes img, 54 ≤ k ∧ k < (file.length : Int) := by
  have hd : d = 16 ∨ d = 24 ∨ d = 32 := by
    cases ht : img.type <;> rw [ht] at htype <;> simp [depth_of_type] at htype <;> omega
  obtain ⟨file, hfile, hlen, hframe, -⟩ := create_image_file_any img junk d htype hw hfit
  obtain ⟨m0, m1, f6, f10, f18, f22, f28, f30, f38, f42⟩ := read_header file img d _ hframe
  obtain ⟨f2, f14, f26, f34, f46, f50⟩ := read_header_rest file img d _ hframe
  obtain ⟨he1, -, -, he4⟩ := encoded_size_le img.width img.height d hd
  have hwhd : img.height * img.width * d = d * (img.width * img.height) := by
    rw [Nat.mul_comm img.height img.width, Nat.mul_comm]
  have hwh0 : img.width * img.height ≤ d * (img.width * img.height) :=
    Nat.le_mul_of_pos_left _ (by omega)
  have e34 : u32 (usize (usize (img.height * img.width) * d) / 8) % 4294967296
      = img.height * img.width * d / 8 := by
    have b1 : usize (img.height * img.width) = img.height * img.width :=
      usize_small (by rw [Nat.mul_comm]; omega)
    have b2 : usize (img.height * img.width * d) = img.height * img.width * d :=
      usize_small (by omega)
    rw [b1, b2, u32_small (by omega)]
    omega
  have hwrites := create_writes_in_bounds img d htype hfit
  rw [← hlen] at hwrites
  rw [he4] at hfile hlen f2
  refine ⟨file, hfile, hlen, m0, m1, ?_, ?_, f10, f14, ?_, ?_, f26, ?_, f30, ?_, ?_, ?_, f46,
    f50, hwrites⟩
  · rw [f2, hlen]; omega
  · rw [f6, toU32_mod]
  · rw [f18]; unfold u32; omega
  · rw [f22]; unfold u32; omega
  · rw [f28]; rcases hd with rfl | rfl | rfl <;> rfl
  · rw [f34, e34]
  · rw [f38, toU32_mod]
  · rw [f42, toU32_mod]

/-- C11, instance: a 2 x 1 RGB24 image. -/
theorem create_image_file_header_witness :
    ∃ file,
      create_image_file
          { type := ImageType.IMAGE_RGB24, height := 1, width := 2,
            buffer := [{ r := 1, g := 2, b := 3, a := 0 }, { r := 4, g := 5, b := 6, a := 0 }],
            resolution_horizontal := 2835, resolution_vertical := 2835, reserved := 3 }
          (fun _ => 170)
          = some (file, 54 + 2 * 1 * 24 / 8 + 1 * (4 - (2 * 24 / 8) % 4))
        ∧ file.length = 54 + 2 * 1 * 24 / 8 + 1 * (4 - (2 * 24 / 8) % 4)
        ∧ file.getD 0 0 = 66 ∧ file.getD 1 0 = 77
        ∧ read_u32 file 2 = file.length
        ∧ read_u32 file 6 = toU32 3
        ∧ read_u32 file 10 = 54
        ∧ read_u32 file 14 = 40
        ∧ read_u32 file 18 = 2
        ∧ read_u32 file 22 = 1
        ∧ read_u16 file 26 = 1
        ∧ read_u16 file 28 = 24
        ∧ read_u32 file 30 = 0
        ∧ read_u32 file 34 = 1 * 2 * 24 / 8
        ∧ read_u32 file 38 = toU32 2835
        ∧ read_u32 file 42 = toU32 2835
        ∧ read_u32 file 46 = 0
        ∧ read_u32 file 50 = 0
        ∧ ∀ k ∈ create_image_file_writes
            { type := ImageType.IMAGE_RGB24, height := 1, width := 2,
              buffer := [{ r := 1, g := 2, b := 3, a := 0 }, { r := 4, g := 5, b := 6, a := 0 }],
              resolution_horizontal := 2835, resolution_vertical := 2835, reserved := 3 },
            54 ≤ k ∧ k < (file.length : Int) :=
  create_image_file_header
    { type := ImageType.IMAGE_RGB24, height := 1, width := 2,
      buffer := [{ r := 1, g := 2, b := 3, a := 0 }, { r := 4, g := 5, b := 6, a := 0 }],
      resolution_horizontal := 2835, resolution_vertical := 2835, reserved := 3 }
    (fun _ => 170) 24 (by decide) (by decide) (by decide)


/-- C12 (amended). For an image of type RGBA16, RGB24 or RGBA32 with width
below `2 ^ 32` and `d * width * height + 4 * height + 256 ≤ 2 ^ 31`, whose
`int32_t` fields hold `int32_t` values, `parse_image` applied to the buffer and
length that `create_image_file` returns reports no error and yields the same
type, width, height, reserved value and horizontal and vertical resolution;
the pixel loops of both functions stay inside that buffer. -/
theorem header_round_trip (img : ImageData) (junk : Nat → Nat) (junk_pixels : Nat → Pixel)
    (d : Nat) (htype : depth_of_type img.type = some d)
    (hw : img.width < 4294967296)
    (hfit : d * (img.width * img.height) + 4 * img.height + 256 ≤ 2147483648)
    (hres : -2147483648 ≤ img.reserved ∧ img.reserved < 2147483648)
    (hrh : -2147483648 ≤ img.resolution_horizontal ∧ img.resolution_horizontal < 2147483648)
    (hrv : -2147483648 ≤ img.resolution_vertical ∧ img.resolution_vertical < 2147483648) :
    ∃ file n decoded,
      create_image_file img junk = some (file, n)
        ∧ parse_image file n junk_pixels = (decoded, ImageParseError.PARSE_ERROR_NO_ERROR)
        ∧ decoded.type = img.type
        ∧ decoded.width = img.width ∧ decoded.height = img.height
        ∧ decoded.reserved = img.reserved
        ∧ decoded.resolution_horizontal = img.resolution_horizontal
        ∧ decoded.resolution_vertical = img.resolution_vertical
        ∧ in_bounds (create_image_file_writes img) n = true
        ∧ in_bounds (parse_image_pixel_reads file n) n = true := by
  have hd : d = 16 ∨ d = 24 ∨ d = 32 := by
    cases ht : img.type <;> rw [ht] at htype <;> simp [depth_of_type] at htype <;> omega
  obtain ⟨file, hfile, hlen, hframe, -⟩ := create_image_file_any img junk d htype hw hfit
  obtain ⟨m0, m1, f6, f10, f18, f22, f28, f30, f38, f42⟩ := read_header file img d _ hframe
  obtain ⟨he1, he2, he3, he4⟩ := encoded_size_le img.width img.height d hd
  have e18 : read_u32 file 18 = img.width := by
    rw [f18]; unfold u32; omega
  have e22 : read_u32 file 22 = img.height := by
    rw [f22]; unfold u32; omega
  have e28 : read_u16 file 28 = d := by
    rw [f28]; rcases hd with rfl | rfl | rfl <;> rfl
  have e10 : u8 (read_u32 file 10) = 54 := by
    rw [f10]; rfl
  have hlt : 54 ≤ encoded_size img.width img.height d := he2
  have hreq := required_length_of_header file img.width img.height d hd hfit e10 e18 e22 e28
  have hok : first_failing_check file (encoded_size img.width img.height d)
      = ImageParseError.PARSE_ERROR_NO_ERROR := by
    rw [first_failing_check_none_iff]
    refine ⟨by clear he4 he3 he1 hreq hfile hlen; omega, m0, m1, f30, ?_, by rw [hreq]⟩
    rw [e28]
    rcases hd with rfl | rfl | rfl <;> decide
  have hparse := parse_image_ok file (encoded_size img.width img.height d) junk_pixels hok
  rw [e10, e18, e22, e28] at hparse
  have hwrites : in_bounds (create_image_file_writes img)
      (encoded_size img.width img.height d) = true := by
    rw [in_bounds_iff]
    intro k hk
    have := create_writes_in_bounds img d htype hfit k hk
    omega
  have hreads : in_bounds (parse_image_pixel_reads file (encoded_size img.width img.height d))
      (encoded_size img.width img.height d) = true := by
    rw [in_bounds_iff]
    exact parse_reads_in_bounds file _ hok (by rw [e18, e22, e28]; exact hfit)
  refine ⟨file, _, _, hfile, hparse, ?_, rfl, rfl, ?_, ?_, ?_, hwrites, hreads⟩
  · exact type_of_depth_of_type img.type d htype
  · show toInt32 ((read_u32 file 6 : Nat) : Int) = img.reserved
    rw [f6, toU32_mod]
    exact toInt32_toU32_any hres.1 hres.2
  · show toInt32 ((read_u32 file 38 : Nat) : Int) = img.resolution_horizontal
    rw [f38, toU32_mod]
    exact toInt32_toU32_any hrh.1 hrh.2
  · show toInt32 ((read_u32 file 42 : Nat) : Int) = img.resolution_vertical
    rw [f42, toU32_mod]
    exact toInt32_toU32_any hrv.1 hrv.2

/-- C12, instance: a 1 x 2 RGBA32 image with a negative reserved value. -/
theorem header_round_trip_witness :
    ∃ file n decoded,
      create_image_file
          { type := ImageType.IMAGE_RGBA32, height := 2, width := 1,
            buffer := [{ r := 1, g := 2, b := 3, a := 4 }, { r := 5, g := 6, b := 7, a := 8 }],
            resolution_horizontal := 2835, resolution_vertical := -7, reserved := -1 }
          (fun _ => 170) = some (file, n)
        ∧ parse_image file n (fun _ => { r := 9, g := 9, b := 9, a := 9 })
            = (decoded, ImageParseError.PARSE_ERROR_NO_ERROR)
        ∧ decoded.type = ImageType.IMAGE_RGBA32
        ∧ decoded.width = 1 ∧ decoded.height = 2
        ∧ decoded.reserved = -1
        ∧ decoded.resolution_horizontal = 2835
        ∧ decoded.resolution_vertical = -7
        ∧ in_bounds (create_image_file_writes
            { type := ImageType.IMAGE_RGBA32, height := 2, width := 1,
              buffer := [{ r := 1, g := 2, b := 3, a := 4 }, { r := 5, g := 6, b := 7, a := 8 }],
              resolution_horizontal := 2835, resolution_vertical := -7, reserved := -1 }) n = true
        ∧ in_bounds (parse_image_pixel_reads file n) n = true :=
  header_round_trip
    { type := ImageType.IMAGE_RGBA32, height := 2, width := 1,
      buffer := [{ r := 1, g := 2, b := 3, a := 4 }, { r := 5, g := 6, b := 7, a := 8 }],
      resolution_horizontal := 2835, resolution_vertical := -7, reserved := -1 }
    (fun _ => 170) (fun _ => { r := 9, g := 9, b := 9, a := 9 }) 32
    (by decide) (by decide) (by decide) (by decide) (by decide) (by decide)


/-! ### File-level round trip of 24-bit images -/

/-- Inside the size bound the pixel loop of `create_image_file` stays in the
buffer it allocates, and so does the pixel loop of `parse_image` on that
buffer. -/
theorem create_parse_in_bounds (img : ImageData) (junk : Nat → Nat) (d : Nat)
    (htype : depth_of_type img.type = some d)
    (hw : img.width < 4294967296)
    (hfit : d * (img.width * img.height) + 4 * img.height + 256 ≤ 2147483648) :
    ∃ file, create_image_file img junk = some (file, encoded_size img.width img.height d)
      ∧ in_bounds (create_image_file_writes img) (encoded_size img.width img.height d) = true
      ∧ in_bounds (parse_image_pixel_reads file (encoded_size img.width img.height d))
          (encoded_size img.width img.height d) = true := by
  have hd : d = 16 ∨ d = 24 ∨ d = 32 := by
    cases ht : img.type <;> rw [ht] at htype <;> simp [depth_of_type] at htype <;> omega
  obtain ⟨file, hfile, hlen, hframe, -⟩ := create_image_file_any img junk d htype hw hfit
  obtain ⟨m0, m1, f6, f10, f18, f22, f28, f30, f38, f42⟩ := read_header file img d _ hframe
  obtain ⟨he1, he2, he3, he4⟩ := encoded_size_le img.width img.height d hd
  have e18 : read_u32 file 18 = img.width := by
    rw [f18]; unfold u32; omega
  have e22 : read_u32 file 22 = img.height := by
    rw [f22]; unfold u32; omega
  have e28 : read_u16 file 28 = d := by
    rw [f28]; rcases hd with rfl | rfl | rfl <;> rfl
  have e10 : u8 (read_u32 file 10) = 54 := by
    rw [f10]; rfl
  have hreq := required_length_of_header file img.width img.height d hd hfit e10 e18 e22 e28
  have hok : first_failing_check file (encoded_size img.width img.height d)
      = ImageParseError.PARSE_ERROR_NO_ERROR := by
    rw [first_failing_check_none_iff]
    refine ⟨by clear he4 he3 he1 hreq hfile hlen; omega, m0, m1, f30, ?_, by rw [hreq]⟩
    rw [e28]
    rcases hd with rfl | rfl | rfl <;> decide
  refine ⟨file, hfile, ?_, ?_⟩
  · rw [in_bounds_iff]
    intro k hk
    have := create_writes_in_bounds img d htype hfit k hk
    omega
  · rw [in_bounds_iff]
    exact parse_reads_in_bounds file _ hok (by rw [e18, e22, e28]; exact hfit)

/-- C3 (amended). For a byte buffer that `parse_image` accepts with 24 bits per
pixel and `24 * width * height + 4 * height + 256 ≤ 2 ^ 31`, every `b` in 1..4
and every payload no longer than `determine_max_content`, the sequence
`parse_image`, set `reserved`, `embed_content`, `create_image_file`,
`parse_image`, `retrieve_content` succeeds, every pixel loop of the codec
staying inside its buffer, and returns the payload. -/
theorem file_round_trip_24 (raw_data payload spare : List Nat) (b : Nat)
    (junk_pixels junk_pixels2 : Nat → Pixel) (junk junk2 : Nat → Nat)
    (hraw : ∀ x ∈ raw_data, x < 256)
    (hacc : (parse_image raw_data raw_data.length junk_pixels).2
      = ImageParseError.PARSE_ERROR_NO_ERROR)
    (hdepth : read_u16 raw_data 28 = 24)
    (hfit : 24 * (read_u32 raw_data 18 * read_u32 raw_data 22) + 4 * read_u32 raw_data 22 + 256
      ≤ 2147483648)
    (hb : 1 ≤ b ∧ b ≤ 4)
    (hbytes : ∀ x ∈ payload, x < 256)
    (hcap : (payload.length : Int)
      ≤ determine_max_content (parse_image raw_data raw_data.length junk_pixels).1 b) :
    ∃ file flen out,
      embed_sequence raw_data raw_data.length payload spare b junk_pixels junk = some (file, flen)
        ∧ extract_sequence file flen b junk_pixels2 junk2 = some (out, payload.length)
        ∧ out.take payload.length = payload := by
  have hok : first_failing_check raw_data raw_data.length
      = ImageParseError.PARSE_ERROR_NO_ERROR := by
    rw [← parse_image_error_eq raw_data raw_data.length junk_pixels]; exact hacc
  have hin1 : in_bounds (parse_image_pixel_reads raw_data raw_data.length) raw_data.length
      = true := by
    rw [in_bounds_iff]
    exact parse_reads_in_bounds raw_data _ hok (by rw [hdepth]; exact hfit)
  have himg := congrArg Prod.fst (parse_image_ok raw_data raw_data.length junk_pixels hok)
  simp only at himg
  have hw32 := read_u32_lt raw_data 18 hraw
  have hh32 := read_u32_lt raw_data 22 hraw
  have ht0 : (parse_image raw_data raw_data.length junk_pixels).1.type
      = ImageType.IMAGE_RGB24 := by
    rw [himg, hdepth]; rfl
  have hw0 : (parse_image raw_data raw_data.length junk_pixels).1.width
      = read_u32 raw_data 18 := by rw [himg]
  have hh0 : (parse_image raw_data raw_data.length junk_pixels).1.height
      = read_u32 raw_data 22 := by rw [himg]
  have hlen0 : (parse_image raw_data raw_data.length junk_pixels).1.buffer.length
      = read_u32 raw_data 18 * read_u32 raw_data 22 := by
    rw [himg]
    simp only [List.length_map, List.length_range]
    exact u32_small (by omega)
  unfold embed_sequence
  simp only [hacc, hin1, ne_eq, not_true_eq_false, if_false, Bool.true_eq_false]
  clear himg hok hacc hin1
  generalize (parse_image raw_data raw_data.length junk_pixels).1 = img0 at ht0 hw0 hh0 hlen0 hcap ⊢
  generalize read_u32 raw_data 18 = w at hw0 hlen0 hfit hw32
  generalize read_u32 raw_data 22 = h at hh0 hlen0 hfit hh32
  clear hraw hdepth
  have hdlt := determine_max_content_lt img0 b
  have hL : toInt32 ((u32 payload.length : Nat) : Int) = payload.length := by
    have : u32 payload.length = payload.length := u32_small (by omega)
    rw [this]
    exact toInt32_of_fits (Int.natCast_nonneg _) (by omega)
  obtain ⟨img1, h1, t1, w1, h1h, b1, r1⟩ := set_reserved_facts img0 (toInt32 (u32 payload.length))
  rw [← h1]
  clear h1
  have hcap1 : (payload.length : Int) ≤ determine_max_content img1 b :=
    le_of_le_of_eq hcap (determine_max_content_congr img0 img1 b t1.symm w1.symm h1h.symm)
  obtain ⟨img2, hembed, t2, w2, h2h, r2, b2⟩ :=
    embed_content_ok img1 (payload ++ spare) payload.length b hcap1
  have hn : usize (w * h) = w * h := usize_small (by omega)
  rw [t1, w1, h1h, b1, ht0, hw0, hh0, hn] at b2
  have hbuf2 : img2.buffer.length = img2.width * img2.height := by
    rw [b2, embed_loop_length, hlen0, w2, h2h, w1, h1h, hw0, hh0]
  have hres2 : img2.reserved = payload.length := by rw [r2, r1, hL]
  have htype2 : img2.type = ImageType.IMAGE_RGB24 := by rw [t2, t1, ht0]
  have hw2 : img2.width < 4294967296 := by rw [w2, w1, hw0]; exact hw32
  have hfit2 : 24 * (img2.width * img2.height) + 4 * img2.height + 256 ≤ 2147483648 := by
    rw [w2, h2h, w1, h1h, hw0, hh0]; exact hfit
  obtain ⟨file, decoded, hfile, hparse2, ht3, hw3, hh3, hres3, hforall⟩ :=
    parse_create_24 img2 junk junk_pixels2 htype2 hw2 (by rw [h2h, h1h, hh0]; exact hh32)
      hfit2 hbuf2 (by rw [hres2]; exact Int.natCast_nonneg _) (by rw [hres2]; omega)
  obtain ⟨file2, hfile2, hin2, hin3⟩ :=
    create_parse_in_bounds img2 junk 24 (by rw [htype2]; rfl) hw2 hfit2
  have hsame : file2 = file := by
    rw [hfile] at hfile2
    exact (congrArg Prod.fst (Option.some.inj hfile2)).symm
  rw [hsame] at hin3
  rw [hres2] at hres3
  rw [w2, w1, hw0] at hw3
  rw [h2h, h1h, hh0] at hh3
  have hcap3 : (payload.length : Int) ≤ determine_max_content decoded b :=
    le_of_le_of_eq hcap (determine_max_content_congr img0 decoded b (ht0.trans ht3.symm)
      (hw0.trans hw3.symm) (hh0.trans hh3.symm))
  have hretr := retrieve_content_eq decoded b junk2 payload.length hres3 hcap3
  rw [ht3, hw3, hh3, hn, retrieve_loop_congr ImageType.IMAGE_RGB24 b payload.length _ _ hforall,
    b2] at hretr
  have hbound := capacity_bound img0 b payload.length hcap
  rw [hw0, hh0, hn, ht0] at hbound
  have hA : (if ¬ (embed_content img1 (payload ++ spare) payload.length b).1 = 0 then none
      else (create_image_file (embed_content img1 (payload ++ spare) payload.length b).2
          junk).bind (fun file =>
        if in_bounds (create_image_file_writes
            (embed_content img1 (payload ++ spare) payload.length b).2) file.2 = false then none
        else some file))
      = some (file, encoded_size img2.width img2.height 24) := by
    rw [hembed]
    simp only [not_true_eq_false, if_false]
    rw [hfile]
    simp only [Option.some_bind, hin2, Bool.true_eq_false, if_false]
  have hB : extract_sequence file (encoded_size img2.width img2.height 24) b junk_pixels2 junk2
      = some (retrieve_loop ImageType.IMAGE_RGB24 b payload.length (w * h)
          (embed_loop ImageType.IMAGE_RGB24 b (payload ++ spare) payload.length (w * h)
            img0.buffer 0 0)
          (memset (malloc (payload.length + 2) junk2) 0 payload.length) 0 0, payload.length) := by
    unfold extract_sequence
    simp only [hparse2, hin3, ne_eq, not_true_eq_false, if_false, Bool.true_eq_false]
    exact hretr
  exact ⟨file, _, _, hA, hB,
    retrieve_embed_loops ImageType.IMAGE_RGB24 b _ img0.buffer payload spare junk2
      (by omega) (by rw [hlen0]) hbound hbytes⟩

/-- C3, instance: the 2 x 1 24-bit sample file carries the 3 bytes
`[0xAB, 0xCD, 0xEF]` at 4 bits through the file-level round trip. -/
theorem file_round_trip_24_witness :
    ∃ file flen out,
      embed_sequence sample_file_24 sample_file_24.length [171, 205, 239] [0, 0, 0, 0] 4
          (fun _ => { r := 0, g := 0, b := 0, a := 0 }) (fun _ => 170) = some (file, flen)
        ∧ extract_sequence file flen 4 (fun _ => { r := 0, g := 0, b := 0, a := 0 })
            (fun _ => 85) = some (out, [171, 205, 239].length)
        ∧ out.take [171, 205, 239].length = [171, 205, 239] :=
  file_round_trip_24 sample_file_24 [171, 205, 239] [0, 0, 0, 0] 4
    (fun _ => { r := 0, g := 0, b := 0, a := 0 }) (fun _ => { r := 0, g := 0, b := 0, a := 0 })
    (fun _ => 170) (fun _ => 85)
    (by decide) (by decide) (by decide) (by decide) (by decide) (by decide) (by decide)

end BmpHider
